import Mathlib

/-!
Verification of the tilecutter Godot resource text-format parser/serializer
(`src/godot/godot_file.rs`) and the tile-set resource mapper
(`src/godot/resource.rs`).

The embedding models:
  * bytes of the input file as `Nat` (values 0..255);
  * Rust `String` values as `List Nat` of character codepoints (the tokenizer
    builds strings by pushing raw bytes `as char`, which is the identity on
    codepoints; the writer re-encodes them as UTF-8);
  * Rust `i64` as `Int` (with the `i64` range enforced where the source's
    `str::parse::<i64>` would reject an out-of-range literal);
  * Rust `f64` as the inductive `GFloat` below;
  * the fallible parser as `Except Err`, with a distinguished error for the
    `assert!` in `Tokenizer::save_byte` and a distinguished out-of-fuel error:
    every recursive loop takes explicit fuel, decremented once per iteration,
    so all definitions compute by kernel reduction.
-/

namespace Godot

/-- Character codes of a Lean string literal, used to transcribe the string
literals of the Rust source. -/
def strBytes (s : String) : List Nat := s.data.map Char.toNat

/-- Errors of the embedded parser.  `parseErr` carries the constant part of the
`bail!` message from the source (interpolated values are elided).
`assertFailed` models a failure of the `assert!` in `Tokenizer::save_byte`,
and `noFuel` is exhaustion of the explicit recursion fuel (never produced by
the real program, which recurses as long as input remains). -/
inductive Err where
  | parseErr (msg : String)
  | assertFailed
  | noFuel
deriving DecidableEq

/-- Model of Rust `f64` as used by this program.  Finite values are the exact
decimal numbers `m / 10 ^ k`; parsing a numeric literal produces the
normalized form (`k = 0`, or `m` nonzero and not divisible by 10).

Modelled from the spec: the external crate call `ryu::Buffer::format_finite`
and the stdlib call `str::parse::<f64>` are not part of this repository's
sources; per the spec they implement "the shortest round-trip decimal
representation" and decimal parsing, which this model realizes exactly on
decimal values (every finite `f64` is such a value). -/
inductive GFloat where
  | fin (m : Int) (k : Nat)
  | inf
  | negInf
  | nan
deriving DecidableEq

/-- Normalize a decimal mantissa/exponent pair: strip factors of ten from `m`
while the exponent is positive.  `0 / 10 ^ k` normalizes to `(0, 0)`. -/
def normFin : Int → Nat → GFloat
  | m, 0 => .fin m 0
  | m, k + 1 => if m % 10 = 0 then normFin (m / 10) k else .fin m (k + 1)

/-- A finite `GFloat` in the normalized form `normFin` produces. -/
def GFloat.normalized : GFloat → Prop
  | .fin m k => k = 0 ∨ (m ≠ 0 ∧ m % 10 ≠ 0)
  | _ => True

instance (g : GFloat) : Decidable g.normalized := by
  unfold GFloat.normalized
  cases g <;> infer_instance

/-- 10 ^ k as a structurally recursive function (kernel-reducible). -/
def pow10 : Nat → Nat
  | 0 => 1
  | k + 1 => 10 * pow10 k

/-- Decimal digit characters of `n+...`, least significant first; the first
argument is fuel (any value `≥ n` suffices, the callers pass `n`). -/
def natDigitsAux : Nat → Nat → List Nat
  | 0, _ => []
  | _, 0 => []
  | f + 1, n + 1 => ((n + 1) % 10 + 48) :: natDigitsAux f ((n + 1) / 10)

/-- Decimal digit characters of `n`, most significant first (`natDec 0 = "0"`). -/
def natDec (n : Nat) : List Nat := if n = 0 then [48] else (natDigitsAux n n).reverse

/-- `impl GodotFmt for i64` (godot_file.rs:658): base-10 rendering with an
explicit sign, computed digit by digit.  The source counts the digits and then
fills a buffer right to left from `(n % 10).abs()` under truncating division,
which emits exactly the base-10 digits of `|n|` behind a `-` sign for
negatives (the `modulus >= 10` branch is dead for `BASE = 10`). -/
def i64GodotFmt (n : Int) : List Nat :=
  (if n < 0 then [45] else []) ++ natDec n.natAbs

/-- Left-pad a digit list with zero characters up to the given length. -/
def leftPadZeros (ds : List Nat) (len : Nat) : List Nat :=
  List.replicate (len - ds.length) 48 ++ ds

/-- `impl GodotFmt for f64` (godot_file.rs:707, "corresponds to rtos_fix"):
zero renders as `0`, NaN as `nan`, the infinities as `inf` / `neg_inf`; any
other finite value is rendered by `ryu` (shortest round-trip decimal, modeled
exactly for decimal values, see `GFloat`) with a trailing `.0` stripped: for a
normalized `m / 10 ^ k` that is the digits of `m` with a decimal point
inserted `k` digits from the right (no point when `k = 0`). -/
def f64GodotFmt (g : GFloat) : List Nat :=
  match g with
  | .fin m k =>
    if m = 0 then [48]
    else
      let ds := leftPadZeros (natDec m.natAbs) (k + 1)
      let signPart : List Nat := if m < 0 then [45] else []
      if k = 0 then signPart ++ ds
      else signPart ++ ds.take (ds.length - k) ++ [46] ++ ds.drop (ds.length - k)
  | .nan => strBytes "nan"
  | .inf => strBytes "inf"
  | .negInf => strBytes "neg_inf"

/-- UTF-8 encoding of one codepoint (how the Rust writer emits a `char`). -/
def utf8Encode1 (c : Nat) : List Nat :=
  if c < 128 then [c]
  else if c < 2048 then [192 + c / 64, 128 + c % 64]
  else if c < 65536 then [224 + c / 4096, 128 + (c / 64) % 64, 128 + c % 64]
  else [240 + c / 262144, 128 + (c / 4096) % 64, 128 + (c / 64) % 64, 128 + c % 64]

/-- UTF-8 encoding of a Rust `String` written out by the writer. -/
def utf8 (s : List Nat) : List Nat := (s.map utf8Encode1).flatten

/-- `struct Vector2i` (godot_file.rs:391). -/
structure Vector2i where
  x : Int
  y : Int
deriving DecidableEq

/-- `enum Color` (godot_file.rs:416). -/
inductive Color where
  | rgba (r g b a : GFloat)
  | html (s : List Nat)
deriving DecidableEq

/-- `enum Value` (godot_file.rs:194). -/
inductive Value where
  | bool (b : Bool)
  | null
  | integer (n : Int)
  | double (g : GFloat)
  | string (s : List Nat)
  | stringName (s : List Nat)
  | color (c : Color)
  | vector2i (v : Vector2i)
  | subResource (s : List Nat)
  | extResource (s : List Nat)
deriving DecidableEq

/-- `enum Token` (godot_file.rs:441). -/
inductive Token where
  | curlyBracketOpen
  | curlyBracketClose
  | bracketOpen
  | bracketClose
  | parenthesisOpen
  | parenthesisClose
  | identifier (s : List Nat)
  | string (s : List Nat)
  | stringName (s : List Nat)
  | integer (n : Int)
  | double (g : GFloat)
  | color (s : List Nat)
  | colon
  | comma
  | period
  | equal
deriving DecidableEq

/-- `struct Tokenizer` (godot_file.rs:461): the remaining input bytes plus the
one-byte pushback buffer. -/
structure Tokenizer where
  saved : Option Nat
  bytes : List Nat
deriving DecidableEq

/-- `Tokenizer::next_byte` (godot_file.rs:467). -/
def Tokenizer.next_byte (t : Tokenizer) : Option (Nat × Tokenizer) :=
  match t.saved with
  | some c => some (c, ⟨none, t.bytes⟩)
  | none =>
    match t.bytes with
    | [] => none
    | c :: rest => some (c, ⟨none, rest⟩)

/-- `Tokenizer::save_byte` (godot_file.rs:477): `assert!(self.saved.is_none())`
is modeled as the `assertFailed` error. -/
def Tokenizer.save_byte (b : Nat) (t : Tokenizer) : Except Err Tokenizer :=
  match t.saved with
  | some _ => .error .assertFailed
  | none => .ok ⟨some b, t.bytes⟩

def isAsciiDigit (c : Nat) : Prop := 48 ≤ c ∧ c ≤ 57

instance (c : Nat) : Decidable (isAsciiDigit c) := by unfold isAsciiDigit; infer_instance

def isAsciiHexDigit (c : Nat) : Prop :=
  isAsciiDigit c ∨ (97 ≤ c ∧ c ≤ 102) ∨ (65 ≤ c ∧ c ≤ 70)

instance (c : Nat) : Decidable (isAsciiHexDigit c) := by unfold isAsciiHexDigit; infer_instance

def isAsciiAlphabetic (c : Nat) : Prop := (97 ≤ c ∧ c ≤ 122) ∨ (65 ≤ c ∧ c ≤ 90)

instance (c : Nat) : Decidable (isAsciiAlphabetic c) := by unfold isAsciiAlphabetic; infer_instance

def isAsciiAlphanumeric (c : Nat) : Prop := isAsciiAlphabetic c ∨ isAsciiDigit c

instance (c : Nat) : Decidable (isAsciiAlphanumeric c) := by
  unfold isAsciiAlphanumeric; infer_instance

/-- The comment-skipping loop (`b';' => loop { ... }`) shared by
`Tokenizer::next_token` (godot_file.rs:496) and `TagAssign::parse`
(godot_file.rs:161): consume through the next newline; `none` means end of
file was reached (the enclosing function returns `Ok(None)`). -/
def skipComment : Nat → Tokenizer → Except Err (Option Tokenizer)
  | 0, _ => .error .noFuel
  | f + 1, t =>
    match t.next_byte with
    | none => .ok none
    | some (c, t') => if c = 10 then .ok (some t') else skipComment f t'

/-- The hex-color loop of `Tokenizer::next_token` (godot_file.rs:506): gather
hex digits after `#`, push the terminating byte back; end of file during the
scan makes `next_token` return `Ok(None)`, dropping the token. -/
def colorLoop : Nat → List Nat → Tokenizer → Except Err (Option (Token × Tokenizer))
  | 0, _, _ => .error .noFuel
  | f + 1, acc, t =>
    match t.next_byte with
    | none => .ok none
    | some (c, t') =>
      if isAsciiHexDigit c then colorLoop f (acc ++ [c]) t'
      else
        match Tokenizer.save_byte c t' with
        | .ok t'' => .ok (some (.color acc, t''))
        | .error e => .error e

/-- The string-body loop of `Tokenizer::next_token` (godot_file.rs:537):
gather bytes until the closing quote, silently dropping newline bytes;
end of file is an unterminated-string error. -/
def stringLoop : Nat → List Nat → Tokenizer → Except Err (List Nat × Tokenizer)
  | 0, _, _ => .error .noFuel
  | f + 1, acc, t =>
    match t.next_byte with
    | none => .error (.parseErr "unterminated string")
    | some (c, t') =>
      if c = 34 then .ok (acc, t')
      else if c = 10 then stringLoop f acc t'
      else stringLoop f (acc ++ [c]) t'

/-- The identifier loop of `Tokenizer::next_token` (godot_file.rs:636):
continue through alphanumeric/underscore bytes, push the terminator back. -/
def identLoop : Nat → List Nat → Tokenizer → Except Err (List Nat × Tokenizer)
  | 0, _, _ => .error .noFuel
  | f + 1, acc, t =>
    match t.next_byte with
    | none => .ok (acc, t)
    | some (c, t') =>
      if isAsciiAlphanumeric c ∨ c = 95 then identLoop f (acc ++ [c]) t'
      else
        match Tokenizer.save_byte c t' with
        | .ok t'' => .ok (acc, t'')
        | .error e => .error e

/-- `enum Reading` of the number scanner (godot_file.rs:553). -/
inductive Reading where
  | int
  | dec
  | exp
deriving DecidableEq

/-- One step of the number scanner's state machine: from the current state and
byte, the next state (`none` = `Reading::Done`), whether the literal became a
float, and the updated exponent flags. -/
def numStep (reading : Reading) (expBegin expSign : Bool) (c : Nat) :
    Option Reading × Bool × Bool × Bool :=
  match reading with
  | .int =>
    if isAsciiDigit c then (some .int, false, expBegin, expSign)
    else if c = 46 then (some .dec, true, expBegin, expSign)
    else if c = 101 then (some .exp, true, expBegin, expSign)
    else (none, false, expBegin, expSign)
  | .dec =>
    if isAsciiDigit c then (some .dec, false, expBegin, expSign)
    else if c = 101 then (some .exp, true, expBegin, expSign)
    else (none, false, expBegin, expSign)
  | .exp =>
    if isAsciiDigit c then (some .exp, false, true, expSign)
    else if (c = 45 ∨ c = 43) ∧ ¬expBegin ∧ ¬expSign then (some .exp, false, expBegin, true)
    else (none, false, expBegin, expSign)

/-- The number-scanner loop of `Tokenizer::next_token` (godot_file.rs:576):
`next` is the byte in hand; on `Reading::Done` the byte in hand is stored into
`saved` (direct field write, not `save_byte`); the returned flag is
`is_float`. -/
def numLoop : Nat → Reading → Bool → Bool → Bool → List Nat → Option Nat → Tokenizer →
    Except Err (List Nat × Bool × Tokenizer)
  | 0, _, _, _, _, _, _, _ => .error .noFuel
  | f + 1, reading, isFloat, expBegin, expSign, num, next, t =>
    match next with
    | none => .ok (num, isFloat, ⟨none, t.bytes⟩)
    | some current =>
      match numStep reading expBegin expSign current with
      | (none, _, _, _) => .ok (num, isFloat, ⟨some current, t.bytes⟩)
      | (some reading', becameFloat, expBegin', expSign') =>
        match t.next_byte with
        | none =>
          numLoop f reading' (isFloat || becameFloat) expBegin' expSign'
            (num ++ [current]) none ⟨none, t.bytes⟩
        | some (c', t') =>
          numLoop f reading' (isFloat || becameFloat) expBegin' expSign'
            (num ++ [current]) (some c') t'

/-- Value of a list of decimal digit characters (callers check they are
digits). -/
def digitsVal (ds : List Nat) : Nat := ds.foldl (fun a d => a * 10 + (d - 48)) 0

/-- Shape of a nonempty run of decimal digit characters. -/
def allDigits (ds : List Nat) : Prop := ∀ c ∈ ds, isAsciiDigit c

instance (ds : List Nat) : Decidable (allDigits ds) := by
  unfold allDigits; infer_instance

/-- Split off the longest leading run of decimal digit characters. -/
def spanDigits : List Nat → List Nat × List Nat
  | [] => ([], [])
  | c :: rest =>
    if isAsciiDigit c then
      let (ds, rest') := spanDigits rest
      (c :: ds, rest')
    else ([], c :: rest)

/-- Model of `str::parse::<i64>` on the scanner's integer literal: an optional
sign, at least one digit, value within the `i64` range; anything else is a
parse error (`none`). -/
def parseI64 (s : List Nat) : Option Int :=
  match s with
  | [] => none
  | c :: rest =>
    let (neg, ds) : Bool × List Nat := if c = 45 then (true, rest) else (false, c :: rest)
    if ds = [] then none
    else if ¬allDigits ds then none
    else
      let v : Int := (digitsVal ds : Int)
      let v := if neg then -v else v
      if -(2 ^ 63) ≤ v ∧ v < 2 ^ 63 then some v else none

/-- Model of `str::parse::<f64>` on the scanner's float literal (see `GFloat`
for the modeling of the float value itself): an optional sign, digits with an
optional point (at least one digit on one side of it), and an optional
exponent with at least one digit. -/
def parseF64 (s : List Nat) : Option GFloat :=
  match s with
  | [] => none
  | c :: rest =>
    let (neg, body) : Bool × List Nat := if c = 45 then (true, rest) else (false, c :: rest)
    let (intDs, afterInt) := spanDigits body
    let fracDs : List Nat :=
      match afterInt with
      | 46 :: more => (spanDigits more).1
      | _ => []
    let afterPoint : List Nat :=
      match afterInt with
      | 46 :: more => (spanDigits more).2
      | _ => afterInt
    if intDs = [] ∧ fracDs = [] then none
    else
      let m0 : Int := (digitsVal (intDs ++ fracDs) : Int)
      let m0 := if neg then -m0 else m0
      let k0 := fracDs.length
      match afterPoint with
      | [] => some (normFin m0 k0)
      | 101 :: expPart =>
        let (expNeg, expDs) : Bool × List Nat :=
          match expPart with
          | 45 :: more => (true, more)
          | 43 :: more => (false, more)
          | _ => (false, expPart)
        if expDs = [] ∨ ¬allDigits expDs then none
        else
          let e := digitsVal expDs
          if expNeg then some (normFin m0 (k0 + e))
          else if e ≤ k0 then some (normFin m0 (k0 - e))
          else some (normFin (m0 * (pow10 (e - k0) : Nat)) 0)
      | _ => none

/-- The single-byte punctuation tokens of `Tokenizer::next_token`
(godot_file.rs:489-505, excluding the comment byte which produces no token).
The match arms are on pairwise distinct bytes, so collecting them into one
lookup preserves the arm-by-arm behavior. -/
def simpleToken (c : Nat) : Option Token :=
  if c = 123 then some .curlyBracketOpen
  else if c = 125 then some .curlyBracketClose
  else if c = 91 then some .bracketOpen
  else if c = 93 then some .bracketClose
  else if c = 40 then some .parenthesisOpen
  else if c = 41 then some .parenthesisClose
  else if c = 58 then some .colon
  else if c = 44 then some .comma
  else if c = 46 then some .period
  else if c = 61 then some .equal
  else none

/-- Entry state of the number scanner (godot_file.rs:564): a leading `-` is
pushed to the literal and the byte in hand becomes the following byte;
otherwise the digit itself is the byte in hand. -/
def numEntry (c : Nat) (t' : Tokenizer) : List Nat × Option Nat × Tokenizer :=
  if c = 45 then
    match t'.next_byte with
    | none => ([45], none, t')
    | some (c', t'') => ([45], some c', t'')
  else ([], some c, t')

/-- `Tokenizer::next_token` (godot_file.rs:482). -/
def nextToken : Nat → Tokenizer → Except Err (Option Token × Tokenizer)
  | 0, _ => .error .noFuel
  | f + 1, t =>
    match t.next_byte with
    | none => .ok (none, t)
    | some (c, t') =>
      match simpleToken c with
      | some tok => .ok (some tok, t')
      | none =>
        if c = 59 then
          match skipComment f t' with
          | .ok none => .ok (none, ⟨none, []⟩)
          | .ok (some t'') => nextToken f t''
          | .error e => .error e
        else if c = 35 then
          match colorLoop f [35] t' with
          | .ok none => .ok (none, ⟨none, []⟩)
          | .ok (some (tok, t'')) => .ok (some tok, t'')
          | .error e => .error e
        else if c = 34 ∨ c = 64 ∨ c = 38 then
          if c = 34 then
            match stringLoop f [] t' with
            | .ok (s, t'') => .ok (some (.string s), t'')
            | .error e => .error e
          else
            match t'.next_byte with
            | some (c', t'') =>
              if c' = 34 then
                match stringLoop f [] t'' with
                | .ok (s, t₃) => .ok (some (.stringName s), t₃)
                | .error e => .error e
              else .error (.parseErr "expected a quote after the string-name sigil")
            | none => .error (.parseErr "expected a quote after the string-name sigil")
        else if c = 45 ∨ isAsciiDigit c then
          match numLoop f .int false false false (numEntry c t').1 (numEntry c t').2.1
              (numEntry c t').2.2 with
          | .ok (num, isFloat, t₁) =>
            if isFloat then
              match parseF64 num with
              | some g => .ok (some (.double g), t₁)
              | none => .error (.parseErr "could not parse double")
            else
              match parseI64 num with
              | some n => .ok (some (.integer n), t₁)
              | none => .error (.parseErr "could not parse int")
          | .error e => .error e
        else if isAsciiAlphabetic c ∨ c = 95 then
          match identLoop f [c] t' with
          | .ok (s, t'') => .ok (some (.identifier s), t'')
          | .error e => .error e
        else if c ≤ 32 then nextToken f t'
        else .error (.parseErr "unexpected character")

deriving instance DecidableEq for Except

/-- `struct Field` (godot_file.rs:141). -/
structure Field where
  identifier : List Nat
  value : Value
deriving DecidableEq

/-- `struct TagAssign` (godot_file.rs:146). -/
structure TagAssign where
  assign : List Nat
  value : Value
deriving DecidableEq

/-- `struct Tag` (godot_file.rs:56). -/
structure Tag where
  name : List Nat
  fields : List Field
  assigns : List TagAssign
deriving DecidableEq

/-- `struct GodotFile` (godot_file.rs:51). -/
structure GodotFile where
  header : Tag
  tags : List Tag
deriving DecidableEq

/-- The argument loop of `Value::parse_int_constructor` (godot_file.rs:305):
after the first argument, a comma or closing parenthesis; then an integer, or
a closing parenthesis if no argument has been read yet. -/
def parseIntArgsLoop : Nat → List Int → Tokenizer → Except Err (List Int × Tokenizer)
  | 0, _, _ => .error .noFuel
  | f + 1, args, t =>
    let sep : Except Err (Option (List Int × Tokenizer) × Tokenizer) :=
      if args = [] then .ok (none, t)
      else
        match nextToken f t with
        | .ok (some .comma, t') => .ok (none, t')
        | .ok (some .parenthesisClose, t') => .ok (some (args, t'), t')
        | .ok (some _, _) => .error (.parseErr "expected a comma or a closing parenthesis")
        | .ok (none, _) => .error (.parseErr "expected a comma or a closing parenthesis")
        | .error e => .error e
    match sep with
    | .error e => .error e
    | .ok (some done, _) => .ok done
    | .ok (none, t₁) =>
      match nextToken f t₁ with
      | .ok (some (.integer v), t₂) => parseIntArgsLoop f (args ++ [v]) t₂
      | .ok (some .parenthesisClose, t₂) =>
        if args = [] then .ok (args, t₂)
        else .error (.parseErr "expected integer")
      | .ok (some _, _) => .error (.parseErr "expected integer")
      | .ok (none, _) => .error (.parseErr "expected integer")
      | .error e => .error e

/-- `Value::parse_int_constructor` (godot_file.rs:296). -/
def parse_int_constructor (f : Nat) (t : Tokenizer) : Except Err (List Int × Tokenizer) :=
  match nextToken f t with
  | .ok (some .parenthesisOpen, t') => parseIntArgsLoop f [] t'
  | .ok (some _, _) => .error (.parseErr "expected an opening parenthesis")
  | .ok (none, _) => .error (.parseErr "expected an opening parenthesis")
  | .error e => .error e

/-- The argument loop of `Value::parse_double_constructor` (godot_file.rs:337):
like the integer one, but integer tokens widen to floats (`value as f64`,
which is exact on the decimal model). -/
def parseDoubleArgsLoop : Nat → List GFloat → Tokenizer → Except Err (List GFloat × Tokenizer)
  | 0, _, _ => .error .noFuel
  | f + 1, args, t =>
    let sep : Except Err (Option (List GFloat × Tokenizer) × Tokenizer) :=
      if args = [] then .ok (none, t)
      else
        match nextToken f t with
        | .ok (some .comma, t') => .ok (none, t')
        | .ok (some .parenthesisClose, t') => .ok (some (args, t'), t')
        | .ok (some _, _) => .error (.parseErr "expected a comma or a closing parenthesis")
        | .ok (none, _) => .error (.parseErr "expected a comma or a closing parenthesis")
        | .error e => .error e
    match sep with
    | .error e => .error e
    | .ok (some done, _) => .ok done
    | .ok (none, t₁) =>
      match nextToken f t₁ with
      | .ok (some (.integer v), t₂) => parseDoubleArgsLoop f (args ++ [.fin v 0]) t₂
      | .ok (some (.double g), t₂) => parseDoubleArgsLoop f (args ++ [g]) t₂
      | .ok (some .parenthesisClose, t₂) =>
        if args = [] then .ok (args, t₂)
        else .error (.parseErr "expected float")
      | .ok (some _, _) => .error (.parseErr "expected float")
      | .ok (none, _) => .error (.parseErr "expected float")
      | .error e => .error e

/-- `Value::parse_double_constructor` (godot_file.rs:328). -/
def parse_double_constructor (f : Nat) (t : Tokenizer) : Except Err (List GFloat × Tokenizer) :=
  match nextToken f t with
  | .ok (some .parenthesisOpen, t') => parseDoubleArgsLoop f [] t'
  | .ok (some _, _) => .error (.parseErr "expected an opening parenthesis")
  | .ok (none, _) => .error (.parseErr "expected an opening parenthesis")
  | .error e => .error e

/-- The shared shape of the `SubResource("id")` / `ExtResource("id")` arms of
`Value::parse` (godot_file.rs:236 and 260, two verbatim copies in the
source): opening parenthesis, string argument, closing parenthesis. -/
def parseResourceArg (f : Nat) (t : Tokenizer) : Except Err (List Nat × Tokenizer) :=
  match nextToken f t with
  | .ok (some .parenthesisOpen, t₁) =>
    match nextToken f t₁ with
    | .ok (some (.string v), t₂) =>
      match nextToken f t₂ with
      | .ok (some .parenthesisClose, t₃) => .ok (v, t₃)
      | .ok (some _, _) => .error (.parseErr "expected a closing parenthesis")
      | .ok (none, _) => .error (.parseErr "expected a closing parenthesis")
      | .error e => .error e
    | .ok (some _, _) => .error (.parseErr "expected a string argument")
    | .ok (none, _) => .error (.parseErr "expected a string argument")
    | .error e => .error e
  | .ok (some _, _) => .error (.parseErr "expected an opening parenthesis")
  | .ok (none, _) => .error (.parseErr "expected an opening parenthesis")
  | .error e => .error e

/-- Dispatch result for a bareword identifier in value position. -/
inductive IdentValue where
  | simple (v : Value)
  | vector2iCtor
  | colorCtor
  | subResourceCtor
  | extResourceCtor
  | unknown
deriving DecidableEq

/-- The keyword dispatch of the identifier arm of `Value::parse`
(godot_file.rs:211), with the comparisons in source order (they are pairwise
distinct strings, so collecting them into one classifier preserves the
behavior). -/
def classifyIdent (id : List Nat) : IdentValue :=
  if id = strBytes "true" then .simple (.bool true)
  else if id = strBytes "false" then .simple (.bool false)
  else if id = strBytes "null" ∨ id = strBytes "nil" then .simple .null
  else if id = strBytes "inf" then .simple (.double .inf)
  else if id = strBytes "neg_inf" then .simple (.double .negInf)
  else if id = strBytes "nan" then .simple (.double .nan)
  else if id = strBytes "Vector2i" then .vector2iCtor
  else if id = strBytes "Color" then .colorCtor
  else if id = strBytes "SubResource" then .subResourceCtor
  else if id = strBytes "ExtResource" then .extResourceCtor
  else .unknown

/-- `Value::parse` (godot_file.rs:209). -/
def Value.parse (f : Nat) (t : Tokenizer) : Except Err (Value × Tokenizer) :=
  match nextToken f t with
  | .ok (some (.identifier id), t') =>
    match classifyIdent id with
    | .simple v => .ok (v, t')
    | .vector2iCtor =>
      match parse_int_constructor f t' with
      | .ok ([x, y], t₂) => .ok (.vector2i ⟨x, y⟩, t₂)
      | .ok (_, _) => .error (.parseErr "Vector2i requires 2 arguments")
      | .error e => .error e
    | .colorCtor =>
      match parse_double_constructor f t' with
      | .ok ([r, g, b, a], t₂) => .ok (.color (.rgba r g b a), t₂)
      | .ok (_, _) => .error (.parseErr "Color requires 4 arguments")
      | .error e => .error e
    | .subResourceCtor =>
      match parseResourceArg f t' with
      | .ok (v, t₂) => .ok (.subResource v, t₂)
      | .error e => .error e
    | .extResourceCtor =>
      match parseResourceArg f t' with
      | .ok (v, t₂) => .ok (.extResource v, t₂)
      | .error e => .error e
    | .unknown => .error (.parseErr "unsupported or unexpected value identifier")
  | .ok (some (.integer n), t') => .ok (.integer n, t')
  | .ok (some (.double g), t') => .ok (.double g, t')
  | .ok (some (.string s), t') => .ok (.string s, t')
  | .ok (some (.stringName s), t') => .ok (.stringName s, t')
  | .ok (some (.color s), t') => .ok (.color (.html s), t')
  | .ok (some _, _) => .error (.parseErr "unsupported or unexpected value token")
  | .ok (none, _) => .error (.parseErr "expected a value, but found end of file")
  | .error e => .error e

/-- The field loop of `Tag::parse` (godot_file.rs:79).  Note the faithful
quirk: a period or colon token first extends the tag name (when `parsing_tag`
is still set) and then falls into the let-else that requires an identifier,
so it is always a parse error; an identifier token itself clears
`parsing_tag`, so the `if parsing_tag` name-extension branch is dead code. -/
def fieldsLoop : Nat → List Nat → List Field → Bool → Tokenizer → Except Err (Tag × Tokenizer)
  | 0, _, _, _, _ => .error .noFuel
  | f + 1, name, fields, parsingTag, t =>
    match nextToken f t with
    | .error e => .error e
    | .ok (none, _) => .error (.parseErr "unexpected end of file while parsing tag")
    | .ok (some .bracketClose, t') => .ok (⟨name, fields, []⟩, t')
    | .ok (some tok, t') =>
      let name' :=
        if parsingTag ∧ tok = .period then name ++ [46]
        else if parsingTag ∧ tok = .colon then name ++ [58]
        else name
      let parsingTag' :=
        if parsingTag ∧ tok = .period then parsingTag
        else if parsingTag ∧ tok = .colon then parsingTag
        else false
      match tok with
      | .identifier id =>
        if parsingTag' then fieldsLoop f (name' ++ id) fields parsingTag' t'
        else
          match nextToken f t' with
          | .ok (some .equal, t₂) =>
            match Value.parse f t₂ with
            | .ok (v, t₃) => fieldsLoop f name' (fields ++ [⟨id, v⟩]) parsingTag' t₃
            | .error e => .error e
          | .ok (some _, _) => .error (.parseErr "expected an equals sign")
          | .ok (none, _) => .error (.parseErr "expected an equals sign")
          | .error e => .error e
      | _ => .error (.parseErr "expected an identifier")

/-- `Tag::parse` (godot_file.rs:63). -/
def Tag.parse (f : Nat) (t : Tokenizer) : Except Err (Option Tag × Tokenizer) :=
  match nextToken f t with
  | .ok (some .bracketOpen, t') =>
    match nextToken f t' with
    | .ok (some (.identifier name), t₂) =>
      match fieldsLoop f name [] true t₂ with
      | .ok (tag, t₃) => .ok (some tag, t₃)
      | .error e => .error e
    | .ok (some _, _) => .error (.parseErr "expected identifier tag name")
    | .ok (none, _) => .error (.parseErr "expected identifier tag name")
    | .error e => .error e
  | .ok (some _, _) => .error (.parseErr "unexpected token")
  | .ok (none, t') => .ok (none, t')
  | .error e => .error e

/-- `TagAssign::parse` (godot_file.rs:152); `what` is the accumulated path
(`String::new()` at the entry call). -/
def TagAssign.parse : Nat → List Nat → Tokenizer → Except Err (Option TagAssign × Tokenizer)
  | 0, _, _ => .error .noFuel
  | f + 1, what, t =>
    match t.next_byte with
    | none => .ok (none, t)
    | some (c, t') =>
      if c = 59 then
        match skipComment f t' with
        | .ok none => .ok (none, ⟨none, []⟩)
        | .ok (some t'') => TagAssign.parse f what t''
        | .error e => .error e
      else if c = 91 ∧ what = [] then
        match Tokenizer.save_byte 91 t' with
        | .ok t'' => .ok (none, t'')
        | .error e => .error e
      else if c = 34 then
        match Tokenizer.save_byte 34 t' with
        | .error e => .error e
        | .ok t₂ =>
          match nextToken f t₂ with
          | .ok (some (.string v), t₃) => TagAssign.parse f v t₃
          | .ok (some _, _) => .error (.parseErr "expected a quoted string")
          | .ok (none, _) => .error (.parseErr "expected a quoted string")
          | .error e => .error e
      else if c = 61 then
        match Value.parse f t' with
        | .ok (v, t₂) => .ok (some ⟨what, v⟩, t₂)
        | .error e => .error e
      else if c = 10 then TagAssign.parse f what t'
      else if c ≤ 32 then TagAssign.parse f what t'
      else TagAssign.parse f (what ++ [c]) t'

/-- The assign-collection loop of `parse_file` (godot_file.rs:39). -/
def parseAssignsLoop : Nat → List TagAssign → Tokenizer → Except Err (List TagAssign × Tokenizer)
  | 0, _, _ => .error .noFuel
  | f + 1, acc, t =>
    match TagAssign.parse f [] t with
    | .ok (some a, t') => parseAssignsLoop f (acc ++ [a]) t'
    | .ok (none, t') => .ok (acc, t')
    | .error e => .error e

/-- The tag-collection loop of `parse_file` (godot_file.rs:38). -/
def parseTagsLoop : Nat → List Tag → Tokenizer → Except Err (List Tag)
  | 0, _, _ => .error .noFuel
  | f + 1, acc, t =>
    match Tag.parse f t with
    | .ok (some tag, t') =>
      match parseAssignsLoop f tag.assigns t' with
      | .ok (assigns, t₂) => parseTagsLoop f (acc ++ [⟨tag.name, tag.fields, assigns⟩]) t₂
      | .error e => .error e
    | .ok (none, _) => .ok acc
    | .error e => .error e

/-- `const FORMAT_VERSION: i64 = 3` (godot_file.rs:9). -/
def FORMAT_VERSION : Int := 3

/-- The `find` over header fields in `parse_file` (godot_file.rs:26). -/
def findFormat : List Field → Option Field
  | [] => none
  | fld :: rest => if fld.identifier = strBytes "format" then some fld else findFormat rest

/-- The body of `parse_file` after the version gate (godot_file.rs:36). -/
def parseBody (f : Nat) (header : Tag) (t : Tokenizer) : Except Err GodotFile :=
  match parseTagsLoop f [] t with
  | .ok tags => .ok ⟨header, tags⟩
  | .error e => .error e

/-- `parse_file` (godot_file.rs:11) on the byte contents of the file. -/
def parse_file (f : Nat) (input : List Nat) : Except Err GodotFile :=
  match Tag.parse f ⟨none, input⟩ with
  | .ok (some header, t) =>
    match findFormat header.fields with
    | some fld =>
      if fld.value = .integer FORMAT_VERSION then parseBody f header t
      else .error (.parseErr "unexpected format version")
    | none => parseBody f header t
  | .ok (none, _) => .error (.parseErr "unexpected empty file")
  | .error e => .error e

/-- `impl GodotFmt for Color` (godot_file.rs:422): the rgba form renders its
components with the bare f64 formatter; the html form echoes its text. -/
def Color.godot_fmt : Color → List Nat
  | .rgba r g b a =>
    strBytes "Color(" ++ f64GodotFmt r ++ strBytes ", " ++ f64GodotFmt g ++ strBytes ", "
      ++ f64GodotFmt b ++ strBytes ", " ++ f64GodotFmt a ++ [41]
  | .html s => utf8 s

/-- `impl GodotFmt for Vector2i` (godot_file.rs:397). -/
def Vector2i.godot_fmt (v : Vector2i) : List Nat :=
  strBytes "Vector2i(" ++ i64GodotFmt v.x ++ strBytes ", " ++ i64GodotFmt v.y ++ [41]

/-- `impl GodotFmt for Value` (godot_file.rs:362).  Note the double case: the
bare f64 rendering gets `.0` appended when it is none of the fixed tokens and
contains neither a point nor an `e` — and the second comparison checks the
misspelled token `inf_neg`, which nevertheless stays un-suffixed because
`neg_inf` contains an `e`. -/
def Value.godot_fmt : Value → List Nat
  | .null => strBytes "null"
  | .bool true => strBytes "true"
  | .bool false => strBytes "false"
  | .integer n => i64GodotFmt n
  | .double g =>
    let s := f64GodotFmt g
    if s ≠ strBytes "inf" ∧ s ≠ strBytes "inf_neg" ∧ s ≠ strBytes "nan"
        ∧ ¬46 ∈ s ∧ ¬101 ∈ s
    then s ++ strBytes ".0" else s
  | .string s => [34] ++ utf8 s ++ [34]
  | .stringName s => [38, 34] ++ utf8 s ++ [34]
  | .color c => Color.godot_fmt c
  | .vector2i v => Vector2i.godot_fmt v
  | .subResource s => strBytes "SubResource(" ++ [34] ++ utf8 s ++ [34, 41]
  | .extResource s => strBytes "ExtResource(" ++ [34] ++ utf8 s ++ [34, 41]

/-- One `path = value` line written by `Tag::godot_fmt` (godot_file.rs:131). -/
def TagAssign.godot_fmt (a : TagAssign) : List Nat :=
  utf8 a.assign ++ strBytes " = " ++ Value.godot_fmt a.value ++ [10]

/-- `impl GodotFmt for Tag` (godot_file.rs:122): the bracketed header line,
then one line per assign. -/
def Tag.godot_fmt (tag : Tag) : List Nat :=
  [91] ++ utf8 tag.name
    ++ (tag.fields.map
        (fun fld => [32] ++ utf8 fld.identifier ++ [61] ++ Value.godot_fmt fld.value)).flatten
    ++ [93, 10]
    ++ (tag.assigns.map TagAssign.godot_fmt).flatten

/-- `GodotWriter::begin` followed by `write_tag` on each body tag
(godot_file.rs:737): the header immediately, then each tag preceded by a
blank line. -/
def writeGodotFile (gf : GodotFile) : List Nat :=
  Tag.godot_fmt gf.header ++ (gf.tags.map (fun tag => ([10] : List Nat) ++ Tag.godot_fmt tag)).flatten

/-- `struct TextureResource` (resource.rs:201). -/
structure TextureResource where
  uid : List Nat
  path : List Nat
  id : List Nat
deriving DecidableEq

/-- `struct PeeringBit` (resource.rs:419); the indices are Rust `u32`. -/
structure PeeringBit where
  bottom_right_side : Option Nat := none
  bottom_side : Option Nat := none
  bottom_left_side : Option Nat := none
  top_left_side : Option Nat := none
  top_side : Option Nat := none
  top_right_side : Option Nat := none
deriving DecidableEq

/-- `struct Tile` (resource.rs:344). -/
structure Tile where
  position : Vector2i
  terrain_set : Option Nat := none
  terrain : Option Nat := none
  terrains_peering_bit : PeeringBit := {}
deriving DecidableEq

/-- `struct TileSetAtlasSource` (resource.rs:273). -/
structure TileSetAtlasSource where
  id : List Nat
  texture : List Nat
  texture_region_size : Vector2i
  tiles : List Tile
deriving DecidableEq

/-- `struct TileSetResource` (resource.rs:9). -/
structure TileSetResource where
  uid : List Nat
  texture_resource : TextureResource
  tile_set_atlas_source : TileSetAtlasSource
deriving DecidableEq

/-- The field loop of `TextureResource::init_from_tag` (resource.rs:218),
threading `found_type` and the partially filled resource. -/
def textureFieldsLoop : List Field → Bool → TextureResource →
    Except Err (Bool × TextureResource)
  | [], ft, r => .ok (ft, r)
  | fld :: rest, ft, r =>
    if fld.identifier = strBytes "type" then
      match fld.value with
      | .string ty =>
        if ty = strBytes "Texture2D" then textureFieldsLoop rest true r
        else .error (.parseErr "expected texture resource type to be Texture2D")
      | _ => .error (.parseErr "expected type to be a string")
    else if fld.identifier = strBytes "uid" then
      match fld.value with
      | .string uid => textureFieldsLoop rest ft { r with uid := uid }
      | _ => .error (.parseErr "expected uid to be a string")
    else if fld.identifier = strBytes "path" then
      match fld.value with
      | .string path => textureFieldsLoop rest ft { r with path := path }
      | _ => .error (.parseErr "expected path to be a string")
    else if fld.identifier = strBytes "id" then
      match fld.value with
      | .string id => textureFieldsLoop rest ft { r with id := id }
      | _ => .error (.parseErr "expected id to be a string")
    else .error (.parseErr "unexpected ext_resource field")

/-- `TextureResource::init_from_tag` (resource.rs:209). -/
def TextureResource.init_from_tag (tag : Tag) : Except Err TextureResource :=
  match textureFieldsLoop tag.fields false ⟨[], [], []⟩ with
  | .error e => .error e
  | .ok (ft, r) =>
    if ¬ft then .error (.parseErr "expected texture resource type to be Texture2D")
    else if r.uid = [] then .error (.parseErr "missing texture resource uid")
    else if r.path = [] then .error (.parseErr "missing texture resource path")
    else if r.id = [] then .error (.parseErr "missing texture resource id")
    else .ok r

/-- The field loop of `TileSetAtlasSource::init_from_tag` (resource.rs:287). -/
def atlasFieldsLoop : List Field → Bool → List Nat → Except Err (Bool × List Nat)
  | [], ft, id => .ok (ft, id)
  | fld :: rest, ft, id =>
    if fld.identifier = strBytes "type" then
      match fld.value with
      | .string ty =>
        if ty = strBytes "TileSetAtlasSource" then atlasFieldsLoop rest true id
        else .error (.parseErr "expected tile atlas source type to be TileSetAtlasSource")
      | _ => .error (.parseErr "expected type to be a string")
    else if fld.identifier = strBytes "id" then
      match fld.value with
      | .string v => atlasFieldsLoop rest ft v
      | _ => .error (.parseErr "expected id to be a string")
    else .error (.parseErr "unexpected sub_resource field")

/-- The assign loop of `TileSetAtlasSource::init_from_tag` (resource.rs:310):
only `texture` is inspected, everything else is ignored. -/
def atlasAssignsLoop : List TagAssign → List Nat → Except Err (List Nat)
  | [], texture => .ok texture
  | a :: rest, texture =>
    if a.assign = strBytes "texture" then
      match a.value with
      | .extResource v => atlasAssignsLoop rest v
      | _ => .error (.parseErr "expected texture to be an ExtResource")
    else atlasAssignsLoop rest texture

/-- `TileSetAtlasSource::init_from_tag` (resource.rs:282). -/
def TileSetAtlasSource.init_from_tag (tag : Tag) : Except Err TileSetAtlasSource :=
  match atlasFieldsLoop tag.fields false [] with
  | .error e => .error e
  | .ok (ft, id) =>
    match atlasAssignsLoop tag.assigns [] with
    | .error e => .error e
    | .ok texture =>
      if ¬ft then .error (.parseErr "expected tile atlas source type to be TileSetAtlasSource")
      else if id = [] then .error (.parseErr "missing tile atlas source id")
      else if texture = [] then .error (.parseErr "missing tile atlas source texture")
      else .ok ⟨id, texture, ⟨0, 0⟩, []⟩

/-- The tag loop of `TileSetResource::init_from_file` (resource.rs:37). -/
def resourceTagsLoop : List Tag → Option TextureResource → Option TileSetAtlasSource →
    Except Err (Option TextureResource × Option TileSetAtlasSource)
  | [], tr, atlas => .ok (tr, atlas)
  | tag :: rest, tr, atlas =>
    if tag.name = strBytes "ext_resource" then
      match tr with
      | none =>
        match TextureResource.init_from_tag tag with
        | .ok r => resourceTagsLoop rest (some r) atlas
        | .error e => .error e
      | some _ => .error (.parseErr "expected only one ext_resource")
    else if tag.name = strBytes "sub_resource" then
      match atlas with
      | none =>
        match TileSetAtlasSource.init_from_tag tag with
        | .ok a => resourceTagsLoop rest tr (some a)
        | .error e => .error e
      | some _ => .error (.parseErr "expected only one sub_resource")
    else if tag.name = strBytes "resource" then resourceTagsLoop rest tr atlas
    else .error (.parseErr "unexpected tag")

/-- The `find` over header fields for `uid` (resource.rs:22). -/
def findUid : List Field → Option Field
  | [] => none
  | fld :: rest => if fld.identifier = strBytes "uid" then some fld else findUid rest

/-- `TileSetResource::init_from_file` (resource.rs:17). -/
def TileSetResource.init_from_file (file : GodotFile) : Except Err TileSetResource :=
  if file.header.name ≠ strBytes "gd_resource" then
    .error (.parseErr "expected a resource file")
  else
    match findUid file.header.fields with
    | some ⟨_, .string uid⟩ =>
      match resourceTagsLoop file.tags none none with
      | .error e => .error e
      | .ok (none, _) => .error (.parseErr "missing external Texture2D resource")
      | .ok (some _, none) => .error (.parseErr "missing TileSetAtlasSource resource")
      | .ok (some tr, some atlas) => .ok ⟨uid, tr, atlas⟩
    | _ => .error (.parseErr "expected a uid string on gd_resource")

/-- One optional `path/suffix = integer` assign of `Tile::append_assigns`. -/
def optAssign (path : List Nat) (suffix : String) (v : Option Nat) : List TagAssign :=
  match v with
  | some n => [⟨path ++ strBytes suffix, .integer (n : Int)⟩]
  | none => []

/-- `Tile::append_assigns` (resource.rs:353): the occupancy assign
`"{x}:{y}/0" = 0` always, then one conditional assign per optional field in
the source's push order (terrain_set, terrain, then the six peering-bit
directions).  `format!` renders `i64` with the same sign+digits text as
`i64GodotFmt`; the sequence of conditional `push` calls is modeled as list
concatenation in the same order. -/
def Tile.append_assigns (tile : Tile) (assigns : List TagAssign) : List TagAssign :=
  let path := i64GodotFmt tile.position.x ++ [58] ++ i64GodotFmt tile.position.y
    ++ strBytes "/0"
  assigns ++ [⟨path, .integer 0⟩]
    ++ optAssign path "/terrain_set" tile.terrain_set
    ++ optAssign path "/terrain" tile.terrain
    ++ optAssign path "/terrains_peering_bit/bottom_right_side"
        tile.terrains_peering_bit.bottom_right_side
    ++ optAssign path "/terrains_peering_bit/bottom_side"
        tile.terrains_peering_bit.bottom_side
    ++ optAssign path "/terrains_peering_bit/bottom_left_side"
        tile.terrains_peering_bit.bottom_left_side
    ++ optAssign path "/terrains_peering_bit/top_left_side"
        tile.terrains_peering_bit.top_left_side
    ++ optAssign path "/terrains_peering_bit/top_side"
        tile.terrains_peering_bit.top_side
    ++ optAssign path "/terrains_peering_bit/top_right_side"
        tile.terrains_peering_bit.top_right_side

/-- `TerrainConfig` (config.rs): only the `name` field is consumed here. -/
structure TerrainConfig where
  name : List Nat
deriving DecidableEq

/-- `TerrainSetConfig` (config.rs): only the `terrains` list is consumed. -/
structure TerrainSetConfig where
  terrains : List TerrainConfig
deriving DecidableEq

/-- `Config` (config.rs): only the `terrain_sets` list is consumed by
`print_to_file`. -/
structure Config where
  terrain_sets : List TerrainSetConfig
deriving DecidableEq

/-- The inner terrain loop of `print_to_file` (resource.rs:173), with the
running `enumerate` index. -/
def terrainAssigns (setIndex : Nat) : Nat → List TerrainConfig → List TagAssign
  | _, [] => []
  | i, terrain :: rest =>
    [⟨strBytes "terrain_set_" ++ natDec setIndex ++ strBytes "/terrain_" ++ natDec i
        ++ strBytes "/name", .string terrain.name⟩,
     ⟨strBytes "terrain_set_" ++ natDec setIndex ++ strBytes "/terrain_" ++ natDec i
        ++ strBytes "/color",
      .color (.rgba (.fin 0 0) (.fin 0 0) (.fin 0 0) (.fin 1 0))⟩]
      ++ terrainAssigns setIndex (i + 1) rest

/-- The terrain-set loop of `print_to_file` (resource.rs:167). -/
def terrainSetsAssigns : Nat → List TerrainSetConfig → List TagAssign
  | _, [] => []
  | i, ts :: rest =>
    [⟨strBytes "terrain_set_" ++ natDec i ++ strBytes "/mode", .integer 2⟩]
      ++ terrainAssigns i 0 ts.terrains
      ++ terrainSetsAssigns (i + 1) rest

/-- `TileSetResource::print_to_file` (resource.rs:73), modeled as the byte
text written to the destination file. -/
def TileSetResource.print_to_file (r : TileSetResource) (config : Config) : List Nat :=
  let header : Tag :=
    ⟨strBytes "gd_resource",
     [⟨strBytes "type", .string (strBytes "TileSet")⟩,
      ⟨strBytes "load_steps", .integer 3⟩,
      ⟨strBytes "format", .integer 3⟩,
      ⟨strBytes "uid", .string r.uid⟩], []⟩
  let image_tag : Tag :=
    ⟨strBytes "ext_resource",
     [⟨strBytes "type", .string (strBytes "Texture2D")⟩,
      ⟨strBytes "uid", .string r.texture_resource.uid⟩,
      ⟨strBytes "path", .string r.texture_resource.path⟩,
      ⟨strBytes "id", .string r.texture_resource.id⟩], []⟩
  let atlas_tag : Tag :=
    ⟨strBytes "sub_resource",
     [⟨strBytes "type", .string (strBytes "TileSetAtlasSource")⟩,
      ⟨strBytes "id", .string r.tile_set_atlas_source.id⟩],
     r.tile_set_atlas_source.tiles.foldl (fun acc tile => Tile.append_assigns tile acc)
       [⟨strBytes "texture", .extResource r.tile_set_atlas_source.texture⟩,
        ⟨strBytes "texture_region_size", .vector2i r.tile_set_atlas_source.texture_region_size⟩]⟩
  let resource_tag : Tag :=
    ⟨strBytes "resource", [],
     [⟨strBytes "tile_shape", .integer 3⟩,
      ⟨strBytes "tile_offset_axis", .integer 1⟩,
      ⟨strBytes "tile_size", .vector2i r.tile_set_atlas_source.texture_region_size⟩]
       ++ terrainSetsAssigns 0 config.terrain_sets
       ++ [⟨strBytes "sources/0", .subResource r.tile_set_atlas_source.id⟩]⟩
  writeGodotFile ⟨header, [image_tag, atlas_tag, resource_tag]⟩

/-- Number of body tags with the given name. -/
def countNamed (name : List Nat) : List Tag → Nat
  | [] => 0
  | tg :: rest => (if tg.name = name then 1 else 0) + countNamed name rest

/-- Every body tag is one of the three names the mapper understands. -/
def knownTagNames (tags : List Tag) : Prop :=
  ∀ tg ∈ tags, tg.name = strBytes "ext_resource" ∨ tg.name = strBytes "sub_resource"
    ∨ tg.name = strBytes "resource"

/-- The `"{x}:{y}/0"` occupancy key of a tile position. -/
def tilePath (pos : Vector2i) : List Nat :=
  i64GodotFmt pos.x ++ [58] ++ i64GodotFmt pos.y ++ strBytes "/0"

/-- The peering-bit assigns of a tile, in the fixed direction order of
`Tile::append_assigns`: bottom_right_side, bottom_side, bottom_left_side,
top_left_side, top_side, top_right_side. -/
def peeringAssigns (path : List Nat) (pb : PeeringBit) : List TagAssign :=
  optAssign path "/terrains_peering_bit/bottom_right_side" pb.bottom_right_side
    ++ optAssign path "/terrains_peering_bit/bottom_side" pb.bottom_side
    ++ optAssign path "/terrains_peering_bit/bottom_left_side" pb.bottom_left_side
    ++ optAssign path "/terrains_peering_bit/top_left_side" pb.top_left_side
    ++ optAssign path "/terrains_peering_bit/top_side" pb.top_side
    ++ optAssign path "/terrains_peering_bit/top_right_side" pb.top_right_side

/-- Number of populated peering-bit directions. -/
def countPeering (pb : PeeringBit) : Nat :=
  (if pb.bottom_right_side.isSome then 1 else 0)
    + (if pb.bottom_side.isSome then 1 else 0)
    + (if pb.bottom_left_side.isSome then 1 else 0)
    + (if pb.top_left_side.isSome then 1 else 0)
    + (if pb.top_side.isSome then 1 else 0)
    + (if pb.top_right_side.isSome then 1 else 0)

/-- Drop every newline character (what string lexing does to the quoted
content). -/
def removeNewlines : List Nat → List Nat
  | [] => []
  | c :: rest => if c = 10 then removeNewlines rest else c :: removeNewlines rest

/-- The minimal input document of the end-to-end scenario: header uid
`uid://abc`, one `ext_resource` (Texture2D, `uid://tex`, `res://a.png`,
`1_xyz`), one `sub_resource` (TileSetAtlasSource, `2_abc`) whose `texture`
assign references `1_xyz`. -/
def c2Input : List Nat := strBytes
  "[gd_resource type=\"TileSet\" format=3 uid=\"uid://abc\"]\n\n[ext_resource type=\"Texture2D\" uid=\"uid://tex\" path=\"res://a.png\" id=\"1_xyz\"]\n\n[sub_resource type=\"TileSetAtlasSource\" id=\"2_abc\"]\ntexture = ExtResource(\"1_xyz\")\n"

/-- The domain object the mapper must extract from `c2Input`. -/
def c2Resource : TileSetResource :=
  ⟨strBytes "uid://abc",
   ⟨strBytes "uid://tex", strBytes "res://a.png", strBytes "1_xyz"⟩,
   ⟨strBytes "2_abc", strBytes "1_xyz", ⟨0, 0⟩, []⟩⟩

/-- The domain object updated by the collaborating pipeline: region size
(16, 16) and a single tile at (0, 0) with no terrain data. -/
def c2Updated : TileSetResource :=
  ⟨strBytes "uid://abc",
   ⟨strBytes "uid://tex", strBytes "res://a.png", strBytes "1_xyz"⟩,
   ⟨strBytes "2_abc", strBytes "1_xyz", ⟨16, 16⟩, [⟨⟨0, 0⟩, none, none, {}⟩]⟩⟩

/-- The exact bytes `print_to_file` writes for `c2Updated` with no terrain
sets configured. -/
def c2Expected : List Nat := strBytes
  "[gd_resource type=\"TileSet\" load_steps=3 format=3 uid=\"uid://abc\"]\n\n[ext_resource type=\"Texture2D\" uid=\"uid://tex\" path=\"res://a.png\" id=\"1_xyz\"]\n\n[sub_resource type=\"TileSetAtlasSource\" id=\"2_abc\"]\ntexture = ExtResource(\"1_xyz\")\ntexture_region_size = Vector2i(16, 16)\n0:0/0 = 0\n\n[resource]\ntile_shape = 3\ntile_offset_axis = 1\ntile_size = Vector2i(16, 16)\nsources/0 = SubResource(\"2_abc\")\n"

/-! ### Infrastructure for the round-trip development -/

/-- The tokenizer state holding `rest`, with its first byte (if any) in the
pushback buffer — what the lexer leaves behind after pushing a terminator
back. -/
def pushback : List Nat → Tokenizer
  | [] => ⟨none, []⟩
  | c :: cs => ⟨some c, cs⟩

/-- A byte-in-hand plus stream pair for the number scanner, with the first
byte of the list in hand. -/
def feed : List Nat → Option Nat × Tokenizer
  | [] => (none, ⟨none, []⟩)
  | c :: cs => (some c, ⟨none, cs⟩)

/-- First character of an identifier (`is_ascii_alphabetic` or `_`). -/
def isIdentStart (c : Nat) : Prop := isAsciiAlphabetic c ∨ c = 95

instance (c : Nat) : Decidable (isIdentStart c) := by unfold isIdentStart; infer_instance

/-- Continuation character of an identifier. -/
def isIdentChar (c : Nat) : Prop := isAsciiAlphanumeric c ∨ c = 95

instance (c : Nat) : Decidable (isIdentChar c) := by unfold isIdentChar; infer_instance

/-- A byte sequence the tokenizer lexes as one identifier. -/
def validIdent : List Nat → Prop
  | [] => False
  | c :: rest => isIdentStart c ∧ ∀ x ∈ rest, isIdentChar x

instance (s : List Nat) : Decidable (validIdent s) := by
  unfold validIdent; cases s <;> infer_instance

/-- The stream does not continue an identifier. -/
def headNotIdent : List Nat → Prop
  | [] => True
  | c :: _ => ¬isIdentChar c

instance (s : List Nat) : Decidable (headNotIdent s) := by
  unfold headNotIdent; cases s <;> infer_instance

/-- The stream does not continue a numeric literal in any scanner state. -/
def headStopsNum : List Nat → Prop
  | [] => True
  | c :: _ => ¬isAsciiDigit c ∧ c ≠ 46 ∧ c ≠ 101

instance (s : List Nat) : Decidable (headStopsNum s) := by
  unfold headStopsNum; cases s <;> infer_instance

/-- The stream does not start with a decimal digit. -/
def headNotDigit : List Nat → Prop
  | [] => True
  | c :: _ => ¬isAsciiDigit c

instance (s : List Nat) : Decidable (headNotDigit s) := by
  unfold headNotDigit; cases s <;> infer_instance

/-- One ` identifier=value` field segment of a rendered tag header line. -/
def fieldText (fld : Field) : List Nat :=
  32 :: utf8 fld.identifier ++ 61 :: Value.godot_fmt fld.value

/-- The concatenated field segments of a rendered tag header line. -/
def fieldsText (fields : List Field) : List Nat := (fields.map fieldText).flatten

/-- The concatenated assign lines of a rendered tag. -/
def assignsText (assigns : List TagAssign) : List Nat :=
  (assigns.map TagAssign.godot_fmt).flatten

/-- The body-tag section of a rendered file: each tag preceded by the blank
line `write_tag` emits. -/
def tagsText (tags : List Tag) : List Nat :=
  (tags.map (fun tag => 10 :: Tag.godot_fmt tag)).flatten

/-- The stream does not continue a hex color literal, and is nonempty (at end
of input the color token would be lost, see `colorLoop`). -/
def headStopsHex : List Nat → Prop
  | [] => False
  | c :: _ => ¬isAsciiHexDigit c

instance (s : List Nat) : Decidable (headStopsHex s) := by
  unfold headStopsHex; cases s <;> infer_instance

/-- The delimiters that can follow a rendered value in this writer's output:
newline (after an assign), space or `]` (between and after fields), comma or
`)` (inside constructor arguments).  Each of them ends every token kind. -/
def valueStop : List Nat → Prop
  | [] => False
  | c :: _ => c = 10 ∨ c = 32 ∨ c = 93 ∨ c = 44 ∨ c = 41

instance (s : List Nat) : Decidable (valueStop s) := by
  unfold valueStop; cases s <;> infer_instance

/-- Printable-ASCII content without quote or newline: such a Rust string is
written verbatim (UTF-8 is the identity on it) and re-lexes to itself. -/
def asciiClean (s : List Nat) : Prop := ∀ c ∈ s, c < 127 ∧ c ≠ 34 ∧ c ≠ 10

instance (s : List Nat) : Decidable (asciiClean s) := by
  unfold asciiClean; infer_instance

/-- The html color payloads that round-trip: `#` followed by hex digits. -/
def validHtmlColor : List Nat → Prop
  | [] => False
  | c :: rest => c = 35 ∧ ∀ x ∈ rest, isAsciiHexDigit x

instance (s : List Nat) : Decidable (validHtmlColor s) := by
  unfold validHtmlColor; cases s <;> infer_instance

/-- The `i64` range (the Rust integer type of the Value model). -/
def i64Range (n : Int) : Prop := -(2 ^ 63) ≤ n ∧ n < 2 ^ 63

instance (n : Int) : Decidable (i64Range n) := by unfold i64Range; infer_instance

/-- A double that appears as a `Color` component and round-trips: finite,
normalized, and (when whole, hence re-lexed as an integer token) within the
`i64` range. -/
def GFloat.colorClean : GFloat → Prop
  | .fin m k => (k = 0 ∨ (m ≠ 0 ∧ m % 10 ≠ 0)) ∧ (k = 0 → i64Range m)
  | _ => False

instance (g : GFloat) : Decidable g.colorClean := by
  unfold GFloat.colorClean; cases g <;> infer_instance

/-- The payload restrictions under which a Value's rendered text re-parses to
an equal value. -/
def Value.clean : Value → Prop
  | .bool _ => True
  | .null => True
  | .integer n => i64Range n
  | .double g => g.normalized
  | .string s => asciiClean s
  | .stringName s => asciiClean s
  | .color (.rgba r g b a) => r.colorClean ∧ g.colorClean ∧ b.colorClean ∧ a.colorClean
  | .color (.html s) => validHtmlColor s
  | .vector2i v => i64Range v.x ∧ i64Range v.y
  | .subResource s => asciiClean s
  | .extResource s => asciiClean s

instance (v : Value) : Decidable v.clean := by
  unfold Value.clean
  cases v with
  | color c => cases c <;> infer_instance
  | _ => infer_instance

/-- Whether the rendered text of a value ends in a self-delimiting byte
(closing quote or parenthesis), so the lexer consumes it exactly; otherwise
the following delimiter is read and pushed back. -/
def valueSelfEnds : Value → Bool
  | .string _ => true
  | .stringName _ => true
  | .vector2i _ => true
  | .subResource _ => true
  | .extResource _ => true
  | .color (.rgba _ _ _ _) => true
  | _ => false

/-- The tokenizer state after parsing a rendered value followed by `rest`. -/
def valueEndState (v : Value) (rest : List Nat) : Tokenizer :=
  if valueSelfEnds v then ⟨none, rest⟩ else pushback rest

/-- An assign path that survives the byte-level path accumulation: printable
ASCII, no quote, comment, equals or bracket byte. -/
def pathClean (p : List Nat) : Prop :=
  ∀ c ∈ p, 32 < c ∧ c < 127 ∧ c ≠ 34 ∧ c ≠ 59 ∧ c ≠ 61 ∧ c ≠ 91

instance (p : List Nat) : Decidable (pathClean p) := by unfold pathClean; infer_instance

/-- Well-formedness of one field for the round-trip: a plain identifier and a
clean value. -/
def Field.clean (fld : Field) : Prop := validIdent fld.identifier ∧ fld.value.clean

instance (fld : Field) : Decidable fld.clean := by unfold Field.clean; infer_instance

/-- Well-formedness of one assign for the round-trip. -/
def TagAssign.clean (a : TagAssign) : Prop := pathClean a.assign ∧ a.value.clean

instance (a : TagAssign) : Decidable a.clean := by unfold TagAssign.clean; infer_instance

/-- Well-formedness of one tag for the round-trip. -/
def Tag.clean (tag : Tag) : Prop :=
  validIdent tag.name ∧ (∀ fld ∈ tag.fields, fld.clean) ∧ ∀ a ∈ tag.assigns, a.clean

instance (tag : Tag) : Decidable tag.clean := by unfold Tag.clean; infer_instance

/-- Well-formedness of a document produced by this writer that parses back
to itself: clean header without assigns, a passing format gate, and clean
body tags. -/
def GodotFile.clean (gf : GodotFile) : Prop :=
  gf.header.clean ∧ gf.header.assigns = []
    ∧ (findFormat gf.header.fields = none
        ∨ ∃ fld, findFormat gf.header.fields = some fld ∧ fld.value = .integer 3)
    ∧ ∀ tag ∈ gf.tags, tag.clean

instance (gf : GodotFile) : Decidable gf.clean := by
  unfold GodotFile.clean
  have : Decidable (findFormat gf.header.fields = none
      ∨ ∃ fld, findFormat gf.header.fields = some fld ∧ fld.value = .integer 3) := by
    cases h : findFormat gf.header.fields with
    | none => exact .isTrue (Or.inl rfl)
    | some fld =>
      cases hv : decide (fld.value = .integer 3) with
      | true => exact .isTrue (Or.inr ⟨fld, rfl, of_decide_eq_true hv⟩)
      | false =>
        refine .isFalse ?_
        rintro (h1 | ⟨fld', h2, h3⟩)
        · exact Option.noConfusion h1
        · rw [Option.some.injEq] at h2
          subst h2
          exact absurd (decide_eq_true h3) (by rw [hv]; decide)
  infer_instance

end Godot

namespace Godot

example : nextToken 100 ⟨none, strBytes "  hello("⟩ =
    .ok (some (.identifier (strBytes "hello")), ⟨some 40, []⟩) := by decide

example : nextToken 100 ⟨none, strBytes "-12.5)"⟩ =
    .ok (some (.double (.fin (-125) 1)), ⟨some 41, []⟩) := by decide

example : nextToken 100 ⟨none, strBytes "307 "⟩ =
    .ok (some (.integer 307), ⟨some 32, []⟩) := by decide

example : nextToken 100 ⟨none, strBytes "#ff00aa "⟩ =
    .ok (some (.color (strBytes "#ff00aa")), ⟨some 32, []⟩) := by decide

example : nextToken 100 ⟨none, strBytes "#ff00aa"⟩ = .ok (none, ⟨none, []⟩) := by decide

example : nextToken 100 ⟨none, [34, 97, 10, 98, 34]⟩ =
    .ok (some (.string [97, 98]), ⟨none, []⟩) := by decide

example : nextToken 100 ⟨none, strBytes "1e3 "⟩ =
    .ok (some (.double (.fin 1000 0)), ⟨some 32, []⟩) := by decide

example : nextToken 100 ⟨none, strBytes "1.50,"⟩ =
    .ok (some (.double (.fin 15 1)), ⟨some 44, []⟩) := by decide

end Godot

namespace Godot

/-! ## Supporting lemmas -/

/-- One step of `stringLoop` on a nonempty plain stream. -/
theorem stringLoop_cons (f : Nat) (acc : List Nat) (c : Nat) (bs : List Nat) :
    stringLoop (f + 1) acc ⟨none, c :: bs⟩ =
      if c = 34 then .ok (acc, ⟨none, bs⟩)
      else if c = 10 then stringLoop f acc ⟨none, bs⟩
      else stringLoop f (acc ++ [c]) ⟨none, bs⟩ := rfl

/-- String-body lexing: quote-free content up to the closing quote is
accumulated with every newline byte dropped. -/
theorem stringLoop_spec (content : List Nat) (h : ∀ c ∈ content, c ≠ 34) :
    ∀ (f : Nat) (acc rest : List Nat),
      stringLoop (f + content.length + 1) acc ⟨none, content ++ 34 :: rest⟩
        = .ok (acc ++ removeNewlines content, ⟨none, rest⟩) := by
  induction content with
  | nil =>
    intro f acc rest
    simp [stringLoop, Tokenizer.next_byte, removeNewlines]
  | cons c cs ih =>
    intro f acc rest
    have hc : c ≠ 34 := h c (by simp)
    have hcs : ∀ x ∈ cs, x ≠ 34 := fun x hx => h x (by simp [hx])
    have hlen : f + (c :: cs).length + 1 = (f + cs.length + 1) + 1 := by
      simp [List.length_cons]; omega
    rw [hlen, List.cons_append, stringLoop_cons, if_neg hc]
    by_cases hc10 : c = 10
    · rw [if_pos hc10, ih hcs f acc rest]
      simp [removeNewlines, hc10]
    · rw [if_neg hc10, ih hcs f (acc ++ [c]) rest]
      simp [removeNewlines, hc10]

/-- Length of one optional tile assign. -/
theorem optAssign_length (p : List Nat) (s : String) (v : Option Nat) :
    (optAssign p s v).length = if v.isSome then 1 else 0 := by
  cases v <;> rfl

/-- Counting invariant of the mapper's tag loop: on success, the
`ext_resource` and `sub_resource` occurrences (plus what was already found)
are each exactly the final occupancy, and every tag name was recognized. -/
theorem resourceTagsLoop_counts (tags : List Tag) :
    ∀ (tr : Option TextureResource) (atlas : Option TileSetAtlasSource) tr' atlas',
      resourceTagsLoop tags tr atlas = .ok (tr', atlas') →
      countNamed (strBytes "ext_resource") tags + (if tr.isSome then 1 else 0)
          = (if tr'.isSome then 1 else 0)
      ∧ countNamed (strBytes "sub_resource") tags + (if atlas.isSome then 1 else 0)
          = (if atlas'.isSome then 1 else 0)
      ∧ knownTagNames tags := by
  induction tags with
  | nil =>
    intro tr atlas tr' atlas' h
    simp only [resourceTagsLoop, Except.ok.injEq, Prod.mk.injEq] at h
    obtain ⟨h1, h2⟩ := h
    subst h1; subst h2
    simp [countNamed, knownTagNames]
  | cons tg rest ih =>
    intro tr atlas tr' atlas' h
    simp only [resourceTagsLoop] at h
    by_cases hext : tg.name = strBytes "ext_resource"
    · rw [if_pos hext] at h
      cases tr with
      | some _ => simp at h
      | none =>
        cases hinit : TextureResource.init_from_tag tg with
        | error e => rw [hinit] at h; simp at h
        | ok r =>
          rw [hinit] at h
          obtain ⟨h1, h2, h3⟩ := ih (some r) atlas tr' atlas' h
          refine ⟨?_, ?_, ?_⟩
          · simp only [countNamed, if_pos hext, Option.isSome_some, Option.isSome_none] at h1 ⊢
            simp at h1 ⊢
            omega
          · have hsub : tg.name ≠ strBytes "sub_resource" := by rw [hext]; decide
            simp only [countNamed, if_neg hsub] at h2 ⊢
            omega
          · intro tg' htg'
            rcases List.mem_cons.mp htg' with h' | h'
            · subst h'; exact Or.inl hext
            · exact h3 tg' h'
    · rw [if_neg hext] at h
      by_cases hsub : tg.name = strBytes "sub_resource"
      · rw [if_pos hsub] at h
        cases atlas with
        | some _ => simp at h
        | none =>
          cases hinit : TileSetAtlasSource.init_from_tag tg with
          | error e => rw [hinit] at h; simp at h
          | ok a =>
            rw [hinit] at h
            obtain ⟨h1, h2, h3⟩ := ih tr (some a) tr' atlas' h
            refine ⟨?_, ?_, ?_⟩
            · simp only [countNamed, if_neg hext] at h1 ⊢
              omega
            · simp only [countNamed, if_pos hsub, Option.isSome_some, Option.isSome_none] at h2 ⊢
              simp at h2 ⊢
              omega
            · intro tg' htg'
              rcases List.mem_cons.mp htg' with h' | h'
              · subst h'; exact Or.inr (Or.inl hsub)
              · exact h3 tg' h'
      · rw [if_neg hsub] at h
        by_cases hres : tg.name = strBytes "resource"
        · rw [if_pos hres] at h
          obtain ⟨h1, h2, h3⟩ := ih tr atlas tr' atlas' h
          refine ⟨?_, ?_, ?_⟩
          · simp only [countNamed, if_neg hext] at h1 ⊢
            omega
          · simp only [countNamed, if_neg hsub] at h2 ⊢
            omega
          · intro tg' htg'
            rcases List.mem_cons.mp htg' with h' | h'
            · subst h'; exact Or.inr (Or.inr hres)
            · exact h3 tg' h'
        · rw [if_neg hres] at h
          simp at h

end Godot

namespace Godot

/-! ## Claim theorems -/

set_option maxRecDepth 40000 in
/-- C2: end-to-end scenario.  Parsing the minimal input document and mapping
it yields the domain object preserving the header uid, texture uid/path/id
and atlas id verbatim; rebuilding with one tile at (0,0), region size
(16,16) and no terrain sets writes exactly `c2Expected`, whose header carries
`load_steps=3`, whose `ext_resource` tag is byte-identical to the input's,
whose `sub_resource` tag carries the `texture_region_size = Vector2i(16, 16)`
and `0:0/0 = 0` assigns, and whose trailing `resource` tag ends with
`sources/0 = SubResource("2_abc")`. -/
theorem c2_end_to_end_scenario :
    (parse_file 2000 c2Input).map TileSetResource.init_from_file = .ok (.ok c2Resource)
    ∧ TileSetResource.print_to_file c2Updated ⟨[]⟩ = c2Expected
    ∧ strBytes "load_steps=3" <:+: c2Expected
    ∧ strBytes "[ext_resource type=\"Texture2D\" uid=\"uid://tex\" path=\"res://a.png\" id=\"1_xyz\"]\n"
        <:+: c2Input
    ∧ strBytes "[ext_resource type=\"Texture2D\" uid=\"uid://tex\" path=\"res://a.png\" id=\"1_xyz\"]\n"
        <:+: c2Expected
    ∧ strBytes "texture_region_size = Vector2i(16, 16)\n" <:+: c2Expected
    ∧ strBytes "0:0/0 = 0\n" <:+: c2Expected
    ∧ strBytes "\n[resource]\ntile_shape = 3\ntile_offset_axis = 1\ntile_size = Vector2i(16, 16)\nsources/0 = SubResource(\"2_abc\")\n"
        <:+ c2Expected := by
  decide

/-- C5: the claim says a tag header whose name contains a period or colon
token before the first field (such as `[a.b]` or `[a:b]`) parses successfully
with the compound name.  The code instead appends the punctuation to the name
and then unconditionally demands an identifier token, so both inputs are
parse errors — the name-extension code is dead. -/
theorem c5_compound_tag_name_is_rejected :
    Tag.parse 100 ⟨none, strBytes "[a.b]"⟩ = .error (.parseErr "expected an identifier")
    ∧ Tag.parse 100 ⟨none, strBytes "[a:b]"⟩ = .error (.parseErr "expected an identifier")
    ∧ Tag.parse 100 ⟨none, strBytes "[ab]"⟩ =
        .ok (some ⟨strBytes "ab", [], []⟩, ⟨none, []⟩) := by
  decide

/-- C7: schema cardinality.  `init_from_file` fails (returns an error) for
every document whose `ext_resource` tag count differs from one, or whose
`sub_resource` tag count differs from one, or that contains a body tag with
an unrecognized name. -/
theorem c7_schema_cardinality (file : GodotFile)
    (hbad : countNamed (strBytes "ext_resource") file.tags ≠ 1
      ∨ countNamed (strBytes "sub_resource") file.tags ≠ 1
      ∨ ¬knownTagNames file.tags) :
    ∃ e, TileSetResource.init_from_file file = .error e := by
  cases hres : TileSetResource.init_from_file file with
  | error e => exact ⟨e, rfl⟩
  | ok r =>
    exfalso
    unfold TileSetResource.init_from_file at hres
    split at hres
    · simp at hres
    · split at hres
      · rename_i uid heq
        split at hres
        · simp at hres
        · simp at hres
        · simp at hres
        · rename_i tr atlas hloop
          obtain ⟨h1, h2, h3⟩ := resourceTagsLoop_counts file.tags none none (some tr)
            (some atlas) hloop
          simp at h1 h2
          rcases hbad with hb | hb | hb
          · exact hb h1
          · exact hb h2
          · exact hb h3
      · simp at hres

/-- C7 witness: a document with two `ext_resource` tags is rejected. -/
theorem c7_schema_cardinality_witness :
    (countNamed (strBytes "ext_resource")
        [⟨strBytes "ext_resource", [], []⟩, ⟨strBytes "ext_resource", [], []⟩] ≠ 1)
    ∧ ∃ e, TileSetResource.init_from_file
        ⟨⟨strBytes "gd_resource", [⟨strBytes "uid", .string (strBytes "u")⟩], []⟩,
         [⟨strBytes "ext_resource", [], []⟩, ⟨strBytes "ext_resource", [], []⟩]⟩ = .error e :=
  ⟨by decide,
   c7_schema_cardinality
     ⟨⟨strBytes "gd_resource", [⟨strBytes "uid", .string (strBytes "u")⟩], []⟩,
      [⟨strBytes "ext_resource", [], []⟩, ⟨strBytes "ext_resource", [], []⟩]⟩
     (Or.inl (by decide))⟩

/-- C8 counterexample: a tile carrying a terrain set, a terrain and exactly
two populated peering-bit directions emits five assigns (occupancy,
terrain_set, terrain and the two peering bits), not the four the claim
states. -/
theorem c8_tile_assign_count_counterexample :
    countPeering ⟨none, some 4, none, none, some 5, none⟩ = 2
    ∧ (Tile.append_assigns
        ⟨⟨0, 0⟩, some 1, some 0, ⟨none, some 4, none, none, some 5, none⟩⟩ []).length = 5
    ∧ (Tile.append_assigns
        ⟨⟨0, 0⟩, some 1, some 0, ⟨none, some 4, none, none, some 5, none⟩⟩ []).length ≠ 4 := by
  decide

/-- C8 amended: a tile carrying only a position emits exactly the one
occupancy assign `"{x}:{y}/0" = 0`; a tile carrying a terrain set, a terrain
and exactly two populated peering-bit directions emits exactly five assigns:
occupancy, terrain_set, terrain, then the two populated peering bits in the
fixed direction order of `peeringAssigns` (unset directions emit nothing). -/
theorem c8_tile_assign_shape_amended (asgns : List TagAssign) (pos : Vector2i) :
    (Tile.append_assigns ⟨pos, none, none, {}⟩ asgns
      = asgns ++ [⟨tilePath pos, .integer 0⟩])
    ∧ ∀ (ts tn : Nat) (pb : PeeringBit), countPeering pb = 2 →
        Tile.append_assigns ⟨pos, some ts, some tn, pb⟩ asgns
          = asgns ++ [⟨tilePath pos, .integer 0⟩,
              ⟨tilePath pos ++ strBytes "/terrain_set", .integer (ts : Int)⟩,
              ⟨tilePath pos ++ strBytes "/terrain", .integer (tn : Int)⟩]
            ++ peeringAssigns (tilePath pos) pb
          ∧ (peeringAssigns (tilePath pos) pb).length = 2
          ∧ (Tile.append_assigns ⟨pos, some ts, some tn, pb⟩ asgns).length
              = asgns.length + 5 := by
  have hone : Tile.append_assigns ⟨pos, none, none, {}⟩ asgns
      = asgns ++ [⟨tilePath pos, .integer 0⟩] := by
    simp [Tile.append_assigns, tilePath, optAssign]
  refine ⟨hone, ?_⟩
  intro ts tn pb h2
  have hshape : Tile.append_assigns ⟨pos, some ts, some tn, pb⟩ asgns
      = asgns ++ [⟨tilePath pos, .integer 0⟩,
          ⟨tilePath pos ++ strBytes "/terrain_set", .integer (ts : Int)⟩,
          ⟨tilePath pos ++ strBytes "/terrain", .integer (tn : Int)⟩]
        ++ peeringAssigns (tilePath pos) pb := by
    simp [Tile.append_assigns, tilePath, optAssign, peeringAssigns]
  have hplen : (peeringAssigns (tilePath pos) pb).length = 2 := by
    unfold countPeering at h2
    simp only [peeringAssigns, List.length_append, optAssign_length]
    omega
  refine ⟨hshape, hplen, ?_⟩
  rw [hshape]
  simp only [List.length_append, List.length_cons, List.length_nil, hplen]

/-- C8 witness: position (0, 0), terrain set 1, terrain 0, bottom side and
top side populated: the output is the three fixed assigns plus the two
peering assigns, five in total. -/
theorem c8_tile_assign_shape_amended_witness :
    countPeering ⟨none, some 4, none, none, some 5, none⟩ = 2
    ∧ (Tile.append_assigns ⟨⟨0, 0⟩, some 1, some 0, ⟨none, some 4, none, none, some 5, none⟩⟩ []
        = [⟨tilePath ⟨0, 0⟩, .integer 0⟩,
           ⟨tilePath ⟨0, 0⟩ ++ strBytes "/terrain_set", .integer 1⟩,
           ⟨tilePath ⟨0, 0⟩ ++ strBytes "/terrain", .integer 0⟩]
          ++ peeringAssigns (tilePath ⟨0, 0⟩) ⟨none, some 4, none, none, some 5, none⟩
        ∧ (peeringAssigns (tilePath ⟨0, 0⟩) ⟨none, some 4, none, none, some 5, none⟩).length = 2
        ∧ (Tile.append_assigns
            ⟨⟨0, 0⟩, some 1, some 0, ⟨none, some 4, none, none, some 5, none⟩⟩ []).length
          = List.length ([] : List TagAssign) + 5) :=
  ⟨by decide,
   (c8_tile_assign_shape_amended [] ⟨0, 0⟩).2 1 0 ⟨none, some 4, none, none, some 5, none⟩
     (by decide)⟩

/-- C10: while lexing a quoted string, newline bytes between the quotes are
silently discarded: for every quote-free content, the lexed string token is
the content with all newlines removed. -/
theorem c10_string_newlines_discarded (f : Nat) (content rest : List Nat)
    (h : ∀ c ∈ content, c ≠ 34) :
    nextToken (f + content.length + 2) ⟨none, 34 :: (content ++ 34 :: rest)⟩
      = .ok (some (.string (removeNewlines content)), ⟨none, rest⟩) := by
  have hstep : nextToken (f + content.length + 1 + 1) ⟨none, 34 :: (content ++ 34 :: rest)⟩
      = match stringLoop (f + content.length + 1) [] ⟨none, content ++ 34 :: rest⟩ with
        | .ok (s, t'') => .ok (some (.string s), t'')
        | .error e => .error e := rfl
  have harith : f + content.length + 2 = f + content.length + 1 + 1 := rfl
  rw [harith, hstep, stringLoop_spec content h f [] rest]
  simp

/-- C10 witness: a three-line string literal. -/
theorem c10_string_newlines_discarded_witness :
    (∀ c ∈ [97, 10, 98, 10, 99], c ≠ 34)
    ∧ nextToken 107 ⟨none, 34 :: ([97, 10, 98, 10, 99] ++ 34 :: [32])⟩
        = .ok (some (.string (removeNewlines [97, 10, 98, 10, 99])), ⟨none, [32]⟩)
    ∧ removeNewlines [97, 10, 98, 10, 99] = [97, 98, 99] :=
  ⟨by decide, c10_string_newlines_discarded 100 [97, 10, 98, 10, 99] [32] (by decide),
   by decide⟩

end Godot

namespace Godot

/-- C6: version gate.  If the parsed header carries a `format` field (first
occurrence) whose value is not the integer 3, `parse_file` rejects the input
with the version error; if the header has no `format` field at all the gate
is passed and parsing proceeds with the body (third conjunct: a complete
format-less document parses successfully). -/
theorem c6_version_gate :
    (∀ (f : Nat) (bs : List Nat) (header : Tag) (t : Tokenizer) (fld : Field),
      Tag.parse f ⟨none, bs⟩ = .ok (some header, t) →
      findFormat header.fields = some fld → fld.value ≠ .integer 3 →
      parse_file f bs = .error (.parseErr "unexpected format version"))
    ∧ (∀ (f : Nat) (bs : List Nat) (header : Tag) (t : Tokenizer),
      Tag.parse f ⟨none, bs⟩ = .ok (some header, t) →
      findFormat header.fields = none →
      parse_file f bs = parseBody f header t)
    ∧ parse_file 100 (strBytes "[gd_resource]\n")
        = .ok ⟨⟨strBytes "gd_resource", [], []⟩, []⟩ := by
  refine ⟨?_, ?_, by decide⟩
  · intro f bs header t fld hparse hfind hne
    unfold parse_file
    rw [hparse]
    dsimp only
    rw [hfind]
    simp only [FORMAT_VERSION]
    rw [if_neg hne]
  · intro f bs header t hparse hfind
    unfold parse_file
    rw [hparse]
    dsimp only
    rw [hfind]

/-- C6 witness: `format=2` is rejected; a format-less header passes the gate. -/
theorem c6_version_gate_witness :
    parse_file 100 (strBytes "[gd_resource format=2]\n")
      = .error (.parseErr "unexpected format version")
    ∧ parse_file 100 (strBytes "[hdr a=1]\n")
      = parseBody 100 ⟨strBytes "hdr", [⟨strBytes "a", .integer 1⟩], []⟩ ⟨none, [10]⟩ :=
  ⟨c6_version_gate.1 100 _
     ⟨strBytes "gd_resource", [⟨strBytes "format", .integer 2⟩], []⟩ ⟨none, [10]⟩
     ⟨strBytes "format", .integer 2⟩ (by decide) (by decide) (by decide),
   c6_version_gate.2.1 100 _
     ⟨strBytes "hdr", [⟨strBytes "a", .integer 1⟩], []⟩ ⟨none, [10]⟩ (by decide) (by decide)⟩

/-- C3 counterexample: two Value variants whose rendered text does not
re-parse to an equal value, contradicting the claim as stated.  A string
containing a newline re-parses with the newline dropped; an html color's
rendered text ends mid-token at end of input, so `Value::parse` errors. -/
theorem c3_value_roundtrip_counterexample :
    Value.parse 100 ⟨none, Value.godot_fmt (.string [97, 10, 98])⟩
      = .ok (.string [97, 98], ⟨none, []⟩)
    ∧ (Value.string [97, 98] ≠ .string [97, 10, 98])
    ∧ Value.parse 100 ⟨none, Value.godot_fmt (.color (.html (strBytes "#ff0000")))⟩
      = .error (.parseErr "expected a value, but found end of file") := by
  decide

/-- C4 counterexample: `Value::Double` rendering re-appends `.0`, so the
value zero renders as `0.0`, not as the single character `0`, and a
whole-number double renders with a decimal point. -/
theorem c4_double_rendering_counterexample :
    Value.godot_fmt (.double (.fin 0 0)) = strBytes "0.0"
    ∧ strBytes "0.0" ≠ strBytes "0"
    ∧ Value.godot_fmt (.double (.fin 3 0)) = strBytes "3.0" := by
  decide

/-- C1 counterexample: a document whose writer output parses successfully but
re-serializes to different bytes — a string field value containing a newline
is written verbatim, the newline is dropped on re-parse, and the
re-serialization omits it. -/
theorem c1_reserialization_counterexample :
    parse_file 100
        (writeGodotFile ⟨⟨strBytes "h", [⟨strBytes "a", .string [112, 10, 113]⟩], []⟩, []⟩)
      = .ok ⟨⟨strBytes "h", [⟨strBytes "a", .string [112, 113]⟩], []⟩, []⟩
    ∧ writeGodotFile ⟨⟨strBytes "h", [⟨strBytes "a", .string [112, 113]⟩], []⟩, []⟩
      ≠ writeGodotFile ⟨⟨strBytes "h", [⟨strBytes "a", .string [112, 10, 113]⟩], []⟩, []⟩ := by
  decide

end Godot

namespace Godot

/-! ## Digit-rendering lemmas -/

theorem natDigitsAux_digits : ∀ f n : Nat, ∀ c ∈ natDigitsAux f n, 48 ≤ c ∧ c ≤ 57 := by
  intro f
  induction f with
  | zero => intro n c hc; simp [natDigitsAux] at hc
  | succ f ih =>
    intro n c hc
    cases n with
    | zero => simp [natDigitsAux] at hc
    | succ m =>
      simp only [natDigitsAux, List.mem_cons] at hc
      rcases hc with h | h
      · have : (m + 1) % 10 < 10 := Nat.mod_lt _ (by norm_num)
        omega
      · exact ih _ c h

theorem natDec_digits (n : Nat) : ∀ c ∈ natDec n, 48 ≤ c ∧ c ≤ 57 := by
  unfold natDec
  split
  · intro c hc; simp at hc; omega
  · intro c hc
    rw [List.mem_reverse] at hc
    exact natDigitsAux_digits n n c hc

theorem natDigitsAux_val : ∀ f n : Nat, n ≤ f → digitsVal (natDigitsAux f n).reverse = n := by
  intro f
  induction f with
  | zero =>
    intro n hn
    have : n = 0 := by omega
    subst this
    simp [natDigitsAux, digitsVal]
  | succ f ih =>
    intro n hn
    cases n with
    | zero => simp [natDigitsAux, digitsVal]
    | succ m =>
      have hq : (m + 1) / 10 ≤ f := by
        have : (m + 1) / 10 < m + 1 := Nat.div_lt_self (by omega) (by norm_num)
        omega
      simp only [natDigitsAux, List.reverse_cons]
      unfold digitsVal
      rw [List.foldl_append]
      have hih := ih ((m + 1) / 10) hq
      unfold digitsVal at hih
      rw [hih]
      simp only [List.foldl_cons, List.foldl_nil]
      omega

theorem natDec_val (n : Nat) : digitsVal (natDec n) = n := by
  unfold natDec
  split
  · rename_i h; subst h; simp [digitsVal]
  · exact natDigitsAux_val n n le_rfl

theorem natDec_ne_nil (n : Nat) : natDec n ≠ [] := by
  unfold natDec
  split
  · simp
  · rename_i h
    cases n with
    | zero => exact absurd rfl h
    | succ m => simp [natDigitsAux]

theorem natDec_getLast? (n : Nat) : (natDec n).getLast? = some (n % 10 + 48) := by
  unfold natDec
  split
  · rename_i h; subst h; rfl
  · rename_i h
    cases n with
    | zero => exact absurd rfl h
    | succ m =>
      rw [List.getLast?_reverse]
      simp [natDigitsAux]

theorem natDec_allDigits (n : Nat) : allDigits (natDec n) := by
  intro c hc
  exact natDec_digits n c hc

/-- The `k = 0` branch of the bare f64 formatter: just the sign and digits. -/
theorem f64GodotFmt_int (m : Int) (hm : m ≠ 0) :
    f64GodotFmt (.fin m 0) = (if m < 0 then [45] else []) ++ natDec m.natAbs := by
  unfold f64GodotFmt leftPadZeros
  dsimp only
  rw [if_neg hm]
  have hne := natDec_ne_nil m.natAbs
  have : 0 + 1 - (natDec m.natAbs).length = 0 := by
    cases h : natDec m.natAbs with
    | nil => exact absurd h hne
    | cons a l => simp [h]
  rw [this]
  simp

/-- The `k > 0` branch of the bare f64 formatter: sign, integer digits, a
point, then the last `k` digits. -/
theorem f64GodotFmt_frac (m : Int) (k : Nat) (hm : m ≠ 0) (hk : k ≠ 0) :
    f64GodotFmt (.fin m k)
      = (if m < 0 then [45] else [])
        ++ (leftPadZeros (natDec m.natAbs) (k + 1)).take
            ((leftPadZeros (natDec m.natAbs) (k + 1)).length - k)
        ++ [46]
        ++ (leftPadZeros (natDec m.natAbs) (k + 1)).drop
            ((leftPadZeros (natDec m.natAbs) (k + 1)).length - k) := by
  unfold f64GodotFmt
  dsimp only
  rw [if_neg hm]
  simp only [if_neg hk]

theorem f64GodotFmt_int_chars (m : Int) (hm : m ≠ 0) :
    ∀ c ∈ f64GodotFmt (.fin m 0), c = 45 ∨ (48 ≤ c ∧ c ≤ 57) := by
  intro c hc
  rw [f64GodotFmt_int m hm] at hc
  rw [List.mem_append] at hc
  rcases hc with h | h
  · split at h
    · simp at h; exact Or.inl h
    · simp at h
  · exact Or.inr (natDec_digits _ c h)

theorem leftPadZeros_length (ds : List Nat) (len : Nat) :
    len ≤ (leftPadZeros ds len).length := by
  unfold leftPadZeros
  simp
  omega

theorem leftPadZeros_getLast? (ds : List Nat) (len : Nat) (h : ds ≠ []) :
    (leftPadZeros ds len).getLast? = ds.getLast? := by
  unfold leftPadZeros
  exact List.getLast?_append_of_ne_nil _ h

end Godot

namespace Godot

theorem f64GodotFmt_int_no_special (m : Int) (hm : m ≠ 0) :
    ¬46 ∈ f64GodotFmt (.fin m 0) ∧ ¬101 ∈ f64GodotFmt (.fin m 0)
    ∧ f64GodotFmt (.fin m 0) ≠ strBytes "inf"
    ∧ f64GodotFmt (.fin m 0) ≠ strBytes "inf_neg"
    ∧ f64GodotFmt (.fin m 0) ≠ strBytes "nan" := by
  have hchars := f64GodotFmt_int_chars m hm
  refine ⟨?_, ?_, ?_, ?_, ?_⟩
  · intro h; rcases hchars _ h with h' | h' <;> omega
  · intro h; rcases hchars _ h with h' | h' <;> omega
  · intro h
    have : (105 : Nat) ∈ f64GodotFmt (.fin m 0) := by rw [h]; decide
    rcases hchars _ this with h' | h' <;> omega
  · intro h
    have : (105 : Nat) ∈ f64GodotFmt (.fin m 0) := by rw [h]; decide
    rcases hchars _ this with h' | h' <;> omega
  · intro h
    have : (110 : Nat) ∈ f64GodotFmt (.fin m 0) := by rw [h]; decide
    rcases hchars _ this with h' | h' <;> omega

/-- `Value::Double` re-appends `.0` to every whole-number rendering. -/
theorem valueFmt_double_int (m : Int) (hm : m ≠ 0) :
    Value.godot_fmt (.double (.fin m 0)) = f64GodotFmt (.fin m 0) ++ strBytes ".0" := by
  obtain ⟨h46, h101, hinf, hineg, hnan⟩ := f64GodotFmt_int_no_special m hm
  unfold Value.godot_fmt
  dsimp only
  rw [if_pos ⟨hinf, hineg, hnan, h46, h101⟩]

theorem suffix_getLast? {l s : List Nat} (h : s <:+ l) (hs : s ≠ []) :
    l.getLast? = s.getLast? := by
  obtain ⟨p, rfl⟩ := h
  exact List.getLast?_append_of_ne_nil p hs

/-- The bare f64 formatter never produces a trailing `.0` on a nonzero
normalized finite value: with no fraction there is no point at all, and with
a fraction the last digit is the last digit of `m`, which normalization
keeps nonzero. -/
theorem f64GodotFmt_no_trailing_point_zero (m : Int) (k : Nat) (hm : m ≠ 0)
    (hnorm : k = 0 ∨ m % 10 ≠ 0) :
    ¬(strBytes ".0" <:+ f64GodotFmt (.fin m k)) := by
  intro hsuf
  cases k with
  | zero =>
    have h46 := (f64GodotFmt_int_no_special m hm).1
    exact h46 (hsuf.subset (by decide))
  | succ j =>
    have hk : (j + 1 : Nat) ≠ 0 := by omega
    have hmod : m % 10 ≠ 0 := by
      rcases hnorm with h | h
      · exact absurd h hk
      · exact h
    have hdsne := natDec_ne_nil m.natAbs
    have hlen := leftPadZeros_length (natDec m.natAbs) (j + 1 + 1)
    have hdrop : (leftPadZeros (natDec m.natAbs) (j + 1 + 1)).drop
        ((leftPadZeros (natDec m.natAbs) (j + 1 + 1)).length - (j + 1)) ≠ [] := by
      apply List.ne_nil_of_length_pos
      rw [List.length_drop]
      omega
    have h1 : (f64GodotFmt (.fin m (j + 1))).getLast?
        = (leftPadZeros (natDec m.natAbs) (j + 1 + 1)).getLast? := by
      rw [f64GodotFmt_frac m (j + 1) hm hk]
      rw [List.getLast?_append_of_ne_nil _ hdrop]
      conv_rhs => rw [← List.take_append_drop
        ((leftPadZeros (natDec m.natAbs) (j + 1 + 1)).length - (j + 1))
        (leftPadZeros (natDec m.natAbs) (j + 1 + 1))]
      rw [List.getLast?_append_of_ne_nil _ hdrop]
    rw [leftPadZeros_getLast? _ _ hdsne, natDec_getLast?] at h1
    have h2 := suffix_getLast? hsuf (by decide)
    rw [h1] at h2
    have h3 : m.natAbs % 10 + 48 = 48 := by
      have : (strBytes ".0").getLast? = some 48 := by decide
      rw [this] at h2
      exact Option.some.inj h2
    omega

/-- C4 amended: the *bare* f64 formatter (used for Color components) renders
zero as `0`, the infinities and NaN as their fixed tokens, and a nonzero
finite value as its shortest decimal (sign and digits, point inserted for a
fraction) with no trailing `.0`; the `Value::Double` wrapper then re-appends
`.0` whenever the text has no point and no `e`, so at the Value level zero
renders as `0.0` and whole-number doubles render with a decimal point. -/
theorem c4_double_rendering_amended :
    (f64GodotFmt (.fin 0 0) = strBytes "0"
      ∧ f64GodotFmt .inf = strBytes "inf"
      ∧ f64GodotFmt .negInf = strBytes "neg_inf"
      ∧ f64GodotFmt .nan = strBytes "nan")
    ∧ (∀ (m : Int) (k : Nat), m ≠ 0 → (k = 0 ∨ m % 10 ≠ 0) →
        ¬(strBytes ".0" <:+ f64GodotFmt (.fin m k)))
    ∧ (∀ m : Int, m ≠ 0 →
        f64GodotFmt (.fin m 0) = (if m < 0 then [45] else []) ++ natDec m.natAbs
        ∧ Value.godot_fmt (.double (.fin m 0)) = f64GodotFmt (.fin m 0) ++ strBytes ".0")
    ∧ (Value.godot_fmt (.double (.fin 0 0)) = strBytes "0.0"
      ∧ Value.godot_fmt (.double .inf) = strBytes "inf"
      ∧ Value.godot_fmt (.double .negInf) = strBytes "neg_inf"
      ∧ Value.godot_fmt (.double .nan) = strBytes "nan") :=
  ⟨⟨by decide, by decide, by decide, by decide⟩,
   f64GodotFmt_no_trailing_point_zero,
   fun m hm => ⟨f64GodotFmt_int m hm, valueFmt_double_int m hm⟩,
   ⟨by decide, by decide, by decide, by decide⟩⟩

/-- C4 witness: the double 12.5 = 125/10 renders bare as `12.5` (no trailing
`.0`), and the whole number -3 renders bare as `-3` but as `-3.0` at the
Value level. -/
theorem c4_double_rendering_amended_witness :
    ((125 : Int) ≠ 0 ∧ ((1 : Nat) = 0 ∨ (125 : Int) % 10 ≠ 0)
      ∧ ¬(strBytes ".0" <:+ f64GodotFmt (.fin 125 1)))
    ∧ ((-3 : Int) ≠ 0
      ∧ f64GodotFmt (.fin (-3) 0) = (if (-3 : Int) < 0 then [45] else []) ++ natDec (-3 : Int).natAbs
      ∧ Value.godot_fmt (.double (.fin (-3) 0)) = f64GodotFmt (.fin (-3) 0) ++ strBytes ".0")
    ∧ f64GodotFmt (.fin 125 1) = strBytes "12.5"
    ∧ f64GodotFmt (.fin (-3) 0) = strBytes "-3"
    ∧ Value.godot_fmt (.double (.fin (-3) 0)) = strBytes "-3.0" :=
  ⟨⟨by decide, by decide,
    c4_double_rendering_amended.2.1 125 1 (by decide) (Or.inr (by decide))⟩,
   ⟨by decide,
    (c4_double_rendering_amended.2.2.1 (-3) (by decide)).1,
    (c4_double_rendering_amended.2.2.1 (-3) (by decide)).2⟩,
   by decide, by decide, by decide⟩

end Godot

namespace Godot

/-! ## Pushback safety (the `assert!` in save_byte is unreachable) -/

theorem nextByte_saved : ∀ (t : Tokenizer) (c : Nat) (t' : Tokenizer),
    t.next_byte = some (c, t') → t'.saved = none := by
  rintro ⟨saved, bytes⟩ c t' h
  cases saved with
  | some b =>
    simp [Tokenizer.next_byte] at h
    rw [← h.2]
  | none =>
    cases bytes with
    | nil => simp [Tokenizer.next_byte] at h
    | cons a l =>
      simp [Tokenizer.next_byte] at h
      rw [← h.2]

theorem save_byte_ok (b : Nat) (t : Tokenizer) (h : t.saved = none) :
    Tokenizer.save_byte b t = .ok ⟨some b, t.bytes⟩ := by
  unfold Tokenizer.save_byte
  rw [h]

theorem skipComment_no_assert : ∀ (f : Nat) (t : Tokenizer),
    skipComment f t ≠ .error .assertFailed := by
  intro f
  induction f with
  | zero => intro t; simp [skipComment]
  | succ f ih =>
    intro t
    unfold skipComment
    cases h : t.next_byte with
    | none => simp
    | some ct =>
      obtain ⟨c, t'⟩ := ct
      dsimp only
      split
      · simp
      · exact ih t'

theorem colorLoop_no_assert : ∀ (f : Nat) (acc : List Nat) (t : Tokenizer),
    colorLoop f acc t ≠ .error .assertFailed := by
  intro f
  induction f with
  | zero => intro acc t; simp [colorLoop]
  | succ f ih =>
    intro acc t
    unfold colorLoop
    cases h : t.next_byte with
    | none => simp
    | some ct =>
      obtain ⟨c, t'⟩ := ct
      dsimp only
      split
      · exact ih _ t'
      · rw [save_byte_ok c t' (nextByte_saved t c t' h)]
        simp

theorem stringLoop_no_assert : ∀ (f : Nat) (acc : List Nat) (t : Tokenizer),
    stringLoop f acc t ≠ .error .assertFailed := by
  intro f
  induction f with
  | zero => intro acc t; simp [stringLoop]
  | succ f ih =>
    intro acc t
    unfold stringLoop
    cases h : t.next_byte with
    | none => simp
    | some ct =>
      obtain ⟨c, t'⟩ := ct
      dsimp only
      split
      · simp
      · split
        · exact ih acc t'
        · exact ih _ t'

theorem identLoop_no_assert : ∀ (f : Nat) (acc : List Nat) (t : Tokenizer),
    identLoop f acc t ≠ .error .assertFailed := by
  intro f
  induction f with
  | zero => intro acc t; simp [identLoop]
  | succ f ih =>
    intro acc t
    unfold identLoop
    cases h : t.next_byte with
    | none => simp
    | some ct =>
      obtain ⟨c, t'⟩ := ct
      dsimp only
      split
      · exact ih _ t'
      · rw [save_byte_ok c t' (nextByte_saved t c t' h)]
        simp

theorem numLoop_no_assert : ∀ (f : Nat) (reading : Reading) (isFloat expBegin expSign : Bool)
    (num : List Nat) (next : Option Nat) (t : Tokenizer),
    numLoop f reading isFloat expBegin expSign num next t ≠ .error .assertFailed := by
  intro f
  induction f with
  | zero => intro r i e s num next t; simp [numLoop]
  | succ f ih =>
    intro r i e s num next t
    unfold numLoop
    cases next with
    | none => simp
    | some current =>
      dsimp only
      split
      · simp
      · split
        · exact ih _ _ _ _ _ _ _
        · exact ih _ _ _ _ _ _ _

theorem nextToken_no_assert : ∀ (f : Nat) (t : Tokenizer),
    nextToken f t ≠ .error .assertFailed := by
  intro f
  induction f with
  | zero => intro t; simp [nextToken]
  | succ f ih =>
    intro t
    unfold nextToken
    cases h : t.next_byte with
    | none => simp
    | some ct =>
      obtain ⟨c, t'⟩ := ct
      dsimp only
      cases hst : simpleToken c with
      | some tok => simp
      | none =>
        dsimp only
        by_cases h59 : c = 59
        · rw [if_pos h59]
          cases hs : skipComment f t' with
          | error e =>
            have := skipComment_no_assert f t'
            rw [hs] at this
            simpa using this
          | ok o =>
            cases o with
            | none => simp
            | some t'' => exact ih t''
        · rw [if_neg h59]
          by_cases h35 : c = 35
          · rw [if_pos h35]
            cases hcl : colorLoop f [35] t' with
            | error e =>
              have := colorLoop_no_assert f [35] t'
              rw [hcl] at this
              simpa using this
            | ok o => rcases o with _ | ⟨tok, t''⟩ <;> simp
          · rw [if_neg h35]
            by_cases hq : c = 34 ∨ c = 64 ∨ c = 38
            · rw [if_pos hq]
              by_cases h34 : c = 34
              · rw [if_pos h34]
                cases hs : stringLoop f [] t' with
                | error e =>
                  have := stringLoop_no_assert f [] t'
                  rw [hs] at this
                  simpa using this
                | ok st => rcases st with ⟨s, t''⟩; simp
              · rw [if_neg h34]
                cases h2 : t'.next_byte with
                | none => simp
                | some ct2 =>
                  obtain ⟨c2, t2⟩ := ct2
                  dsimp only
                  by_cases hc2 : c2 = 34
                  · rw [if_pos hc2]
                    cases hs : stringLoop f [] t2 with
                    | error e =>
                      have := stringLoop_no_assert f [] t2
                      rw [hs] at this
                      simpa using this
                    | ok st => rcases st with ⟨s, t₃⟩; simp
                  · rw [if_neg hc2]; simp
            · rw [if_neg hq]
              by_cases hnum : c = 45 ∨ isAsciiDigit c
              · rw [if_pos hnum]
                cases hn : numLoop f .int false false false (numEntry c t').1
                    (numEntry c t').2.1 (numEntry c t').2.2 with
                | error e =>
                  have := numLoop_no_assert f .int false false false (numEntry c t').1
                    (numEntry c t').2.1 (numEntry c t').2.2
                  rw [hn] at this
                  simpa using this
                | ok res =>
                  obtain ⟨num, isFloat, t₁⟩ := res
                  dsimp only
                  cases isFloat with
                  | false => cases hp : parseI64 num <;> simp [hp]
                  | true => cases hp : parseF64 num <;> simp [hp]
              · rw [if_neg hnum]
                by_cases hid : isAsciiAlphabetic c ∨ c = 95
                · rw [if_pos hid]
                  cases hi : identLoop f [c] t' with
                  | error e =>
                    have := identLoop_no_assert f [c] t'
                    rw [hi] at this
                    simpa using this
                  | ok st => rcases st with ⟨s, t''⟩; simp
                · rw [if_neg hid]
                  by_cases hws : c ≤ 32
                  · rw [if_pos hws]; exact ih t'
                  · rw [if_neg hws]; simp

end Godot

namespace Godot

/-- Transfer of the no-assert property through error propagation. -/
theorem no_assert_of {α β : Type} (r : Except Err α) (h : r ≠ .error .assertFailed) (e : Err)
    (he : r = .error e) : (.error e : Except Err β) ≠ .error .assertFailed := by
  intro hc
  injection hc with h2
  subst h2
  exact h he

theorem parseIntArgsLoop_no_assert : ∀ (f : Nat) (args : List Int) (t : Tokenizer),
    parseIntArgsLoop f args t ≠ .error .assertFailed := by
  intro f
  induction f with
  | zero => intro args t; simp [parseIntArgsLoop]
  | succ f ih =>
    intro args t
    unfold parseIntArgsLoop
    dsimp only
    split
    · rename_i e heq
      split at heq
      · simp at heq
      · split at heq <;> simp_all
        all_goals try (rw [← heq]; simp)
        · subst heq
          have := nextToken_no_assert f t
          simp_all
    · simp
    · rename_i t₁ hsep
      split
      · exact ih _ _
      · split <;> simp
      · simp
      · simp
      · rename_i e heq
        exact no_assert_of _ (nextToken_no_assert f t₁) e heq

end Godot

namespace Godot

theorem parseDoubleArgsLoop_no_assert : ∀ (f : Nat) (args : List GFloat) (t : Tokenizer),
    parseDoubleArgsLoop f args t ≠ .error .assertFailed := by
  intro f
  induction f with
  | zero => intro args t; simp [parseDoubleArgsLoop]
  | succ f ih =>
    intro args t
    unfold parseDoubleArgsLoop
    dsimp only
    split
    · rename_i e heq
      split at heq
      · simp at heq
      · split at heq <;> simp_all
        all_goals try (rw [← heq]; simp)
        · subst heq
          have := nextToken_no_assert f t
          simp_all
    · simp
    · rename_i t₁ hsep
      split
      · exact ih _ _
      · exact ih _ _
      · split <;> simp
      · simp
      · simp
      · rename_i e heq
        exact no_assert_of _ (nextToken_no_assert f t₁) e heq

theorem parse_int_constructor_no_assert (f : Nat) (t : Tokenizer) :
    parse_int_constructor f t ≠ .error .assertFailed := by
  unfold parse_int_constructor
  split
  · exact parseIntArgsLoop_no_assert f [] _
  · simp
  · simp
  · rename_i e heq
    exact no_assert_of _ (nextToken_no_assert f t) e heq

theorem parse_double_constructor_no_assert (f : Nat) (t : Tokenizer) :
    parse_double_constructor f t ≠ .error .assertFailed := by
  unfold parse_double_constructor
  split
  · exact parseDoubleArgsLoop_no_assert f [] _
  · simp
  · simp
  · rename_i e heq
    exact no_assert_of _ (nextToken_no_assert f t) e heq

theorem parseResourceArg_no_assert (f : Nat) (t : Tokenizer) :
    parseResourceArg f t ≠ .error .assertFailed := by
  unfold parseResourceArg
  split
  · rename_i t₁ h1
    split
    · rename_i v t₂ h2
      split
      · simp
      · simp
      · simp
      · rename_i e heq
        exact no_assert_of _ (nextToken_no_assert f t₂) e heq
    · simp
    · simp
    · rename_i e heq
      exact no_assert_of _ (nextToken_no_assert f t₁) e heq
  · simp
  · simp
  · rename_i e heq
    exact no_assert_of _ (nextToken_no_assert f t) e heq

theorem ok_ne_assert {α : Type} (x : α) : (Except.ok x : Except Err α) ≠ .error .assertFailed :=
  fun hc => Except.noConfusion hc

theorem parseErr_ne_assert {α : Type} (msg : String) :
    (Except.error (Err.parseErr msg) : Except Err α) ≠ .error .assertFailed := by
  intro hc
  injection hc with h
  exact Err.noConfusion h

theorem valueParse_no_assert (f : Nat) (t : Tokenizer) :
    Value.parse f t ≠ .error .assertFailed := by
  unfold Value.parse
  split
  · rename_i id t' hnt
    split
    · exact ok_ne_assert _
    · split
      · exact ok_ne_assert _
      · exact parseErr_ne_assert _
      · rename_i e heq
        exact no_assert_of _ (parse_int_constructor_no_assert f t') e heq
    · split
      · exact ok_ne_assert _
      · exact parseErr_ne_assert _
      · rename_i e heq
        exact no_assert_of _ (parse_double_constructor_no_assert f t') e heq
    · split
      · exact ok_ne_assert _
      · rename_i e heq
        exact no_assert_of _ (parseResourceArg_no_assert f t') e heq
    · split
      · exact ok_ne_assert _
      · rename_i e heq
        exact no_assert_of _ (parseResourceArg_no_assert f t') e heq
    · exact parseErr_ne_assert _
  · exact ok_ne_assert _
  · exact ok_ne_assert _
  · exact ok_ne_assert _
  · exact ok_ne_assert _
  · exact ok_ne_assert _
  · exact parseErr_ne_assert _
  · exact parseErr_ne_assert _
  · rename_i e heq
    exact no_assert_of _ (nextToken_no_assert f t) e heq

end Godot

namespace Godot

theorem fieldsLoop_no_assert : ∀ (f : Nat) (name : List Nat) (fields : List Field)
    (parsingTag : Bool) (t : Tokenizer),
    fieldsLoop f name fields parsingTag t ≠ .error .assertFailed := by
  intro f
  induction f with
  | zero => intro name fields pt t; simp [fieldsLoop]
  | succ f ih =>
    intro name fields pt t
    unfold fieldsLoop
    rcases hnt : nextToken f t with e | ⟨otok, t'⟩
    · dsimp only
      exact no_assert_of _ (nextToken_no_assert f t) e hnt
    · rcases otok with _ | tok
      · exact parseErr_ne_assert _
      · cases tok
        case bracketClose => exact ok_ne_assert _
        case identifier id =>
          dsimp only
          simp only [reduceCtorEq, and_false, if_false, Bool.false_eq_true]
          rcases hnt2 : nextToken f t' with e2 | ⟨otok2, t₂⟩
          · dsimp only
            exact no_assert_of _ (nextToken_no_assert f t') e2 hnt2
          · rcases otok2 with _ | tok2
            · exact parseErr_ne_assert _
            · cases tok2
              case equal =>
                dsimp only
                rcases hv : Value.parse f t₂ with e3 | ⟨v, t₃⟩
                · dsimp only
                  exact no_assert_of _ (valueParse_no_assert f t₂) e3 hv
                · dsimp only
                  exact ih _ _ _ _
              all_goals exact parseErr_ne_assert _
        all_goals exact parseErr_ne_assert _

theorem tagParse_no_assert (f : Nat) (t : Tokenizer) :
    Tag.parse f t ≠ .error .assertFailed := by
  unfold Tag.parse
  split
  · split
    · split
      · exact ok_ne_assert _
      · rename_i e heq
        exact no_assert_of _ (fieldsLoop_no_assert f _ _ _ _) e heq
    · exact parseErr_ne_assert _
    · exact parseErr_ne_assert _
    · rename_i e heq
      exact no_assert_of _ (nextToken_no_assert f _) e heq
  · exact parseErr_ne_assert _
  · exact ok_ne_assert _
  · rename_i e heq
    exact no_assert_of _ (nextToken_no_assert f t) e heq

theorem tagAssignParse_no_assert : ∀ (f : Nat) (what : List Nat) (t : Tokenizer),
    TagAssign.parse f what t ≠ .error .assertFailed := by
  intro f
  induction f with
  | zero => intro what t; simp [TagAssign.parse]
  | succ f ih =>
    intro what t
    unfold TagAssign.parse
    split
    · exact ok_ne_assert _
    · rename_i c t' hnb
      by_cases h59 : c = 59
      · rw [if_pos h59]
        split
        · exact ok_ne_assert _
        · exact ih _ _
        · rename_i e heq
          exact no_assert_of _ (skipComment_no_assert f t') e heq
      · rw [if_neg h59]
        by_cases h91 : c = 91 ∧ what = []
        · rw [if_pos h91]
          rw [save_byte_ok 91 t' (nextByte_saved t c t' hnb)]
          exact ok_ne_assert _
        · rw [if_neg h91]
          by_cases h34 : c = 34
          · rw [if_pos h34]
            rw [save_byte_ok 34 t' (nextByte_saved t c t' hnb)]
            dsimp only
            split
            · exact ih _ _
            · exact parseErr_ne_assert _
            · exact parseErr_ne_assert _
            · rename_i e heq
              exact no_assert_of _ (nextToken_no_assert f _) e heq
          · rw [if_neg h34]
            by_cases h61 : c = 61
            · rw [if_pos h61]
              split
              · exact ok_ne_assert _
              · rename_i e heq
                exact no_assert_of _ (valueParse_no_assert f t') e heq
            · rw [if_neg h61]
              by_cases h10 : c = 10
              · rw [if_pos h10]; exact ih _ _
              · rw [if_neg h10]
                by_cases hws : c ≤ 32
                · rw [if_pos hws]; exact ih _ _
                · rw [if_neg hws]; exact ih _ _

theorem parseAssignsLoop_no_assert : ∀ (f : Nat) (acc : List TagAssign) (t : Tokenizer),
    parseAssignsLoop f acc t ≠ .error .assertFailed := by
  intro f
  induction f with
  | zero => intro acc t; simp [parseAssignsLoop]
  | succ f ih =>
    intro acc t
    unfold parseAssignsLoop
    split
    · exact ih _ _
    · exact ok_ne_assert _
    · rename_i e heq
      exact no_assert_of _ (tagAssignParse_no_assert f [] t) e heq

theorem parseTagsLoop_no_assert : ∀ (f : Nat) (acc : List Tag) (t : Tokenizer),
    parseTagsLoop f acc t ≠ .error .assertFailed := by
  intro f
  induction f with
  | zero => intro acc t; simp [parseTagsLoop]
  | succ f ih =>
    intro acc t
    unfold parseTagsLoop
    split
    · rename_i tag t' htag
      split
      · exact ih _ _
      · rename_i e heq
        exact no_assert_of _ (parseAssignsLoop_no_assert f _ _) e heq
    · exact ok_ne_assert _
    · rename_i e heq
      exact no_assert_of _ (tagParse_no_assert f t) e heq

theorem parseBody_no_assert (f : Nat) (header : Tag) (t : Tokenizer) :
    parseBody f header t ≠ .error .assertFailed := by
  unfold parseBody
  split
  · exact ok_ne_assert _
  · rename_i e heq
    exact no_assert_of _ (parseTagsLoop_no_assert f [] t) e heq

/-- C9: pushback safety.  Over every input byte stream and every fuel, the
whole run of `parse_file` — tokenization, tag parsing, assign parsing and
value parsing — never trips the `assert!` in `Tokenizer::save_byte`: every
`save_byte` call happens immediately after a successful `next_byte`, which
has just emptied the pushback buffer, so at most one byte of pushback is ever
held. -/
theorem c9_pushback_safety (f : Nat) (input : List Nat) :
    parse_file f input ≠ .error .assertFailed := by
  unfold parse_file
  split
  · rename_i header t hparse
    split
    · split
      · exact parseBody_no_assert f header t
      · exact parseErr_ne_assert _
    · exact parseBody_no_assert f header t
  · exact parseErr_ne_assert _
  · rename_i e heq
    exact no_assert_of _ (tagParse_no_assert f ⟨none, input⟩) e heq

end Godot

namespace Godot

/-! ## Round-trip lemmas: tokenizer steps -/

theorem nextToken_unsave (f b : Nat) (bs : List Nat) :
    nextToken f ⟨some b, bs⟩ = nextToken f ⟨none, b :: bs⟩ := by
  cases f <;> rfl

theorem valueParse_unsave (f b : Nat) (bs : List Nat) :
    Value.parse f ⟨some b, bs⟩ = Value.parse f ⟨none, b :: bs⟩ := by
  unfold Value.parse
  rw [nextToken_unsave]

theorem tagAssignParse_unsave (f : Nat) (w : List Nat) (b : Nat) (bs : List Nat) :
    TagAssign.parse f w ⟨some b, bs⟩ = TagAssign.parse f w ⟨none, b :: bs⟩ := by
  cases f <;> rfl

theorem tagParse_unsave (f b : Nat) (bs : List Nat) :
    Tag.parse f ⟨some b, bs⟩ = Tag.parse f ⟨none, b :: bs⟩ := by
  unfold Tag.parse
  rw [nextToken_unsave]

theorem fieldsLoop_unsave (f : Nat) (name : List Nat) (fields : List Field) (pt : Bool)
    (b : Nat) (bs : List Nat) :
    fieldsLoop f name fields pt ⟨some b, bs⟩ = fieldsLoop f name fields pt ⟨none, b :: bs⟩ := by
  cases f with
  | zero => rfl
  | succ f =>
    unfold fieldsLoop
    rw [nextToken_unsave]

theorem parseAssignsLoop_unsave (f : Nat) (acc : List TagAssign) (b : Nat) (bs : List Nat) :
    parseAssignsLoop f acc ⟨some b, bs⟩ = parseAssignsLoop f acc ⟨none, b :: bs⟩ := by
  cases f with
  | zero => rfl
  | succ f =>
    unfold parseAssignsLoop
    rw [tagAssignParse_unsave]

theorem nextToken_ws32 (f : Nat) (bs : List Nat) :
    nextToken (f + 1) ⟨none, 32 :: bs⟩ = nextToken f ⟨none, bs⟩ := rfl

theorem nextToken_ws10 (f : Nat) (bs : List Nat) :
    nextToken (f + 1) ⟨none, 10 :: bs⟩ = nextToken f ⟨none, bs⟩ := rfl

theorem nextToken_bracketOpen (f : Nat) (bs : List Nat) :
    nextToken (f + 1) ⟨none, 91 :: bs⟩ = .ok (some .bracketOpen, ⟨none, bs⟩) := rfl

theorem nextToken_bracketClose (f : Nat) (bs : List Nat) :
    nextToken (f + 1) ⟨none, 93 :: bs⟩ = .ok (some .bracketClose, ⟨none, bs⟩) := rfl

theorem nextToken_equal (f : Nat) (bs : List Nat) :
    nextToken (f + 1) ⟨none, 61 :: bs⟩ = .ok (some .equal, ⟨none, bs⟩) := rfl

theorem nextToken_parenOpen (f : Nat) (bs : List Nat) :
    nextToken (f + 1) ⟨none, 40 :: bs⟩ = .ok (some .parenthesisOpen, ⟨none, bs⟩) := rfl

theorem nextToken_parenClose (f : Nat) (bs : List Nat) :
    nextToken (f + 1) ⟨none, 41 :: bs⟩ = .ok (some .parenthesisClose, ⟨none, bs⟩) := rfl

theorem nextToken_comma (f : Nat) (bs : List Nat) :
    nextToken (f + 1) ⟨none, 44 :: bs⟩ = .ok (some .comma, ⟨none, bs⟩) := rfl

theorem nextToken_eof (f : Nat) :
    nextToken (f + 1) ⟨none, []⟩ = .ok (none, ⟨none, []⟩) := rfl

theorem identLoop_spec (chars : List Nat) (h : ∀ c ∈ chars, isIdentChar c) :
    ∀ (F : Nat) (acc rest : List Nat), headNotIdent rest → chars.length + 1 ≤ F →
      identLoop F acc ⟨none, chars ++ rest⟩ = .ok (acc ++ chars, pushback rest) := by
  induction chars with
  | nil =>
    intro F acc rest hrest hF
    obtain ⟨f, rfl⟩ : ∃ f, F = f + 1 := ⟨F - 1, by omega⟩
    cases rest with
    | nil => simp [identLoop, Tokenizer.next_byte, pushback]
    | cons c cs =>
      have hc : ¬(isAsciiAlphanumeric c ∨ c = 95) := hrest
      simp only [List.nil_append]
      unfold identLoop
      simp only [Tokenizer.next_byte]
      rw [if_neg hc, save_byte_ok c ⟨none, cs⟩ rfl]
      simp [pushback]
  | cons c cs ih =>
    intro F acc rest hrest hF
    obtain ⟨f, rfl⟩ : ∃ f, F = f + 1 := ⟨F - 1, by omega⟩
    have hc : isAsciiAlphanumeric c ∨ c = 95 := h c (by simp)
    unfold identLoop
    simp only [List.cons_append, Tokenizer.next_byte]
    rw [if_pos hc]
    rw [ih (fun x hx => h x (by simp [hx])) f (acc ++ [c]) rest hrest
      (by simp only [List.length_cons] at hF; omega)]
    simp

theorem colorLoop_spec (hex : List Nat) (h : ∀ c ∈ hex, isAsciiHexDigit c) :
    ∀ (F : Nat) (acc rest : List Nat), headStopsHex rest → hex.length + 1 ≤ F →
      colorLoop F acc ⟨none, hex ++ rest⟩ = .ok (some (.color (acc ++ hex), pushback rest)) := by
  induction hex with
  | nil =>
    intro F acc rest hrest hF
    obtain ⟨f, rfl⟩ : ∃ f, F = f + 1 := ⟨F - 1, by omega⟩
    cases rest with
    | nil => exact absurd hrest (by simp [headStopsHex])
    | cons c cs =>
      have hc : ¬isAsciiHexDigit c := hrest
      simp only [List.nil_append]
      unfold colorLoop
      simp only [Tokenizer.next_byte]
      rw [if_neg hc, save_byte_ok c ⟨none, cs⟩ rfl]
      simp [pushback]
  | cons c cs ih =>
    intro F acc rest hrest hF
    obtain ⟨f, rfl⟩ : ∃ f, F = f + 1 := ⟨F - 1, by omega⟩
    have hc : isAsciiHexDigit c := h c (by simp)
    unfold colorLoop
    simp only [List.cons_append, Tokenizer.next_byte]
    rw [if_pos hc]
    rw [ih (fun x hx => h x (by simp [hx])) f (acc ++ [c]) rest hrest
      (by simp only [List.length_cons] at hF; omega)]
    simp

theorem stringLoop_ge (content : List Nat) (h : ∀ c ∈ content, c ≠ 34) (F : Nat)
    (acc rest : List Nat) (hF : content.length + 1 ≤ F) :
    stringLoop F acc ⟨none, content ++ 34 :: rest⟩
      = .ok (acc ++ removeNewlines content, ⟨none, rest⟩) := by
  obtain ⟨f, rfl⟩ : ∃ f, F = f + content.length + 1 := ⟨F - content.length - 1, by omega⟩
  exact stringLoop_spec content h f acc rest

end Godot

namespace Godot

/-- Writer shape: a rendered tag is the bracketed header line followed by its
assign lines. -/
theorem tagFmt_eq (tag : Tag) :
    Tag.godot_fmt tag
      = 91 :: (utf8 tag.name ++ fieldsText tag.fields ++ 93 :: 10 :: assignsText tag.assigns) := by
  unfold Tag.godot_fmt fieldsText fieldText assignsText
  simp [List.append_assoc]

/-- Writer shape: a rendered file is the header followed by the body tags,
each preceded by a blank line. -/
theorem writeGodotFile_eq (gf : GodotFile) :
    writeGodotFile gf = Tag.godot_fmt gf.header ++ tagsText gf.tags := rfl

/-- Writer shape: a rendered assign line. -/
theorem tagAssignFmt_eq (a : TagAssign) :
    TagAssign.godot_fmt a = utf8 a.assign ++ 32 :: 61 :: 32 :: Value.godot_fmt a.value ++ [10] := by
  unfold TagAssign.godot_fmt
  simp [strBytes, List.append_assoc]

theorem simpleToken_none (c : Nat)
    (h : c ≠ 123 ∧ c ≠ 125 ∧ c ≠ 91 ∧ c ≠ 93 ∧ c ≠ 40 ∧ c ≠ 41 ∧ c ≠ 58 ∧ c ≠ 44 ∧ c ≠ 46
      ∧ c ≠ 61) :
    simpleToken c = none := by
  obtain ⟨h1, h2, h3, h4, h5, h6, h7, h8, h9, h10⟩ := h
  unfold simpleToken
  rw [if_neg h1, if_neg h2, if_neg h3, if_neg h4, if_neg h5, if_neg h6, if_neg h7, if_neg h8,
    if_neg h9, if_neg h10]

/-- Branch facts for an identifier-starting byte in `next_token`. -/
theorem identStart_facts (c : Nat) (h : isIdentStart c) :
    simpleToken c = none ∧ c ≠ 59 ∧ c ≠ 35 ∧ ¬(c = 34 ∨ c = 64 ∨ c = 38)
      ∧ ¬(c = 45 ∨ isAsciiDigit c) ∧ (isAsciiAlphabetic c ∨ c = 95) := by
  have hrange : (97 ≤ c ∧ c ≤ 122) ∨ (65 ≤ c ∧ c ≤ 90) ∨ c = 95 := by
    rcases h with h | h
    · rcases h with h | h
      · exact Or.inl h
      · exact Or.inr (Or.inl h)
    · exact Or.inr (Or.inr h)
  refine ⟨simpleToken_none c (by omega), by omega, by omega, by omega, ?_, ?_⟩
  · rintro (h45 | ⟨hd1, hd2⟩)
    · omega
    · omega
  · exact h

/-- Branch facts for a digit byte in `next_token`. -/
theorem digit_facts (c : Nat) (h : isAsciiDigit c) :
    simpleToken c = none ∧ c ≠ 59 ∧ c ≠ 35 ∧ ¬(c = 34 ∨ c = 64 ∨ c = 38)
      ∧ (c = 45 ∨ isAsciiDigit c) ∧ c ≠ 45 := by
  obtain ⟨h1, h2⟩ := h
  exact ⟨simpleToken_none c (by omega), by omega, by omega, by omega, Or.inr ⟨h1, h2⟩, by omega⟩

/-- `next_token` lexes a rendered identifier up to a non-identifier byte. -/
theorem nextToken_ident (id : List Nat) (hid : validIdent id) (F : Nat) (rest : List Nat)
    (hrest : headNotIdent rest) (hF : id.length + 2 ≤ F) :
    nextToken F ⟨none, id ++ rest⟩ = .ok (some (.identifier id), pushback rest) := by
  obtain ⟨f, rfl⟩ : ∃ f, F = f + 1 := ⟨F - 1, by omega⟩
  cases id with
  | nil => exact absurd hid (by simp [validIdent])
  | cons c cs =>
    obtain ⟨hstart, hcs⟩ := hid
    obtain ⟨hs1, hs2, hs3, hs4, hs5, hs6⟩ := identStart_facts c hstart
    unfold nextToken
    simp only [List.cons_append, Tokenizer.next_byte]
    rw [hs1]
    rw [if_neg hs2, if_neg hs3, if_neg hs4, if_neg hs5, if_pos hs6]
    rw [identLoop_spec cs hcs f [c] rest hrest (by simp only [List.length_cons] at hF; omega)]
    simp

/-- `next_token` lexes a rendered quoted string, dropping newlines. -/
theorem nextToken_string (s : List Nat) (hs : ∀ c ∈ s, c ≠ 34) (F : Nat) (rest : List Nat)
    (hF : s.length + 2 ≤ F) :
    nextToken F ⟨none, 34 :: (s ++ 34 :: rest)⟩
      = .ok (some (.string (removeNewlines s)), ⟨none, rest⟩) := by
  obtain ⟨f, rfl⟩ : ∃ f, F = f + 1 := ⟨F - 1, by omega⟩
  unfold nextToken
  simp only [Tokenizer.next_byte]
  rw [show simpleToken 34 = none from rfl]
  simp only [if_neg (by omega : ¬(34 : Nat) = 59), if_neg (by omega : ¬(34 : Nat) = 35),
    if_pos (Or.inl rfl : (34 : Nat) = 34 ∨ (34 : Nat) = 64 ∨ (34 : Nat) = 38),
    if_pos (rfl : (34 : Nat) = 34)]
  rw [stringLoop_ge s hs f [] rest (by omega)]
  simp

/-- `next_token` lexes a rendered name-string. -/
theorem nextToken_stringName (s : List Nat) (hs : ∀ c ∈ s, c ≠ 34) (F : Nat) (rest : List Nat)
    (hF : s.length + 2 ≤ F) :
    nextToken F ⟨none, 38 :: 34 :: (s ++ 34 :: rest)⟩
      = .ok (some (.stringName (removeNewlines s)), ⟨none, rest⟩) := by
  obtain ⟨f, rfl⟩ : ∃ f, F = f + 1 := ⟨F - 1, by omega⟩
  unfold nextToken
  simp only [Tokenizer.next_byte]
  rw [show simpleToken 38 = none from rfl]
  simp only [if_neg (by omega : ¬(38 : Nat) = 59), if_neg (by omega : ¬(38 : Nat) = 35),
    if_pos (Or.inr (Or.inr rfl) : (38 : Nat) = 34 ∨ (38 : Nat) = 64 ∨ (38 : Nat) = 38),
    if_neg (by omega : ¬(38 : Nat) = 34)]
  rw [stringLoop_ge s hs f [] rest (by omega)]
  simp

/-- `next_token` lexes a rendered hex color literal up to a non-hex byte. -/
theorem nextToken_color (hex : List Nat) (hhex : ∀ c ∈ hex, isAsciiHexDigit c) (F : Nat)
    (rest : List Nat) (hrest : headStopsHex rest) (hF : hex.length + 2 ≤ F) :
    nextToken F ⟨none, 35 :: (hex ++ rest)⟩
      = .ok (some (.color (35 :: hex)), pushback rest) := by
  obtain ⟨f, rfl⟩ : ∃ f, F = f + 1 := ⟨F - 1, by omega⟩
  unfold nextToken
  simp only [Tokenizer.next_byte]
  rw [show simpleToken 35 = none from rfl]
  simp only [if_neg (by omega : ¬(35 : Nat) = 59), if_pos (rfl : (35 : Nat) = 35)]
  rw [colorLoop_spec hex hhex f [35] rest hrest (by omega)]
  simp

end Godot

namespace Godot

/-! ## Round-trip lemmas: the number scanner -/

theorem numStep_int_digit (eB eS : Bool) (c : Nat) (h : isAsciiDigit c) :
    numStep .int eB eS c = (some .int, false, eB, eS) := by
  unfold numStep
  rw [if_pos h]

theorem numStep_dec_digit (eB eS : Bool) (c : Nat) (h : isAsciiDigit c) :
    numStep .dec eB eS c = (some .dec, false, eB, eS) := by
  unfold numStep
  dsimp only
  rw [if_pos h]

theorem numStep_int_point (eB eS : Bool) :
    numStep .int eB eS 46 = (some .dec, true, eB, eS) := by
  unfold numStep
  rw [if_neg (by rintro ⟨h1, h2⟩; omega : ¬isAsciiDigit 46), if_pos rfl]

theorem numStep_int_stop (eB eS : Bool) (c : Nat) (h : ¬isAsciiDigit c ∧ c ≠ 46 ∧ c ≠ 101) :
    numStep .int eB eS c = (none, false, eB, eS) := by
  unfold numStep
  rw [if_neg h.1, if_neg h.2.1, if_neg h.2.2]

theorem numStep_dec_stop (eB eS : Bool) (c : Nat) (h : ¬isAsciiDigit c ∧ c ≠ 101) :
    numStep .dec eB eS c = (none, false, eB, eS) := by
  unfold numStep
  dsimp only
  rw [if_neg h.1, if_neg h.2]

/-- One continuing step of the scanner: consume the byte in hand and pick up
the next one. -/
theorem numLoop_step_cont (f : Nat) (r r' : Reading) (iF bF eB eS eB' eS' : Bool)
    (num : List Nat) (c : Nat) (l : List Nat)
    (hstep : numStep r eB eS c = (some r', bF, eB', eS')) :
    numLoop (f + 1) r iF eB eS num (some c) ⟨none, l⟩
      = numLoop f r' (iF || bF) eB' eS' (num ++ [c]) (feed l).1 (feed l).2 := by
  conv_lhs => unfold numLoop
  dsimp only
  rw [hstep]
  cases l <;> dsimp only [feed, Tokenizer.next_byte]

/-- A terminating step of the scanner: the byte in hand is stored into the
pushback buffer. -/
theorem numLoop_stop (f : Nat) (r : Reading) (iF bF eB eS eB' eS' : Bool) (num : List Nat)
    (c : Nat) (l : List Nat) (hstep : numStep r eB eS c = (none, bF, eB', eS')) :
    numLoop (f + 1) r iF eB eS num (some c) ⟨none, l⟩ = .ok (num, iF, ⟨some c, l⟩) := by
  unfold numLoop
  dsimp only
  rw [hstep]

theorem numLoop_eof (f : Nat) (r : Reading) (iF eB eS : Bool) (num : List Nat) (l : List Nat) :
    numLoop (f + 1) r iF eB eS num none ⟨none, l⟩ = .ok (num, iF, ⟨none, l⟩) := rfl

/-- Running the scanner through a digit run in the integer state. -/
theorem numLoop_digits_int (ds : List Nat) (hds : allDigits ds) :
    ∀ (F : Nat) (iF : Bool) (num rest : List Nat), ds.length ≤ F →
      numLoop F .int iF false false num (feed (ds ++ rest)).1 (feed (ds ++ rest)).2
        = numLoop (F - ds.length) .int iF false false (num ++ ds) (feed rest).1 (feed rest).2 := by
  induction ds with
  | nil => intro F iF num rest hF; simp
  | cons d ds ih =>
    intro F iF num rest hF
    obtain ⟨f, rfl⟩ : ∃ f, F = f + 1 := ⟨F - 1, by simp at hF; omega⟩
    have hd : isAsciiDigit d := hds d (by simp)
    show numLoop (f + 1) .int iF false false num (some d) ⟨none, ds ++ rest⟩ = _
    rw [numLoop_step_cont f .int .int iF false false false false false num d (ds ++ rest)
      (numStep_int_digit false false d hd)]
    simp only [Bool.or_false]
    rw [ih (fun x hx => hds x (by simp [hx])) f iF (num ++ [d]) rest
      (by simp at hF ⊢; omega)]
    simp only [Bool.or_false, List.append_assoc, List.singleton_append, List.length_cons]
    congr 1
    omega

/-- Running the scanner through a digit run in the fraction state. -/
theorem numLoop_digits_dec (ds : List Nat) (hds : allDigits ds) :
    ∀ (F : Nat) (iF : Bool) (num rest : List Nat), ds.length ≤ F →
      numLoop F .dec iF false false num (feed (ds ++ rest)).1 (feed (ds ++ rest)).2
        = numLoop (F - ds.length) .dec iF false false (num ++ ds) (feed rest).1 (feed rest).2 := by
  induction ds with
  | nil => intro F iF num rest hF; simp
  | cons d ds ih =>
    intro F iF num rest hF
    obtain ⟨f, rfl⟩ : ∃ f, F = f + 1 := ⟨F - 1, by simp at hF; omega⟩
    have hd : isAsciiDigit d := hds d (by simp)
    show numLoop (f + 1) .dec iF false false num (some d) ⟨none, ds ++ rest⟩ = _
    rw [numLoop_step_cont f .dec .dec iF false false false false false num d (ds ++ rest)
      (numStep_dec_digit false false d hd)]
    simp only [Bool.or_false]
    rw [ih (fun x hx => hds x (by simp [hx])) f iF (num ++ [d]) rest
      (by simp at hF ⊢; omega)]
    simp only [Bool.or_false, List.append_assoc, List.singleton_append, List.length_cons]
    congr 1
    omega

/-- A digit run in the integer state followed by a stopper. -/
theorem numLoop_int_run (ds : List Nat) (hds : allDigits ds) (F : Nat) (iF : Bool)
    (num rest : List Nat) (hrest : headStopsNum rest) (hF : ds.length + 1 ≤ F) :
    numLoop F .int iF false false num (feed (ds ++ rest)).1 (feed (ds ++ rest)).2
      = .ok (num ++ ds, iF, pushback rest) := by
  rw [numLoop_digits_int ds hds F iF num rest (by omega)]
  obtain ⟨g, hg⟩ : ∃ g, F - ds.length = g + 1 := ⟨F - ds.length - 1, by omega⟩
  rw [hg]
  cases rest with
  | nil => exact numLoop_eof g .int iF false false (num ++ ds) []
  | cons c cs =>
    obtain ⟨hc1, hc2, hc3⟩ := hrest
    exact numLoop_stop g .int iF false false false false false (num ++ ds) c cs
      (numStep_int_stop false false c ⟨hc1, hc2, hc3⟩)

/-- A digit run in the fraction state followed by a stopper. -/
theorem numLoop_dec_run (ds : List Nat) (hds : allDigits ds) (F : Nat) (iF : Bool)
    (num rest : List Nat) (hrest : headStopsNum rest) (hF : ds.length + 1 ≤ F) :
    numLoop F .dec iF false false num (feed (ds ++ rest)).1 (feed (ds ++ rest)).2
      = .ok (num ++ ds, iF, pushback rest) := by
  rw [numLoop_digits_dec ds hds F iF num rest (by omega)]
  obtain ⟨g, hg⟩ : ∃ g, F - ds.length = g + 1 := ⟨F - ds.length - 1, by omega⟩
  rw [hg]
  cases rest with
  | nil => exact numLoop_eof g .dec iF false false (num ++ ds) []
  | cons c cs =>
    obtain ⟨hc1, hc2, hc3⟩ := hrest
    exact numLoop_stop g .dec iF false false false false false (num ++ ds) c cs
      (numStep_dec_stop false false c ⟨hc1, hc3⟩)

end Godot

namespace Godot

/-! ## Round-trip lemmas: numeric literals -/

theorem digitsVal_append_singleton (a : List Nat) (d : Nat) :
    digitsVal (a ++ [d]) = digitsVal a * 10 + (d - 48) := by
  unfold digitsVal
  rw [List.foldl_append]
  rfl

theorem digitsVal_leading_zeros (n : Nat) (l : List Nat) :
    digitsVal (List.replicate n 48 ++ l) = digitsVal l := by
  induction n with
  | zero => simp
  | succ n ih =>
    rw [List.replicate_succ, List.cons_append]
    show digitsVal (48 :: (List.replicate n 48 ++ l)) = digitsVal l
    unfold digitsVal at ih ⊢
    simpa using ih

theorem spanDigits_append (a b : List Nat) (ha : allDigits a) (hb : headNotDigit b) :
    spanDigits (a ++ b) = (a, b) := by
  induction a with
  | nil =>
    cases b with
    | nil => rfl
    | cons c cs =>
      simp only [List.nil_append]
      unfold spanDigits
      rw [if_neg hb]
  | cons c cs ih =>
    have hc : isAsciiDigit c := ha c (by simp)
    simp only [List.cons_append]
    unfold spanDigits
    rw [if_pos hc, ih (fun x hx => ha x (by simp [hx]))]

theorem parseI64_natDec (n : Int) (h0 : 0 ≤ n) (hr : n < 2 ^ 63) :
    parseI64 (natDec n.natAbs) = some n := by
  obtain ⟨d, ds, hds⟩ := List.exists_cons_of_ne_nil (natDec_ne_nil n.natAbs)
  have hd : isAsciiDigit d := by
    have := natDec_digits n.natAbs d (by rw [hds]; simp)
    exact this
  unfold parseI64
  rw [hds]
  dsimp only
  rw [if_neg (by obtain ⟨h1, h2⟩ := hd; omega : ¬d = 45)]
  dsimp only
  rw [if_neg (by simp)]
  rw [if_neg (not_not_intro (by rw [← hds]; exact natDec_allDigits n.natAbs))]
  rw [← hds, natDec_val]
  have habs : (n.natAbs : Int) = n := Int.natAbs_of_nonneg h0
  rw [habs]
  rw [if_neg (Bool.false_ne_true)]
  rw [if_pos (by constructor <;> omega)]

theorem parseI64_neg_natDec (n : Int) (hneg : n < 0) (hr : -(2 ^ 63) ≤ n) :
    parseI64 (45 :: natDec n.natAbs) = some n := by
  unfold parseI64
  dsimp only
  rw [if_pos rfl]
  dsimp only
  rw [if_neg (natDec_ne_nil n.natAbs)]
  rw [if_neg (not_not_intro (natDec_allDigits n.natAbs))]
  rw [natDec_val]
  have habs : (n.natAbs : Int) = -n := by omega
  rw [habs]
  rw [if_pos rfl, neg_neg]
  rw [if_pos (by constructor <;> omega)]

theorem numEntry_not45 (c : Nat) (h : c ≠ 45) (t : Tokenizer) :
    numEntry c t = ([], some c, t) := by
  unfold numEntry
  rw [if_neg h]

/-- Cons form of the integer digit run. -/
theorem numLoop_int_run_cons (d : Nat) (ds : List Nat) (hds : allDigits (d :: ds)) (F : Nat)
    (iF : Bool) (num rest : List Nat) (hrest : headStopsNum rest)
    (hF : ds.length + 2 ≤ F) :
    numLoop F .int iF false false num (some d) ⟨none, ds ++ rest⟩
      = .ok (num ++ d :: ds, iF, pushback rest) := by
  have := numLoop_int_run (d :: ds) hds F iF num rest hrest (by simp; omega)
  simpa [feed] using this

/-- Cons form of the fraction digit run. -/
theorem numLoop_dec_run_cons (d : Nat) (ds : List Nat) (hds : allDigits (d :: ds)) (F : Nat)
    (iF : Bool) (num rest : List Nat) (hrest : headStopsNum rest)
    (hF : ds.length + 2 ≤ F) :
    numLoop F .dec iF false false num (some d) ⟨none, ds ++ rest⟩
      = .ok (num ++ d :: ds, iF, pushback rest) := by
  have := numLoop_dec_run (d :: ds) hds F iF num rest hrest (by simp; omega)
  simpa [feed] using this

/-- `next_token` lexes a rendered i64 as an integer token. -/
theorem nextToken_int (n : Int) (hn : i64Range n) (F : Nat) (rest : List Nat)
    (hrest : headStopsNum rest) (hF : (i64GodotFmt n).length + 2 ≤ F) :
    nextToken F ⟨none, i64GodotFmt n ++ rest⟩ = .ok (some (.integer n), pushback rest) := by
  obtain ⟨f, rfl⟩ : ∃ f, F = f + 1 := ⟨F - 1, by omega⟩
  obtain ⟨hn1, hn2⟩ := hn
  by_cases hneg : n < 0
  · have hfmt : i64GodotFmt n = 45 :: natDec n.natAbs := by
      unfold i64GodotFmt
      rw [if_pos hneg]
      rfl
    obtain ⟨d, ds, hds⟩ := List.exists_cons_of_ne_nil (natDec_ne_nil n.natAbs)
    rw [hfmt] at hF ⊢
    unfold nextToken
    simp only [List.cons_append, Tokenizer.next_byte]
    rw [show simpleToken 45 = none from rfl]
    dsimp only
    rw [if_neg (by omega : ¬(45 : Nat) = 59), if_neg (by omega : ¬(45 : Nat) = 35),
      if_neg (by omega : ¬((45 : Nat) = 34 ∨ (45 : Nat) = 64 ∨ (45 : Nat) = 38)),
      if_pos (Or.inl trivial : True ∨ isAsciiDigit 45)]
    rw [hds]
    have hentry : numEntry 45 ⟨none, d :: (ds ++ rest)⟩ = ([45], some d, ⟨none, ds ++ rest⟩) := by
      unfold numEntry
      rw [if_pos rfl]
      rfl
    simp only [List.cons_append] at hentry ⊢
    rw [hentry]
    dsimp only
    rw [numLoop_int_run_cons d ds (by rw [← hds]; exact natDec_allDigits n.natAbs) f false [45]
      rest hrest (by rw [hds] at hF; simp at hF ⊢; omega)]
    dsimp only
    rw [if_neg (Bool.false_ne_true)]
    rw [show ([45] ++ d :: ds : List Nat) = 45 :: (d :: ds) from rfl, ← hds,
      parseI64_neg_natDec n hneg hn1]
  · have hfmt : i64GodotFmt n = natDec n.natAbs := by
      unfold i64GodotFmt
      rw [if_neg hneg]
      rfl
    obtain ⟨d, ds, hds⟩ := List.exists_cons_of_ne_nil (natDec_ne_nil n.natAbs)
    have hd : isAsciiDigit d := natDec_digits n.natAbs d (by rw [hds]; simp)
    obtain ⟨hf1, hf2, hf3, hf4, hf5, hf6⟩ := digit_facts d hd
    rw [hfmt, hds] at hF ⊢
    unfold nextToken
    simp only [List.cons_append, Tokenizer.next_byte]
    rw [hf1]
    dsimp only
    rw [if_neg hf2, if_neg hf3, if_neg hf4, if_pos hf5]
    rw [numEntry_not45 d hf6]
    dsimp only
    rw [numLoop_int_run_cons d ds (by rw [← hds]; exact natDec_allDigits n.natAbs) f false []
      rest hrest (by simp at hF ⊢; omega)]
    dsimp only
    rw [if_neg (Bool.false_ne_true)]
    rw [show ([] ++ d :: ds : List Nat) = d :: ds from rfl, ← hds,
      parseI64_natDec n (by omega) hn2]

end Godot

namespace Godot

/-! ## Round-trip lemmas: decimal (fraction) literals -/

theorem normFin_of_mod (m : Int) (k : Nat) (h : m % 10 ≠ 0) : normFin m k = .fin m k := by
  cases k with
  | zero => rfl
  | succ j =>
    rw [show normFin m (j + 1)
      = if m % 10 = 0 then normFin (m / 10) j else .fin m (j + 1) from rfl]
    rw [if_neg h]

theorem normFin_zero (k : Nat) : normFin 0 k = .fin 0 0 := by
  induction k with
  | zero => rfl
  | succ j ih =>
    rw [show normFin 0 (j + 1)
      = if (0 : Int) % 10 = 0 then normFin (0 / 10) j else .fin 0 (j + 1) from rfl]
    rw [if_pos (show (0 : Int) % 10 = 0 by decide)]
    simpa using ih

theorem normFin_tenfold (m : Int) (k : Nat) : normFin (m * 10) (k + 1) = normFin m k := by
  rw [show normFin (m * 10) (k + 1)
    = if (m * 10) % 10 = 0 then normFin (m * 10 / 10) k else .fin (m * 10) (k + 1) from rfl]
  rw [if_pos (Int.mul_emod_left m 10)]
  rw [Int.mul_ediv_cancel m (by norm_num)]

theorem spanDigits_self (ds : List Nat) (h : allDigits ds) : spanDigits ds = (ds, []) := by
  have := spanDigits_append ds [] h trivial
  simpa using this

/-- The fraction wrapper check fails on a point-bearing rendering, so
`Value::Double` leaves it unchanged. -/
theorem valueFmt_double_frac (m : Int) (k : Nat) (hm : m ≠ 0) (hk : k ≠ 0) :
    Value.godot_fmt (.double (.fin m k)) = f64GodotFmt (.fin m k) := by
  have h46 : (46 : Nat) ∈ f64GodotFmt (.fin m k) := by
    rw [f64GodotFmt_frac m k hm hk]
    simp
  unfold Value.godot_fmt
  dsimp only
  rw [if_neg (by rintro ⟨_, _, _, hno, _⟩; exact hno h46)]

theorem parseF64_pos_frac (intDs fracDs : List Nat) (hi : allDigits intDs)
    (hf : allDigits fracDs) (hine : intDs ≠ []) :
    parseF64 (intDs ++ 46 :: fracDs)
      = some (normFin (digitsVal (intDs ++ fracDs) : Int) fracDs.length) := by
  obtain ⟨d, ds, hds⟩ := List.exists_cons_of_ne_nil hine
  have hd : isAsciiDigit d := hi d (by rw [hds]; simp)
  have hspan : spanDigits (intDs ++ 46 :: fracDs) = (intDs, 46 :: fracDs) :=
    spanDigits_append intDs (46 :: fracDs) hi (by rintro ⟨h1, h2⟩; omega)
  have hsf : spanDigits fracDs = (fracDs, []) := spanDigits_self fracDs hf
  unfold parseF64
  rw [hds, List.cons_append]
  dsimp only
  rw [if_neg (by obtain ⟨h1, h2⟩ := hd; omega : ¬d = 45)]
  dsimp only
  rw [← List.cons_append, ← hds, hspan]
  dsimp only
  rw [hsf]
  dsimp only
  rw [if_neg (fun h => hine h.1)]
  rw [if_neg (Bool.false_ne_true)]

theorem parseF64_neg_frac (intDs fracDs : List Nat) (hi : allDigits intDs)
    (hf : allDigits fracDs) (hine : intDs ≠ []) :
    parseF64 (45 :: (intDs ++ 46 :: fracDs))
      = some (normFin (-(digitsVal (intDs ++ fracDs) : Int)) fracDs.length) := by
  have hspan : spanDigits (intDs ++ 46 :: fracDs) = (intDs, 46 :: fracDs) :=
    spanDigits_append intDs (46 :: fracDs) hi (by rintro ⟨h1, h2⟩; omega)
  have hsf : spanDigits fracDs = (fracDs, []) := spanDigits_self fracDs hf
  unfold parseF64
  dsimp only
  rw [if_pos rfl]
  dsimp only
  rw [hspan]
  dsimp only
  rw [hsf]
  dsimp only
  rw [if_neg (fun h => hine h.1)]
  rw [if_pos rfl]

/-- Running the scanner through a full decimal literal: integer digits, the
point, fraction digits, then a stopper. -/
theorem numLoop_frac_run (intDs fracDs : List Nat) (hi : allDigits intDs)
    (hf : allDigits fracDs) (F : Nat) (iF : Bool) (num rest : List Nat)
    (hrest : headStopsNum rest) (hF : intDs.length + fracDs.length + 2 ≤ F) :
    numLoop F .int iF false false num (feed ((intDs ++ 46 :: fracDs) ++ rest)).1
        (feed ((intDs ++ 46 :: fracDs) ++ rest)).2
      = .ok (num ++ intDs ++ 46 :: fracDs, true, pushback rest) := by
  rw [List.append_assoc]
  rw [numLoop_digits_int intDs hi F iF num (46 :: fracDs ++ rest) (by omega)]
  obtain ⟨g, hg⟩ : ∃ g, F - intDs.length = g + 1 := ⟨F - intDs.length - 1, by omega⟩
  rw [hg]
  show numLoop (g + 1) .int iF false false (num ++ intDs) (some 46) ⟨none, fracDs ++ rest⟩ = _
  rw [numLoop_step_cont g .int .dec iF true false false false false (num ++ intDs) 46
    (fracDs ++ rest) (numStep_int_point false false)]
  rw [numLoop_dec_run fracDs hf g (iF || true) ((num ++ intDs) ++ [46]) rest hrest (by omega)]
  simp

theorem numLoop_frac_run_cons (d : Nat) (ds fracDs : List Nat) (hi : allDigits (d :: ds))
    (hf : allDigits fracDs) (F : Nat) (iF : Bool) (num rest : List Nat)
    (hrest : headStopsNum rest) (hF : ds.length + fracDs.length + 3 ≤ F) :
    numLoop F .int iF false false num (some d) ⟨none, (ds ++ 46 :: fracDs) ++ rest⟩
      = .ok (num ++ (d :: ds) ++ 46 :: fracDs, true, pushback rest) := by
  have := numLoop_frac_run (d :: ds) fracDs hi hf F iF num rest hrest (by simp; omega)
  simpa [feed, List.cons_append, List.append_assoc] using this

/-- `next_token` lexes an unsigned decimal literal as a double token. -/
theorem nextToken_frac_pos (intDs fracDs : List Nat) (hi : allDigits intDs)
    (hf : allDigits fracDs) (hine : intDs ≠ []) (F : Nat) (rest : List Nat)
    (hrest : headStopsNum rest) (hF : intDs.length + fracDs.length + 4 ≤ F) :
    nextToken F ⟨none, (intDs ++ 46 :: fracDs) ++ rest⟩
      = .ok (some (.double (normFin (digitsVal (intDs ++ fracDs) : Int) fracDs.length)),
          pushback rest) := by
  obtain ⟨f, rfl⟩ : ∃ f, F = f + 1 := ⟨F - 1, by omega⟩
  obtain ⟨d, ds, hds⟩ := List.exists_cons_of_ne_nil hine
  obtain ⟨hd1, hd2, hd3, hd4, hd5, hd6⟩ := digit_facts d (hi d (by rw [hds]; simp))
  rw [hds] at hi ⊢
  unfold nextToken
  simp only [List.cons_append, Tokenizer.next_byte]
  rw [hd1]
  dsimp only
  rw [if_neg hd2, if_neg hd3, if_neg hd4, if_pos hd5]
  rw [numEntry_not45 d hd6]
  dsimp only
  rw [numLoop_frac_run_cons d ds fracDs hi hf f false [] rest hrest
    (by rw [hds] at hF; simp at hF ⊢; omega)]
  dsimp only
  rw [if_pos rfl]
  rw [show (([] : List Nat) ++ (d :: ds) ++ 46 :: fracDs) = (d :: ds) ++ 46 :: fracDs from by
    simp]
  rw [parseF64_pos_frac (d :: ds) fracDs hi hf (by simp)]
  simp

/-- `next_token` lexes a negative decimal literal as a double token. -/
theorem nextToken_frac_neg (intDs fracDs : List Nat) (hi : allDigits intDs)
    (hf : allDigits fracDs) (hine : intDs ≠ []) (F : Nat) (rest : List Nat)
    (hrest : headStopsNum rest) (hF : intDs.length + fracDs.length + 4 ≤ F) :
    nextToken F ⟨none, (45 :: (intDs ++ 46 :: fracDs)) ++ rest⟩
      = .ok (some (.double (normFin (-(digitsVal (intDs ++ fracDs) : Int)) fracDs.length)),
          pushback rest) := by
  obtain ⟨f, rfl⟩ : ∃ f, F = f + 1 := ⟨F - 1, by omega⟩
  obtain ⟨d, ds, hds⟩ := List.exists_cons_of_ne_nil hine
  unfold nextToken
  simp only [List.cons_append, Tokenizer.next_byte]
  rw [show simpleToken 45 = none from rfl]
  dsimp only
  rw [if_neg (by omega : ¬(45 : Nat) = 59), if_neg (by omega : ¬(45 : Nat) = 35),
    if_neg (by omega : ¬((45 : Nat) = 34 ∨ (45 : Nat) = 64 ∨ (45 : Nat) = 38)),
    if_pos (Or.inl trivial : True ∨ isAsciiDigit 45)]
  rw [hds, List.cons_append]
  have hentry : numEntry 45 ⟨none, d :: ((ds ++ 46 :: fracDs) ++ rest)⟩
      = ([45], some d, ⟨none, (ds ++ 46 :: fracDs) ++ rest⟩) := by
    unfold numEntry
    rw [if_pos rfl]
    rfl
  rw [show (d :: (ds ++ 46 :: fracDs)) ++ rest = d :: ((ds ++ 46 :: fracDs) ++ rest) from by
    simp]
  rw [hentry]
  dsimp only
  rw [numLoop_frac_run_cons d ds fracDs (by rw [← hds]; exact hi) hf f false [45] rest hrest
    (by rw [hds] at hF; simp at hF ⊢; omega)]
  dsimp only
  rw [if_pos rfl]
  rw [show (([45] : List Nat) ++ (d :: ds) ++ 46 :: fracDs)
    = 45 :: ((d :: ds) ++ 46 :: fracDs) from by simp]
  rw [← hds, parseF64_neg_frac intDs fracDs hi hf hine]

end Godot

namespace Godot

theorem leftPadZeros_allDigits (n len : Nat) : allDigits (leftPadZeros (natDec n) len) := by
  intro c hc
  unfold leftPadZeros at hc
  rcases List.mem_append.mp hc with h | h
  · rw [List.eq_of_mem_replicate h]
    exact ⟨le_rfl, by omega⟩
  · exact natDec_digits n c h

/-- `next_token` lexes the bare rendering of a normalized fraction-bearing
finite double back to the same `GFloat`. -/
theorem nextToken_doubleFin (m : Int) (k : Nat) (hm : m ≠ 0) (hk : k ≠ 0)
    (hmod : m % 10 ≠ 0) (F : Nat) (rest : List Nat) (hrest : headStopsNum rest)
    (hF : (f64GodotFmt (.fin m k)).length + 4 ≤ F) :
    nextToken F ⟨none, f64GodotFmt (.fin m k) ++ rest⟩
      = .ok (some (.double (.fin m k)), pushback rest) := by
  have hfmt := f64GodotFmt_frac m k hm hk
  obtain ⟨ds, hdsdef⟩ : ∃ ds, leftPadZeros (natDec m.natAbs) (k + 1) = ds := ⟨_, rfl⟩
  rw [hdsdef] at hfmt
  have hdig : allDigits ds := by rw [← hdsdef]; exact leftPadZeros_allDigits _ _
  have hlen : k + 1 ≤ ds.length := by rw [← hdsdef]; exact leftPadZeros_length _ _
  have hi : allDigits (ds.take (ds.length - k)) :=
    fun c hc => hdig c (List.take_subset _ _ hc)
  have hfr : allDigits (ds.drop (ds.length - k)) :=
    fun c hc => hdig c (List.drop_subset _ _ hc)
  have hine : ds.take (ds.length - k) ≠ [] := by
    apply List.ne_nil_of_length_pos
    rw [List.length_take]
    omega
  have hfrlen : (ds.drop (ds.length - k)).length = k := by
    rw [List.length_drop]
    omega
  have hval : digitsVal (ds.take (ds.length - k) ++ ds.drop (ds.length - k)) = m.natAbs := by
    rw [List.take_append_drop, ← hdsdef]
    unfold leftPadZeros
    rw [digitsVal_leading_zeros, natDec_val]
  rw [hfmt] at hF ⊢
  by_cases hneg : m < 0
  · rw [if_pos hneg] at hF ⊢
    rw [show (([45] ++ ds.take (ds.length - k) ++ [46] ++ ds.drop (ds.length - k)) ++ rest
        : List Nat)
      = (45 :: (ds.take (ds.length - k) ++ 46 :: ds.drop (ds.length - k))) ++ rest from by
        simp]
    rw [nextToken_frac_neg _ _ hi hfr hine F rest hrest
      (by simp only [List.length_append, List.length_cons] at hF ⊢; omega)]
    rw [hval, hfrlen]
    rw [show (-(m.natAbs : Int)) = m from by omega]
    rw [normFin_of_mod m k hmod]
  · rw [if_neg hneg] at hF ⊢
    rw [show (([] ++ ds.take (ds.length - k) ++ [46] ++ ds.drop (ds.length - k)) ++ rest
        : List Nat)
      = (ds.take (ds.length - k) ++ 46 :: ds.drop (ds.length - k)) ++ rest from by simp]
    rw [nextToken_frac_pos _ _ hi hfr hine F rest hrest
      (by simp only [List.length_append, List.length_cons, List.nil_append] at hF ⊢; omega)]
    rw [hval, hfrlen]
    rw [show ((m.natAbs : Int)) = m from by omega]
    rw [normFin_of_mod m k hmod]

/-- `next_token` lexes the Value-level rendering of a whole-number double
(`.0` re-appended by the wrapper) back to the same `GFloat`. -/
theorem nextToken_doubleWhole (m : Int) (F : Nat) (rest : List Nat)
    (hrest : headStopsNum rest)
    (hF : (Value.godot_fmt (.double (.fin m 0))).length + 4 ≤ F) :
    nextToken F ⟨none, Value.godot_fmt (.double (.fin m 0)) ++ rest⟩
      = .ok (some (.double (.fin m 0)), pushback rest) := by
  by_cases hm : m = 0
  · subst hm
    have h3 : (Value.godot_fmt (.double (.fin 0 0))).length = 3 := by decide
    rw [show Value.godot_fmt (.double (.fin 0 0)) = ([48] ++ 46 :: [48] : List Nat) from by
      decide]
    rw [nextToken_frac_pos [48] [48] (by decide) (by decide) (by decide) F rest hrest
      (by rw [h3] at hF; simp; omega)]
    rw [show ((digitsVal ([48] ++ [48]) : Nat) : Int) = 0 from by decide]
    rw [show ([48] : List Nat).length = 1 from rfl, normFin_zero]
  · have hd2 : (strBytes ".0") = ([46, 48] : List Nat) := by decide
    rw [valueFmt_double_int m hm, f64GodotFmt_int m hm, hd2] at hF ⊢
    have hdv : digitsVal (natDec m.natAbs ++ [48]) = m.natAbs * 10 := by
      rw [digitsVal_append_singleton, natDec_val]
      omega
    by_cases hneg : m < 0
    · rw [if_pos hneg] at hF ⊢
      rw [show (([45] ++ natDec m.natAbs) ++ [46, 48] : List Nat) ++ rest
        = (45 :: (natDec m.natAbs ++ 46 :: [48])) ++ rest from by simp]
      rw [nextToken_frac_neg (natDec m.natAbs) [48] (natDec_allDigits _) (by decide)
        (natDec_ne_nil _) F rest hrest
        (by simp only [List.length_append, List.length_cons] at hF ⊢; simp at hF ⊢; omega)]
      rw [hdv]
      rw [show (-((m.natAbs * 10 : Nat) : Int)) = m * 10 from by
        push_cast
        rw [abs_of_neg hneg]
        ring]
      rw [show ([48] : List Nat).length = 0 + 1 from rfl, normFin_tenfold m 0]
      rfl
    · rw [if_neg hneg] at hF ⊢
      rw [show (([] ++ natDec m.natAbs) ++ [46, 48] : List Nat) ++ rest
        = (natDec m.natAbs ++ 46 :: [48]) ++ rest from by simp]
      rw [nextToken_frac_pos (natDec m.natAbs) [48] (natDec_allDigits _) (by decide)
        (natDec_ne_nil _) F rest hrest
        (by simp only [List.length_append, List.length_cons] at hF ⊢; simp at hF ⊢; omega)]
      rw [hdv]
      rw [show (((m.natAbs * 10 : Nat) : Int)) = m * 10 from by
        push_cast
        rw [abs_of_nonneg (by omega : (0 : Int) ≤ m)]]
      rw [show ([48] : List Nat).length = 0 + 1 from rfl, normFin_tenfold m 0]
      rfl

end Godot

namespace Godot

/-! ## Round-trip lemmas: values -/

theorem utf8_ascii (s : List Nat) (h : ∀ c ∈ s, c < 127) : utf8 s = s := by
  induction s with
  | nil => rfl
  | cons c cs ih =>
    unfold utf8 at ih ⊢
    simp only [List.map_cons, List.flatten_cons]
    rw [ih (fun x hx => h x (by simp [hx]))]
    unfold utf8Encode1
    rw [if_pos (by have := h c (by simp); omega)]
    rfl

theorem removeNewlines_id (s : List Nat) (h : ∀ c ∈ s, c ≠ 10) : removeNewlines s = s := by
  induction s with
  | nil => rfl
  | cons c cs ih =>
    unfold removeNewlines
    rw [if_neg (h c (by simp)), ih (fun x hx => h x (by simp [hx]))]

theorem f64GodotFmt_fin0 (m : Int) : f64GodotFmt (.fin m 0) = i64GodotFmt m := by
  by_cases hm : m = 0
  · subst hm
    decide
  · rw [f64GodotFmt_int m hm]
    rfl

theorem valueStop_facts (rest : List Nat) (h : valueStop rest) :
    headStopsNum rest ∧ headNotIdent rest ∧ headStopsHex rest := by
  cases rest with
  | nil => exact absurd h (by simp [valueStop])
  | cons c cs =>
    have hc : c = 10 ∨ c = 32 ∨ c = 93 ∨ c = 44 ∨ c = 41 := h
    refine ⟨⟨?_, ?_, ?_⟩, ?_, ?_⟩
    · rintro ⟨h1, h2⟩; omega
    · omega
    · omega
    · show ¬isIdentChar c
      unfold isIdentChar isAsciiAlphanumeric isAsciiAlphabetic isAsciiDigit
      omega
    · show ¬isAsciiHexDigit c
      unfold isAsciiHexDigit isAsciiDigit
      omega

/-- A clean color component lexes either as the integer token of its value or
as its double token. -/
theorem doubleComponent_lex (g : GFloat) (hg : g.colorClean) (F : Nat) (rest : List Nat)
    (hrest : headStopsNum rest) (hF : (f64GodotFmt g).length + 4 ≤ F) :
    ∃ tok, nextToken F ⟨none, f64GodotFmt g ++ rest⟩ = .ok (some tok, pushback rest)
      ∧ ((∃ v, tok = .integer v ∧ g = .fin v 0) ∨ tok = .double g) := by
  cases g with
  | fin m k =>
    obtain ⟨hnorm, hrange⟩ := hg
    cases k with
    | zero =>
      refine ⟨.integer m, ?_, Or.inl ⟨m, rfl, rfl⟩⟩
      rw [f64GodotFmt_fin0]
      exact nextToken_int m (hrange rfl) F rest hrest
        (by rw [f64GodotFmt_fin0] at hF; omega)
    | succ j =>
      obtain ⟨hm, hmod⟩ : m ≠ 0 ∧ m % 10 ≠ 0 := by
        rcases hnorm with h | h
        · exact absurd h (by omega)
        · exact h
      exact ⟨.double (.fin m (j + 1)), nextToken_doubleFin m (j + 1) hm (by omega) hmod F rest
        hrest hF, Or.inr rfl⟩
  | nan => exact absurd hg (by simp [GFloat.colorClean])
  | inf => exact absurd hg (by simp [GFloat.colorClean])
  | negInf => exact absurd hg (by simp [GFloat.colorClean])

end Godot

namespace Godot

/-- First argument of `parse_int_constructor`: no separator is read yet. -/
theorem parseIntArgsLoop_first (x : Int) (hx : i64Range x) (f : Nat) (s : List Nat)
    (hs : headStopsNum s) (hf : (i64GodotFmt x).length + 2 ≤ f) :
    parseIntArgsLoop (f + 1) [] ⟨none, i64GodotFmt x ++ s⟩
      = parseIntArgsLoop f [x] (pushback s) := by
  conv_lhs => unfold parseIntArgsLoop
  rw [if_pos rfl]
  dsimp only
  rw [nextToken_int x hx f s hs hf]
  dsimp only
  simp only [List.nil_append]

/-- A later argument of `parse_int_constructor`: comma, space, integer. -/
theorem parseIntArgsLoop_next (x : Int) (hx : i64Range x) (f : Nat) (args : List Int)
    (hargs : args ≠ []) (s : List Nat) (hs : headStopsNum s)
    (hf : (i64GodotFmt x).length + 4 ≤ f) :
    parseIntArgsLoop (f + 1) args ⟨some 44, 32 :: (i64GodotFmt x ++ s)⟩
      = parseIntArgsLoop f (args ++ [x]) (pushback s) := by
  obtain ⟨e, rfl⟩ : ∃ e, f = e + 1 := ⟨f - 1, by omega⟩
  conv_lhs => unfold parseIntArgsLoop
  rw [if_neg hargs]
  rw [nextToken_unsave, nextToken_comma]
  dsimp only
  rw [nextToken_ws32]
  rw [nextToken_int x hx e s hs (by omega)]

/-- The closing parenthesis ends `parse_int_constructor`. -/
theorem parseIntArgsLoop_close (args : List Int) (hargs : args ≠ []) (f : Nat) (rest : List Nat)
    (hf : 1 ≤ f) :
    parseIntArgsLoop (f + 1) args ⟨some 41, rest⟩ = .ok (args, ⟨none, rest⟩) := by
  obtain ⟨e, rfl⟩ : ∃ e, f = e + 1 := ⟨f - 1, by omega⟩
  conv_lhs => unfold parseIntArgsLoop
  rw [if_neg hargs]
  rw [nextToken_unsave, nextToken_parenClose]

/-- First component of `parse_double_constructor`. -/
theorem parseDoubleArgsLoop_first (g : GFloat) (hg : g.colorClean) (f : Nat) (s : List Nat)
    (hs : headStopsNum s) (hf : (f64GodotFmt g).length + 4 ≤ f) :
    parseDoubleArgsLoop (f + 1) [] ⟨none, f64GodotFmt g ++ s⟩
      = parseDoubleArgsLoop f [g] (pushback s) := by
  conv_lhs => unfold parseDoubleArgsLoop
  rw [if_pos rfl]
  dsimp only
  obtain ⟨tok, htok, hcase⟩ := doubleComponent_lex g hg f s hs hf
  rw [htok]
  rcases hcase with ⟨v, rfl, hgv⟩ | rfl
  · dsimp only
    rw [hgv]
    simp only [List.nil_append]
  · dsimp only
    simp only [List.nil_append]

/-- A later component of `parse_double_constructor`: comma, space, value. -/
theorem parseDoubleArgsLoop_next (g : GFloat) (hg : g.colorClean) (f : Nat)
    (args : List GFloat) (hargs : args ≠ []) (s : List Nat) (hs : headStopsNum s)
    (hf : (f64GodotFmt g).length + 6 ≤ f) :
    parseDoubleArgsLoop (f + 1) args ⟨some 44, 32 :: (f64GodotFmt g ++ s)⟩
      = parseDoubleArgsLoop f (args ++ [g]) (pushback s) := by
  obtain ⟨e, rfl⟩ : ∃ e, f = e + 1 := ⟨f - 1, by omega⟩
  conv_lhs => unfold parseDoubleArgsLoop
  rw [if_neg hargs]
  rw [nextToken_unsave, nextToken_comma]
  dsimp only
  rw [nextToken_ws32]
  obtain ⟨tok, htok, hcase⟩ := doubleComponent_lex g hg e s hs (by omega)
  rw [htok]
  rcases hcase with ⟨v, rfl, hgv⟩ | rfl
  · dsimp only
    rw [hgv]
  · dsimp only

/-- The closing parenthesis ends `parse_double_constructor`. -/
theorem parseDoubleArgsLoop_close (args : List GFloat) (hargs : args ≠ []) (f : Nat)
    (rest : List Nat) (hf : 1 ≤ f) :
    parseDoubleArgsLoop (f + 1) args ⟨some 41, rest⟩ = .ok (args, ⟨none, rest⟩) := by
  obtain ⟨e, rfl⟩ : ∃ e, f = e + 1 := ⟨f - 1, by omega⟩
  conv_lhs => unfold parseDoubleArgsLoop
  rw [if_neg hargs]
  rw [nextToken_unsave, nextToken_parenClose]

/-- The shared `("id")` argument of the resource constructors, entered with
the opening parenthesis in the pushback buffer. -/
theorem parseResourceArg_render (s : List Nat) (hs : asciiClean s) (F : Nat) (rest : List Nat)
    (hF : s.length + 4 ≤ F) :
    parseResourceArg F ⟨some 40, 34 :: (s ++ 34 :: 41 :: rest)⟩ = .ok (s, ⟨none, rest⟩) := by
  obtain ⟨f, rfl⟩ : ∃ f, F = f + 1 := ⟨F - 1, by omega⟩
  unfold parseResourceArg
  rw [nextToken_unsave, nextToken_parenOpen]
  dsimp only
  rw [nextToken_string s (fun c hc => (hs c hc).2.1) (f + 1) (41 :: rest) (by omega)]
  dsimp only
  rw [nextToken_parenClose]
  dsimp only
  rw [removeNewlines_id s (fun c hc => (hs c hc).2.2)]

end Godot

namespace Godot


/-- `,` stops the number scanner. -/
theorem headStopsNum_44 (l : List Nat) : headStopsNum (44 :: l) :=
  (by decide : ¬isAsciiDigit 44 ∧ (44 : Nat) ≠ 46 ∧ (44 : Nat) ≠ 101)

/-- `)` stops the number scanner. -/
theorem headStopsNum_41 (l : List Nat) : headStopsNum (41 :: l) :=
  (by decide : ¬isAsciiDigit 41 ∧ (41 : Nat) ≠ 46 ∧ (41 : Nat) ≠ 101)

/-- `(` stops the identifier scanner. -/
theorem headNotIdent_40 (l : List Nat) : headNotIdent (40 :: l) :=
  (by decide : ¬isIdentChar 40)

/-- `Value::parse` re-reads every clean rendered value, leaving the tokenizer
at the value's end state. -/
theorem valueParse_render (pre : List Nat) (hpre : pre = [] ∨ pre = [32]) (v : Value)
    (hv : v.clean) (F : Nat) (rest : List Nat) (hrest : valueStop rest)
    (hF : (Value.godot_fmt v).length + 21 ≤ F) :
    Value.parse F ⟨none, pre ++ (Value.godot_fmt v ++ rest)⟩
      = .ok (v, valueEndState v rest) := by
  obtain ⟨hnum, hident, hhex⟩ := valueStop_facts rest hrest
  obtain ⟨e, hnt, hE, heF⟩ : ∃ e,
      (∀ X : List Nat, nextToken F ⟨none, pre ++ X⟩ = nextToken e ⟨none, X⟩)
      ∧ (Value.godot_fmt v).length + 20 ≤ e ∧ e ≤ F := by
    rcases hpre with rfl | rfl
    · exact ⟨F, fun X => by simp, by omega, le_rfl⟩
    · obtain ⟨e, rfl⟩ : ∃ e, F = e + 1 := ⟨F - 1, by omega⟩
      refine ⟨e, fun X => ?_, by omega, by omega⟩
      rw [List.singleton_append, nextToken_ws32]
  clear hF hrest hpre
  cases v with
  | null =>
    unfold Value.parse
    rw [hnt]
    rw [show Value.godot_fmt .null = strBytes "null" from rfl] at hE ⊢
    rw [nextToken_ident (strBytes "null") (by decide) e rest hident (by omega)]
    dsimp only
    rw [show classifyIdent (strBytes "null") = .simple .null from by decide]
    simp [valueEndState, valueSelfEnds]
  | bool b =>
    cases b with
    | false =>
      unfold Value.parse
      rw [hnt]
      rw [show Value.godot_fmt (.bool false) = strBytes "false" from rfl] at hE ⊢
      rw [nextToken_ident (strBytes "false") (by decide) e rest hident (by omega)]
      dsimp only
      rw [show classifyIdent (strBytes "false") = .simple (.bool false) from by decide]
      simp [valueEndState, valueSelfEnds]
    | true =>
      unfold Value.parse
      rw [hnt]
      rw [show Value.godot_fmt (.bool true) = strBytes "true" from rfl] at hE ⊢
      rw [nextToken_ident (strBytes "true") (by decide) e rest hident (by omega)]
      dsimp only
      rw [show classifyIdent (strBytes "true") = .simple (.bool true) from by decide]
      simp [valueEndState, valueSelfEnds]
  | integer n =>
    have hn : i64Range n := hv
    unfold Value.parse
    rw [hnt]
    rw [show Value.godot_fmt (.integer n) = i64GodotFmt n from rfl] at hE ⊢
    rw [nextToken_int n hn e rest hnum (by omega)]
    simp [valueEndState, valueSelfEnds]
  | double g =>
    cases g with
    | fin m k =>
      cases k with
      | zero =>
        unfold Value.parse
        rw [hnt]
        rw [nextToken_doubleWhole m e rest hnum (by omega)]
        simp [valueEndState, valueSelfEnds]
      | succ j =>
        have hnorm : (j + 1 = 0) ∨ (m ≠ 0 ∧ m % 10 ≠ 0) := hv
        obtain ⟨hm, hmod⟩ : m ≠ 0 ∧ m % 10 ≠ 0 := by
          rcases hnorm with h | h
          · exact absurd h (by omega)
          · exact h
        unfold Value.parse
        rw [hnt]
        rw [valueFmt_double_frac m (j + 1) hm (by omega)] at hE ⊢
        rw [nextToken_doubleFin m (j + 1) hm (by omega) hmod e rest hnum (by omega)]
        simp [valueEndState, valueSelfEnds]
    | inf =>
      unfold Value.parse
      rw [hnt]
      rw [show Value.godot_fmt (.double .inf) = strBytes "inf" from by decide] at hE ⊢
      rw [nextToken_ident (strBytes "inf") (by decide) e rest hident (by omega)]
      dsimp only
      rw [show classifyIdent (strBytes "inf") = .simple (.double .inf) from by decide]
      simp [valueEndState, valueSelfEnds]
    | negInf =>
      unfold Value.parse
      rw [hnt]
      rw [show Value.godot_fmt (.double .negInf) = strBytes "neg_inf" from by decide]
        at hE ⊢
      rw [nextToken_ident (strBytes "neg_inf") (by decide) e rest hident (by omega)]
      dsimp only
      rw [show classifyIdent (strBytes "neg_inf") = .simple (.double .negInf) from by decide]
      simp [valueEndState, valueSelfEnds]
    | nan =>
      unfold Value.parse
      rw [hnt]
      rw [show Value.godot_fmt (.double .nan) = strBytes "nan" from by decide] at hE ⊢
      rw [nextToken_ident (strBytes "nan") (by decide) e rest hident (by omega)]
      dsimp only
      rw [show classifyIdent (strBytes "nan") = .simple (.double .nan) from by decide]
      simp [valueEndState, valueSelfEnds]
  | string s =>
    have hs : asciiClean s := hv
    unfold Value.parse
    rw [hnt]
    rw [show Value.godot_fmt (.string s) = [34] ++ utf8 s ++ [34] from rfl] at hE ⊢
    rw [utf8_ascii s (fun c hc => (hs c hc).1)] at hE ⊢
    rw [show (([34] ++ s ++ [34]) ++ rest : List Nat) = 34 :: (s ++ 34 :: rest) from by simp]
    rw [nextToken_string s (fun c hc => (hs c hc).2.1) e rest
      (by simp only [List.length_append] at hE; simp at hE; omega)]
    rw [removeNewlines_id s (fun c hc => (hs c hc).2.2)]
    simp [valueEndState, valueSelfEnds]
  | stringName s =>
    have hs : asciiClean s := hv
    unfold Value.parse
    rw [hnt]
    rw [show Value.godot_fmt (.stringName s) = [38, 34] ++ utf8 s ++ [34] from rfl] at hE ⊢
    rw [utf8_ascii s (fun c hc => (hs c hc).1)] at hE ⊢
    rw [show (([38, 34] ++ s ++ [34]) ++ rest : List Nat)
      = 38 :: 34 :: (s ++ 34 :: rest) from by simp]
    rw [nextToken_stringName s (fun c hc => (hs c hc).2.1) e rest
      (by simp only [List.length_append] at hE; simp at hE; omega)]
    rw [removeNewlines_id s (fun c hc => (hs c hc).2.2)]
    simp [valueEndState, valueSelfEnds]
  | vector2i vv =>
    obtain ⟨x, y⟩ := vv
    obtain ⟨hx, hy⟩ : i64Range x ∧ i64Range y := hv
    obtain ⟨f1, rfl⟩ : ∃ g, F = g + 1 := ⟨F - 1, by omega⟩
    obtain ⟨f2, rfl⟩ : ∃ g, f1 = g + 1 := ⟨f1 - 1, by omega⟩
    obtain ⟨f3, rfl⟩ : ∃ g, f2 = g + 1 := ⟨f2 - 1, by omega⟩
    obtain ⟨f4, rfl⟩ : ∃ g, f3 = g + 1 := ⟨f3 - 1, by omega⟩
    have hfmt : Value.godot_fmt (.vector2i ⟨x, y⟩)
        = (strBytes "Vector2i" ++ [40]) ++ i64GodotFmt x ++ [44, 32] ++ i64GodotFmt y
          ++ [41] := by
      show Vector2i.godot_fmt ⟨x, y⟩ = _
      unfold Vector2i.godot_fmt
      rw [show strBytes "Vector2i(" = strBytes "Vector2i" ++ [40] from by decide,
        show strBytes ", " = ([44, 32] : List Nat) from by decide]
    rw [hfmt] at hE ⊢
    simp only [List.length_append] at hE
    unfold Value.parse
    rw [hnt]
    rw [show (((strBytes "Vector2i" ++ [40]) ++ i64GodotFmt x ++ [44, 32] ++ i64GodotFmt y
        ++ [41]) ++ rest : List Nat)
      = strBytes "Vector2i" ++ (40 :: (i64GodotFmt x ++ 44 :: 32 :: (i64GodotFmt y
        ++ 41 :: rest))) from by simp]
    rw [nextToken_ident (strBytes "Vector2i") (by decide) e
      (40 :: (i64GodotFmt x ++ 44 :: 32 :: (i64GodotFmt y ++ 41 :: rest)))
      (headNotIdent_40 _) (by simp at hE ⊢; omega)]
    dsimp only
    rw [show classifyIdent (strBytes "Vector2i") = .vector2iCtor from by decide]
    dsimp only [pushback]
    unfold parse_int_constructor
    rw [nextToken_unsave, nextToken_parenOpen]
    dsimp only
    rw [parseIntArgsLoop_first x hx (f4 + 1 + 1 + 1)
      (44 :: 32 :: (i64GodotFmt y ++ 41 :: rest)) (headStopsNum_44 _)
      (by simp at hE ⊢; omega)]
    dsimp only [pushback]
    rw [parseIntArgsLoop_next y hy (f4 + 1 + 1) [x] (by simp) (41 :: rest)
      (headStopsNum_41 _) (by simp at hE ⊢; omega)]
    dsimp only [pushback]
    simp only [List.cons_append, List.nil_append]
    rw [parseIntArgsLoop_close [x, y] (by simp) (f4 + 1) rest (by omega)]
    simp [valueEndState, valueSelfEnds]
  | color c =>
    cases c with
    | rgba r g b a =>
      obtain ⟨hr, hg, hb, ha⟩ :
          r.colorClean ∧ g.colorClean ∧ b.colorClean ∧ a.colorClean := hv
      obtain ⟨f1, rfl⟩ : ∃ g, F = g + 1 := ⟨F - 1, by omega⟩
      obtain ⟨f2, rfl⟩ : ∃ g, f1 = g + 1 := ⟨f1 - 1, by omega⟩
      obtain ⟨f3, rfl⟩ : ∃ g, f2 = g + 1 := ⟨f2 - 1, by omega⟩
      obtain ⟨f4, rfl⟩ : ∃ g, f3 = g + 1 := ⟨f3 - 1, by omega⟩
      obtain ⟨f5, rfl⟩ : ∃ g, f4 = g + 1 := ⟨f4 - 1, by omega⟩
      have hfmt : Value.godot_fmt (.color (.rgba r g b a))
          = (strBytes "Color" ++ [40]) ++ f64GodotFmt r ++ [44, 32] ++ f64GodotFmt g
            ++ [44, 32] ++ f64GodotFmt b ++ [44, 32] ++ f64GodotFmt a ++ [41] := by
        show Color.godot_fmt (.rgba r g b a) = _
        unfold Color.godot_fmt
        rw [show strBytes "Color(" = strBytes "Color" ++ [40] from by decide,
          show strBytes ", " = ([44, 32] : List Nat) from by decide]
      rw [hfmt] at hE ⊢
      simp only [List.length_append] at hE
      unfold Value.parse
      rw [hnt]
      rw [show (((strBytes "Color" ++ [40]) ++ f64GodotFmt r ++ [44, 32] ++ f64GodotFmt g
          ++ [44, 32] ++ f64GodotFmt b ++ [44, 32] ++ f64GodotFmt a ++ [41]) ++ rest
          : List Nat)
        = strBytes "Color" ++ (40 :: (f64GodotFmt r ++ 44 :: 32 :: (f64GodotFmt g
          ++ 44 :: 32 :: (f64GodotFmt b ++ 44 :: 32 :: (f64GodotFmt a ++ 41 :: rest)))))
        from by simp]
      rw [nextToken_ident (strBytes "Color") (by decide) e
        (40 :: (f64GodotFmt r ++ 44 :: 32 :: (f64GodotFmt g ++ 44 :: 32 :: (f64GodotFmt b
          ++ 44 :: 32 :: (f64GodotFmt a ++ 41 :: rest))))) (headNotIdent_40 _)
        (by simp at hE ⊢; omega)]
      dsimp only
      rw [show classifyIdent (strBytes "Color") = .colorCtor from by decide]
      dsimp only [pushback]
      unfold parse_double_constructor
      rw [nextToken_unsave, nextToken_parenOpen]
      dsimp only
      rw [parseDoubleArgsLoop_first r hr (f5 + 1 + 1 + 1 + 1)
        (44 :: 32 :: (f64GodotFmt g ++ 44 :: 32 :: (f64GodotFmt b ++ 44 :: 32
          :: (f64GodotFmt a ++ 41 :: rest)))) (headStopsNum_44 _)
        (by simp at hE ⊢; omega)]
      dsimp only [pushback]
      rw [parseDoubleArgsLoop_next g hg (f5 + 1 + 1 + 1) [r] (by simp)
        (44 :: 32 :: (f64GodotFmt b ++ 44 :: 32 :: (f64GodotFmt a ++ 41 :: rest)))
        (headStopsNum_44 _) (by simp at hE ⊢; omega)]
      dsimp only [pushback]
      simp only [List.cons_append, List.nil_append]
      rw [parseDoubleArgsLoop_next b hb (f5 + 1 + 1) [r, g] (by simp)
        (44 :: 32 :: (f64GodotFmt a ++ 41 :: rest)) (headStopsNum_44 _)
        (by simp at hE ⊢; omega)]
      dsimp only [pushback]
      simp only [List.cons_append, List.nil_append]
      rw [parseDoubleArgsLoop_next a ha (f5 + 1) [r, g, b] (by simp) (41 :: rest)
        (headStopsNum_41 _) (by simp at hE ⊢; omega)]
      dsimp only [pushback]
      simp only [List.cons_append, List.nil_append]
      rw [parseDoubleArgsLoop_close [r, g, b, a] (by simp) f5 rest (by omega)]
      simp [valueEndState, valueSelfEnds]
    | html s =>
      cases s with
      | nil => exact absurd hv (by simp [Value.clean, validHtmlColor])
      | cons c0 hex =>
        obtain ⟨hc0, hhexd⟩ : c0 = 35 ∧ ∀ x ∈ hex, isAsciiHexDigit x := hv
        subst hc0
        have hascii : ∀ c ∈ (35 :: hex : List Nat), c < 127 := by
          intro c hc
          rcases List.mem_cons.mp hc with rfl | hc
          · omega
          · have := hhexd c hc
            unfold isAsciiHexDigit isAsciiDigit at this
            omega
        unfold Value.parse
        rw [hnt]
        rw [show Value.godot_fmt (.color (.html (35 :: hex))) = utf8 (35 :: hex) from rfl]
          at hE ⊢
        rw [utf8_ascii _ hascii] at hE ⊢
        rw [show ((35 :: hex : List Nat) ++ rest) = 35 :: (hex ++ rest) from by simp]
        rw [nextToken_color hex hhexd e rest hhex (by simp at hE ⊢; omega)]
        simp [valueEndState, valueSelfEnds]
  | subResource s =>
    have hs : asciiClean s := hv
    unfold Value.parse
    rw [hnt]
    rw [show Value.godot_fmt (.subResource s)
      = strBytes "SubResource(" ++ [34] ++ utf8 s ++ [34, 41] from rfl] at hE ⊢
    rw [utf8_ascii s (fun c hc => (hs c hc).1)] at hE ⊢
    rw [show strBytes "SubResource(" = strBytes "SubResource" ++ [40] from by decide]
      at hE ⊢
    simp only [List.length_append] at hE
    rw [show (((strBytes "SubResource" ++ [40]) ++ [34] ++ s ++ [34, 41]) ++ rest : List Nat)
      = strBytes "SubResource" ++ (40 :: 34 :: (s ++ 34 :: 41 :: rest)) from by simp]
    rw [nextToken_ident (strBytes "SubResource") (by decide) e
      (40 :: 34 :: (s ++ 34 :: 41 :: rest)) (headNotIdent_40 _) (by simp at hE ⊢; omega)]
    dsimp only
    rw [show classifyIdent (strBytes "SubResource") = .subResourceCtor from by decide]
    dsimp only [pushback]
    rw [parseResourceArg_render s hs F rest (by simp at hE; omega)]
    simp [valueEndState, valueSelfEnds]
  | extResource s =>
    have hs : asciiClean s := hv
    unfold Value.parse
    rw [hnt]
    rw [show Value.godot_fmt (.extResource s)
      = strBytes "ExtResource(" ++ [34] ++ utf8 s ++ [34, 41] from rfl] at hE ⊢
    rw [utf8_ascii s (fun c hc => (hs c hc).1)] at hE ⊢
    rw [show strBytes "ExtResource(" = strBytes "ExtResource" ++ [40] from by decide]
      at hE ⊢
    simp only [List.length_append] at hE
    rw [show (((strBytes "ExtResource" ++ [40]) ++ [34] ++ s ++ [34, 41]) ++ rest : List Nat)
      = strBytes "ExtResource" ++ (40 :: 34 :: (s ++ 34 :: 41 :: rest)) from by simp]
    rw [nextToken_ident (strBytes "ExtResource") (by decide) e
      (40 :: 34 :: (s ++ 34 :: 41 :: rest)) (headNotIdent_40 _) (by simp at hE ⊢; omega)]
    dsimp only
    rw [show classifyIdent (strBytes "ExtResource") = .extResourceCtor from by decide]
    dsimp only [pushback]
    rw [parseResourceArg_render s hs F rest (by simp at hE; omega)]
    simp [valueEndState, valueSelfEnds]

end Godot

namespace Godot

/-! ## Round-trip lemmas: assign lines -/

/-- The byte loop of `TagAssign::parse` accumulates a clean path verbatim. -/
theorem tagAssignParse_path (p : List Nat) (hp : pathClean p) :
    ∀ (F : Nat) (what s : List Nat), p.length ≤ F →
      TagAssign.parse F what ⟨none, p ++ s⟩
        = TagAssign.parse (F - p.length) (what ++ p) ⟨none, s⟩ := by
  induction p with
  | nil => intro F what s hF; simp
  | cons c cs ih =>
    intro F what s hF
    obtain ⟨hc1, hc2, hc3, hc4, hc5, hc6⟩ := hp c (by simp)
    obtain ⟨f, rfl⟩ : ∃ f, F = f + 1 := ⟨F - 1, by simp at hF; omega⟩
    show TagAssign.parse (f + 1) what ⟨none, c :: (cs ++ s)⟩ = _
    conv_lhs => unfold TagAssign.parse
    simp only [Tokenizer.next_byte]
    rw [if_neg hc4, if_neg (by rintro ⟨h, _⟩; exact hc6 h), if_neg hc3, if_neg hc5,
      if_neg (by omega : ¬c = 10), if_neg (by omega : ¬c ≤ 32)]
    rw [ih (fun x hx => hp x (by simp [hx])) f (what ++ [c]) s (by simp at hF; omega)]
    simp [List.append_assoc, Nat.succ_sub_succ]

/-- `TagAssign::parse` re-reads one rendered assign line. -/
theorem tagAssignParse_render (p : List Nat) (hp : pathClean p) (v : Value) (hv : v.clean)
    (F : Nat) (next : List Nat)
    (hF : p.length + (Value.godot_fmt v).length + 30 ≤ F) :
    TagAssign.parse F [] ⟨none, TagAssign.godot_fmt ⟨p, v⟩ ++ next⟩
      = .ok (some ⟨p, v⟩, valueEndState v (10 :: next)) := by
  have hshape : TagAssign.godot_fmt ⟨p, v⟩ ++ next
      = p ++ (32 :: 61 :: 32 :: (Value.godot_fmt v ++ 10 :: next)) := by
    unfold TagAssign.godot_fmt
    dsimp only
    rw [utf8_ascii p (fun c hc => (hp c hc).2.1)]
    rw [show strBytes " = " = ([32, 61, 32] : List Nat) from by decide]
    simp
  rw [hshape]
  rw [tagAssignParse_path p hp F [] _ (by omega)]
  simp only [List.nil_append]
  obtain ⟨g, hg⟩ : ∃ g, F - p.length = g + 1 := ⟨F - p.length - 1, by omega⟩
  rw [hg]
  conv_lhs => unfold TagAssign.parse
  simp only [Tokenizer.next_byte]
  rw [if_neg (by omega : ¬(32 : Nat) = 59),
    if_neg (by rintro ⟨h, _⟩; omega : ¬((32 : Nat) = 91 ∧ p = [])),
    if_neg (by omega : ¬(32 : Nat) = 34), if_neg (by omega : ¬(32 : Nat) = 61),
    if_neg (by omega : ¬(32 : Nat) = 10), if_pos (by omega : (32 : Nat) ≤ 32)]
  obtain ⟨h, hh⟩ : ∃ h, g = h + 1 := ⟨g - 1, by omega⟩
  rw [hh]
  conv_lhs => unfold TagAssign.parse
  simp only [Tokenizer.next_byte]
  rw [if_neg (by omega : ¬(61 : Nat) = 59),
    if_neg (by rintro ⟨h1, _⟩; omega : ¬((61 : Nat) = 91 ∧ p = [])),
    if_neg (by omega : ¬(61 : Nat) = 34), if_pos (trivial : True)]
  have hvp := valueParse_render [32] (Or.inr rfl) v hv h (10 :: next) (Or.inl rfl)
    (by omega)
  rw [List.singleton_append] at hvp
  rw [hvp]

end Godot

namespace Godot

/-- The assign reader skips a newline byte. -/
theorem tagAssignParse_10 (f : Nat) (w : List Nat) (bs : List Nat) :
    TagAssign.parse (f + 1) w ⟨none, 10 :: bs⟩ = TagAssign.parse f w ⟨none, bs⟩ := by
  conv_lhs => unfold TagAssign.parse
  dsimp only [Tokenizer.next_byte]
  rw [if_neg (by omega : ¬(10 : Nat) = 59),
    if_neg (by rintro ⟨h, _⟩; omega : ¬((10 : Nat) = 91 ∧ w = [])),
    if_neg (by omega : ¬(10 : Nat) = 34), if_neg (by omega : ¬(10 : Nat) = 61),
    if_pos (rfl : (10 : Nat) = 10)]

/-- After the last assign line, the reader stops: at end of input it reports
no assign, and at the blank line before the next tag it skips the newline and
saves the bracket back. -/
theorem tagAssignParse_end (f : Nat) (rest : List Nat)
    (hrest : rest = [] ∨ ∃ r, rest = 10 :: 91 :: r) (hf : 3 ≤ f) :
    TagAssign.parse f [] ⟨none, 10 :: rest⟩ = .ok (none, pushback (rest.drop 1)) := by
  obtain ⟨g, rfl⟩ : ∃ g, f = g + 1 := ⟨f - 1, by omega⟩
  rw [tagAssignParse_10 g [] rest]
  obtain ⟨h, rfl⟩ : ∃ h, g = h + 1 := ⟨g - 1, by omega⟩
  rcases hrest with rfl | ⟨r, rfl⟩
  · rfl
  · rw [tagAssignParse_10 h [] (91 :: r)]
    obtain ⟨e, rfl⟩ : ∃ e, h = e + 1 := ⟨h - 1, by omega⟩
    conv_lhs => unfold TagAssign.parse
    dsimp only [Tokenizer.next_byte]
    rw [if_neg (by omega : ¬(91 : Nat) = 59), if_pos ⟨rfl, rfl⟩]
    rw [save_byte_ok 91 ⟨none, r⟩ rfl]
    rfl

/-- The assigns loop treats a value's end state as the unread newline. -/
theorem parseAssignsLoop_endState (f : Nat) (acc : List TagAssign) (v : Value)
    (X : List Nat) :
    parseAssignsLoop f acc (valueEndState v (10 :: X))
      = parseAssignsLoop f acc ⟨none, 10 :: X⟩ := by
  unfold valueEndState
  split
  · rfl
  · exact parseAssignsLoop_unsave f acc 10 X

/-- The assigns loop reads back every clean rendered assign line, stopping at
end of input or at the next tag's opening bracket. -/
theorem parseAssignsLoop_render (assigns : List TagAssign) (hcl : ∀ a ∈ assigns, a.clean) :
    ∀ (F : Nat) (acc : List TagAssign) (rest : List Nat),
      rest = [] ∨ (∃ r, rest = 10 :: 91 :: r) →
      (assignsText assigns).length + assigns.length + 40 ≤ F →
      parseAssignsLoop F acc ⟨none, 10 :: (assignsText assigns ++ rest)⟩
        = .ok (acc ++ assigns, pushback (rest.drop 1)) := by
  induction assigns with
  | nil =>
    intro F acc rest hrest hF
    obtain ⟨f, rfl⟩ : ∃ f, F = f + 1 := ⟨F - 1, by omega⟩
    conv_lhs => unfold parseAssignsLoop
    rw [show assignsText [] = ([] : List Nat) from rfl]
    simp only [List.nil_append]
    rw [tagAssignParse_end f rest hrest (by omega)]
    simp
  | cons a as ih =>
    intro F acc rest hrest hF
    obtain ⟨p, v⟩ := a
    obtain ⟨hp, hv⟩ : pathClean p ∧ Value.clean v := hcl ⟨p, v⟩ (by simp)
    rw [show assignsText (⟨p, v⟩ :: as)
      = TagAssign.godot_fmt ⟨p, v⟩ ++ assignsText as from rfl] at hF ⊢
    have hlen : (TagAssign.godot_fmt ⟨p, v⟩).length
        = p.length + (Value.godot_fmt v).length + 4 := by
      rw [tagAssignFmt_eq]
      dsimp only
      rw [utf8_ascii p (fun c hc => (hp c hc).2.1)]
      simp
      omega
    simp only [List.length_append, List.length_cons] at hF
    rw [hlen] at hF
    obtain ⟨f, rfl⟩ : ∃ f, F = f + 1 := ⟨F - 1, by omega⟩
    obtain ⟨g, rfl⟩ : ∃ g, f = g + 1 := ⟨f - 1, by omega⟩
    conv_lhs => unfold parseAssignsLoop
    rw [tagAssignParse_10 g []]
    rw [List.append_assoc]
    rw [tagAssignParse_render p hp v hv g (assignsText as ++ rest) (by omega)]
    dsimp only
    rw [parseAssignsLoop_endState]
    have hih := ih (fun x hx => hcl x (by simp [hx])) (g + 1)
      (acc ++ [{ assign := p, value := v }]) rest hrest (by omega)
    rw [hih]
    simp

end Godot

namespace Godot

/-! ## Round-trip lemmas: tag headers -/

theorem validIdent_ascii (id : List Nat) (h : validIdent id) : ∀ c ∈ id, c < 127 := by
  cases id with
  | nil => simp
  | cons c cs =>
    obtain ⟨hc, hcs⟩ := h
    intro x hx
    rcases List.mem_cons.mp hx with rfl | hx
    · unfold isIdentStart isAsciiAlphabetic at hc
      omega
    · have := hcs x hx
      unfold isIdentChar isAsciiAlphanumeric isAsciiAlphabetic isAsciiDigit at this
      omega

/-- `=` stops the identifier scanner. -/
theorem headNotIdent_61 (l : List Nat) : headNotIdent (61 :: l) :=
  (by decide : ¬isIdentChar 61)

/-- A tag name is followed by a field (space) or the closing bracket. -/
theorem headNotIdent_fieldsTail (fs : List Field) (after : List Nat) :
    headNotIdent (fieldsText fs ++ 93 :: after) := by
  cases fs with
  | nil => exact (by decide : ¬isIdentChar 93)
  | cons fld rest => exact (by decide : ¬isIdentChar 32)

/-- A field value is followed by a field (space) or the closing bracket. -/
theorem valueStop_fieldsTail (fs : List Field) (after : List Nat) :
    valueStop (fieldsText fs ++ 93 :: after) := by
  cases fs with
  | nil => exact Or.inr (Or.inr (Or.inl rfl))
  | cons fld rest => exact Or.inr (Or.inl rfl)

/-- The field loop treats a value's end state as the unread stopper. -/
theorem fieldsLoop_endState (f : Nat) (name : List Nat) (fl : List Field) (pt : Bool)
    (v : Value) (Y : List Nat) :
    fieldsLoop f name fl pt (valueEndState v Y) = fieldsLoop f name fl pt ⟨none, Y⟩ := by
  unfold valueEndState
  split
  · rfl
  · cases Y with
    | nil => rfl
    | cons c cs => exact fieldsLoop_unsave f name fl pt c cs

theorem fieldsLoop_pushback (f : Nat) (name : List Nat) (fl : List Field) (pt : Bool)
    (Z : List Nat) :
    fieldsLoop f name fl pt (pushback Z) = fieldsLoop f name fl pt ⟨none, Z⟩ := by
  cases Z with
  | nil => rfl
  | cons c cs => exact fieldsLoop_unsave f name fl pt c cs

theorem fieldsText_count (fs : List Field) : fs.length ≤ (fieldsText fs).length := by
  induction fs with
  | nil => simp [fieldsText]
  | cons fld rest ih =>
    show (fld :: rest).length ≤ (fieldText fld ++ fieldsText rest).length
    rw [show fieldText fld
      = 32 :: utf8 fld.identifier ++ 61 :: Value.godot_fmt fld.value from rfl]
    simp at ih ⊢
    omega

theorem assignsText_count (as : List TagAssign) : as.length ≤ (assignsText as).length := by
  induction as with
  | nil => simp [assignsText]
  | cons a rest ih =>
    show (a :: rest).length ≤ (TagAssign.godot_fmt a ++ assignsText rest).length
    rw [tagAssignFmt_eq]
    simp at ih ⊢
    omega


/-- The field loop reads back every clean rendered field and stops at the
closing bracket. -/
theorem fieldsLoop_render (fields : List Field) (hcl : ∀ fld ∈ fields, fld.clean) :
    ∀ (F : Nat) (name : List Nat) (acc : List Field) (pt : Bool) (after : List Nat),
      (fieldsText fields).length + fields.length + 30 ≤ F →
      fieldsLoop F name acc pt ⟨none, fieldsText fields ++ 93 :: after⟩
        = .ok (⟨name, acc ++ fields, []⟩, ⟨none, after⟩) := by
  induction fields with
  | nil =>
    intro F name acc pt after hF
    obtain ⟨f, rfl⟩ : ∃ f, F = f + 1 := ⟨F - 1, by omega⟩
    conv_lhs => unfold fieldsLoop
    rw [show fieldsText [] = ([] : List Nat) from rfl]
    simp only [List.nil_append]
    obtain ⟨g, rfl⟩ : ∃ g, f = g + 1 := ⟨f - 1, by omega⟩
    rw [nextToken_bracketClose]
    simp
  | cons fld rest ih =>
    intro F name acc pt after hF
    obtain ⟨id, v⟩ := fld
    obtain ⟨hid, hv⟩ : validIdent id ∧ Value.clean v := hcl ⟨id, v⟩ (by simp)
    rw [show fieldsText (⟨id, v⟩ :: rest) = fieldText ⟨id, v⟩ ++ fieldsText rest from rfl]
      at hF ⊢
    have hft : fieldText ⟨id, v⟩ = 32 :: (id ++ 61 :: Value.godot_fmt v) := by
      unfold fieldText
      dsimp only
      rw [utf8_ascii id (validIdent_ascii id hid)]
      simp
    rw [hft] at hF ⊢
    simp only [List.length_append, List.length_cons] at hF
    obtain ⟨f, rfl⟩ : ∃ f, F = f + 1 := ⟨F - 1, by omega⟩
    conv_lhs => unfold fieldsLoop
    rw [show (32 :: (id ++ 61 :: Value.godot_fmt v) ++ fieldsText rest ++ 93 :: after
        : List Nat)
      = 32 :: (id ++ 61 :: (Value.godot_fmt v ++ (fieldsText rest ++ 93 :: after)))
      from by simp]
    obtain ⟨g, rfl⟩ : ∃ g, f = g + 1 := ⟨f - 1, by omega⟩
    rw [nextToken_ws32 g (id ++ 61 :: (Value.godot_fmt v ++ (fieldsText rest
      ++ 93 :: after)))]
    rw [nextToken_ident id hid g (61 :: (Value.godot_fmt v ++ (fieldsText rest
      ++ 93 :: after))) (headNotIdent_61 _) (by simp at hF ⊢; omega)]
    have hper : ¬((pt = true) ∧ Token.identifier id = Token.period) := by
      rintro ⟨h1, h2⟩
      simp at h2
    have hcol : ¬((pt = true) ∧ Token.identifier id = Token.colon) := by
      rintro ⟨h1, h2⟩
      simp at h2
    dsimp only
    simp only [if_neg hper, if_neg hcol]
    rw [if_neg (Bool.false_ne_true)]
    dsimp only [pushback]
    rw [nextToken_unsave, nextToken_equal g (Value.godot_fmt v ++ (fieldsText rest
      ++ 93 :: after))]
    dsimp only
    have hvp := valueParse_render [] (Or.inl rfl) v hv (g + 1)
      (fieldsText rest ++ 93 :: after) (valueStop_fieldsTail rest after)
      (by simp at hF ⊢; omega)
    rw [List.nil_append] at hvp
    rw [hvp]
    dsimp only
    rw [fieldsLoop_endState]
    have hih := ih (fun x hx => hcl x (by simp [hx])) (g + 1) name
      (acc ++ [{ identifier := id, value := v }]) false after (by omega)
    rw [hih]
    simp

end Godot

namespace Godot

/-- `Tag::parse` reads back a clean rendered tag header (optionally preceded
by the writer's blank line), leaving the stream right after the bracket. -/
theorem tagParse_render (pre : List Nat) (hpre : pre = [] ∨ pre = [10, 10])
    (name : List Nat) (hname : validIdent name) (fields : List Field)
    (hfl : ∀ fld ∈ fields, fld.clean) (F : Nat) (after : List Nat)
    (hF : name.length + (fieldsText fields).length + fields.length + 40 ≤ F) :
    Tag.parse F ⟨none, pre ++ (91 :: (name ++ fieldsText fields ++ 93 :: after))⟩
      = .ok (some ⟨name, fields, []⟩, ⟨none, after⟩) := by
  obtain ⟨e, hnt, he1, he2⟩ : ∃ e,
      (∀ X : List Nat, nextToken F ⟨none, pre ++ X⟩ = nextToken e ⟨none, X⟩)
      ∧ e ≤ F ∧ F ≤ e + 2 := by
    rcases hpre with rfl | rfl
    · exact ⟨F, fun X => by simp, le_rfl, by omega⟩
    · obtain ⟨e, rfl⟩ : ∃ e, F = e + 1 + 1 := ⟨F - 2, by omega⟩
      refine ⟨e, fun X => ?_, by omega, by omega⟩
      show nextToken (e + 1 + 1) ⟨none, 10 :: (10 :: X)⟩ = _
      rw [nextToken_ws10, nextToken_ws10]
  unfold Tag.parse
  rw [hnt]
  obtain ⟨g, hg⟩ : ∃ g, e = g + 1 := ⟨e - 1, by omega⟩
  rw [hg, nextToken_bracketOpen]
  dsimp only
  rw [List.append_assoc]
  rw [nextToken_ident name hname F (fieldsText fields ++ 93 :: after)
    (headNotIdent_fieldsTail fields after) (by omega)]
  dsimp only
  rw [fieldsLoop_pushback]
  rw [fieldsLoop_render fields hfl F name [] true after (by omega)]
  simp

end Godot

namespace Godot

/-- The tag loop of `parse_file` reads back every clean rendered body tag,
entered either at the newline after the header bracket or with the next
bracket pushed back. -/
theorem parseTagsLoop_render (tags : List Tag) (hcl : ∀ t ∈ tags, t.clean) :
    ∀ (F : Nat) (acc : List Tag) (t₀ : Tokenizer),
      (t₀ = ⟨none, 10 :: tagsText tags⟩ ∨ t₀ = pushback ((tagsText tags).drop 1)) →
      2 * (tagsText tags).length + 60 ≤ F →
      parseTagsLoop F acc t₀ = .ok (acc ++ tags) := by
  induction tags with
  | nil =>
    intro F acc t₀ hstate hF
    obtain ⟨f, rfl⟩ : ∃ f, F = f + 1 := ⟨F - 1, by omega⟩
    conv_lhs => unfold parseTagsLoop
    have htp : Tag.parse f t₀ = .ok (none, ⟨none, []⟩) := by
      rcases hstate with rfl | rfl
      · show Tag.parse f ⟨none, [10]⟩ = _
        unfold Tag.parse
        obtain ⟨g, rfl⟩ : ∃ g, f = g + 1 := ⟨f - 1, by omega⟩
        rw [show ([10] : List Nat) = 10 :: [] from rfl, nextToken_ws10 g []]
        obtain ⟨h, rfl⟩ : ∃ h, g = h + 1 := ⟨g - 1, by omega⟩
        rw [nextToken_eof]
      · show Tag.parse f ⟨none, []⟩ = _
        unfold Tag.parse
        obtain ⟨g, rfl⟩ : ∃ g, f = g + 1 := ⟨f - 1, by omega⟩
        rw [nextToken_eof]
    rw [htp]
    simp
  | cons t ts ih =>
    intro F acc t₀ hstate hF
    obtain ⟨name, fields, assigns⟩ := t
    obtain ⟨hname, hfl, has⟩ :
        validIdent name ∧ (∀ fld ∈ fields, fld.clean) ∧ ∀ a ∈ assigns, a.clean :=
      hcl ⟨name, fields, assigns⟩ (by simp)
    have hcount1 := fieldsText_count fields
    have hcount2 := assignsText_count assigns
    have hfmt : Tag.godot_fmt ⟨name, fields, assigns⟩
        = 91 :: (name ++ fieldsText fields ++ 93 :: 10 :: assignsText assigns) := by
      rw [tagFmt_eq]
      dsimp only
      rw [utf8_ascii name (validIdent_ascii name hname)]
    have htt : tagsText (⟨name, fields, assigns⟩ :: ts)
        = 10 :: (91 :: (name ++ fieldsText fields ++ 93 :: 10 :: assignsText assigns)
            ++ tagsText ts) := by
      rw [show tagsText (⟨name, fields, assigns⟩ :: ts)
        = 10 :: (Tag.godot_fmt ⟨name, fields, assigns⟩ ++ tagsText ts) from rfl, hfmt]
    rw [htt] at hstate hF
    simp only [List.length_cons, List.length_append] at hF
    obtain ⟨f, rfl⟩ : ∃ f, F = f + 1 := ⟨F - 1, by omega⟩
    conv_lhs => unfold parseTagsLoop
    have htp : Tag.parse f t₀
        = .ok (some ⟨name, fields, []⟩, ⟨none, 10 :: (assignsText assigns ++ tagsText ts)⟩)
        := by
      rcases hstate with rfl | rfl
      · have := tagParse_render [10, 10] (Or.inr rfl) name hname fields hfl f
          (10 :: (assignsText assigns ++ tagsText ts)) (by omega)
        rw [show ([10, 10] : List Nat)
          ++ (91 :: (name ++ fieldsText fields ++ 93 :: (10 :: (assignsText assigns
            ++ tagsText ts))))
          = 10 :: (10 :: (91 :: (name ++ fieldsText fields ++ 93 :: 10
            :: assignsText assigns) ++ tagsText ts)) from by simp] at this
        exact this
      · rw [show ((10 :: (91 :: (name ++ fieldsText fields ++ 93 :: 10
          :: assignsText assigns) ++ tagsText ts)).drop 1)
          = 91 :: (name ++ fieldsText fields ++ 93 :: 10 :: assignsText assigns)
            ++ tagsText ts from rfl]
        rw [show pushback (91 :: (name ++ fieldsText fields ++ 93 :: 10
          :: assignsText assigns) ++ tagsText ts)
          = ⟨some 91, (name ++ fieldsText fields ++ 93 :: 10 :: assignsText assigns)
            ++ tagsText ts⟩ from rfl]
        rw [tagParse_unsave]
        have := tagParse_render [] (Or.inl rfl) name hname fields hfl f
          (10 :: (assignsText assigns ++ tagsText ts)) (by omega)
        rw [List.nil_append] at this
        rw [show (91 :: ((name ++ fieldsText fields ++ 93 :: 10 :: assignsText assigns)
          ++ tagsText ts) : List Nat)
          = 91 :: (name ++ fieldsText fields ++ 93 :: (10 :: (assignsText assigns
            ++ tagsText ts))) from by simp]
        exact this
    rw [htp]
    dsimp only
    have hrest : tagsText ts = [] ∨ ∃ r, tagsText ts = 10 :: 91 :: r := by
      cases ts with
      | nil => exact Or.inl rfl
      | cons t₂ ts₂ =>
        refine Or.inr ⟨(utf8 t₂.name ++ fieldsText t₂.fields ++ 93 :: 10
          :: assignsText t₂.assigns) ++ tagsText ts₂, ?_⟩
        rw [show tagsText (t₂ :: ts₂) = 10 :: (Tag.godot_fmt t₂ ++ tagsText ts₂) from rfl,
          tagFmt_eq]
        simp
    have hal := parseAssignsLoop_render assigns has f [] (tagsText ts) hrest (by omega)
    rw [hal]
    dsimp only
    simp only [List.nil_append]
    have hih := ih (fun x hx => hcl x (by simp [hx])) f
      (acc ++ [{ name := name, fields := fields, assigns := assigns }])
      (pushback ((tagsText ts).drop 1)) (Or.inr rfl) (by omega)
    rw [hih]
    simp

end Godot

namespace Godot

/-- `parse_file` reads a clean written document back to the same document
model: the round-trip of the writer through the parser is the identity. -/
theorem parse_file_render (gf : GodotFile) (hgf : gf.clean) (F : Nat)
    (hF : 2 * (writeGodotFile gf).length + 200 ≤ F) :
    parse_file F (writeGodotFile gf) = .ok gf := by
  obtain ⟨header, tags⟩ := gf
  obtain ⟨hclean, hha, hgate, htags⟩ := hgf
  obtain ⟨name, fields, assigns⟩ := header
  obtain ⟨hname, hfl, -⟩ := hclean
  have hassigns : assigns = [] := hha
  subst hassigns
  have hw : writeGodotFile ⟨⟨name, fields, []⟩, tags⟩
      = 91 :: (name ++ fieldsText fields ++ 93 :: (10 :: tagsText tags)) := by
    rw [writeGodotFile_eq]
    dsimp only
    rw [tagFmt_eq]
    dsimp only
    rw [utf8_ascii name (validIdent_ascii name hname)]
    simp [assignsText]
  rw [hw] at hF ⊢
  have hcount1 := fieldsText_count fields
  simp only [List.length_cons, List.length_append] at hF
  unfold parse_file
  have htp := tagParse_render [] (Or.inl rfl) name hname fields hfl F (10 :: tagsText tags)
    (by omega)
  rw [List.nil_append] at htp
  rw [htp]
  dsimp only
  rcases hgate with hnone | ⟨fld, hfind, hval⟩
  · rw [hnone]
    unfold parseBody
    rw [parseTagsLoop_render tags htags F [] _ (Or.inl rfl) (by omega)]
    simp
  · rw [hfind]
    dsimp only
    rw [hval]
    rw [if_pos (show Value.integer 3 = Value.integer FORMAT_VERSION from rfl)]
    unfold parseBody
    rw [parseTagsLoop_render tags htags F [] _ (Or.inl rfl) (by omega)]
    simp

end Godot

namespace Godot

/-- C1 amended: for every clean document — a header with a plain identifier
name, clean fields and no assigns, a passing format gate, and body tags with
plain identifier names, clean fields and clean assigns — `parse_file` maps
the writer's output back to the very same document, so re-serializing the
parse result is byte-identical to the original text. -/
theorem c1_reserialization_amended (gf : GodotFile) (hgf : gf.clean) (F : Nat)
    (hF : 2 * (writeGodotFile gf).length + 200 ≤ F) :
    parse_file F (writeGodotFile gf) = .ok gf
    ∧ ∀ gf2, parse_file F (writeGodotFile gf) = .ok gf2
        → writeGodotFile gf2 = writeGodotFile gf := by
  refine ⟨parse_file_render gf hgf F hF, ?_⟩
  intro gf2 h2
  rw [parse_file_render gf hgf F hF] at h2
  injection h2 with h
  rw [← h]

/-- C1 witness: a concrete clean two-tag document whose written text parses
back to itself. -/
theorem c1_reserialization_amended_witness :
    GodotFile.clean
        ⟨⟨strBytes "gd_resource", [⟨strBytes "format", .integer 3⟩], []⟩,
         [⟨strBytes "resource", [⟨strBytes "kind", .string (strBytes "tiles")⟩],
           [⟨strBytes "a/b", .integer 5⟩, ⟨strBytes "c", .vector2i ⟨-3, 7⟩⟩]⟩]⟩
    ∧ parse_file 2000
        (writeGodotFile
          ⟨⟨strBytes "gd_resource", [⟨strBytes "format", .integer 3⟩], []⟩,
           [⟨strBytes "resource", [⟨strBytes "kind", .string (strBytes "tiles")⟩],
             [⟨strBytes "a/b", .integer 5⟩, ⟨strBytes "c", .vector2i ⟨-3, 7⟩⟩]⟩]⟩)
      = .ok ⟨⟨strBytes "gd_resource", [⟨strBytes "format", .integer 3⟩], []⟩,
         [⟨strBytes "resource", [⟨strBytes "kind", .string (strBytes "tiles")⟩],
           [⟨strBytes "a/b", .integer 5⟩, ⟨strBytes "c", .vector2i ⟨-3, 7⟩⟩]⟩]⟩ :=
  ⟨by decide,
   (c1_reserialization_amended _ (by decide) 2000 (by decide)).1⟩

/-- C3 amended: rendering a clean value — in-range integers and vectors, a
normalized finite or special double, printable quote-free newline-free
strings, name-strings and resource ids, rgba colors with clean components,
and `#`-hex html colors — and re-parsing it followed by a delimiter yields
the equal value, with the tokenizer at the value's end state. -/
theorem c3_value_roundtrip_amended (v : Value) (hv : v.clean) (F : Nat) (rest : List Nat)
    (hrest : valueStop rest) (hF : (Value.godot_fmt v).length + 21 ≤ F) :
    Value.parse F ⟨none, Value.godot_fmt v ++ rest⟩ = .ok (v, valueEndState v rest) := by
  have h := valueParse_render [] (Or.inl rfl) v hv F rest hrest hF
  rwa [List.nil_append] at h

/-- C3 witness: a Color value with a fractional, a zero, a negative and a
whole component re-parses to itself before a newline. -/
theorem c3_value_roundtrip_amended_witness :
    Value.clean (.color (.rgba (.fin 125 1) (.fin 0 0) (.fin (-3) 0) (.fin 1 0)))
    ∧ valueStop [10]
    ∧ (Value.godot_fmt (.color (.rgba (.fin 125 1) (.fin 0 0) (.fin (-3) 0)
        (.fin 1 0)))).length + 21 ≤ 200
    ∧ Value.parse 200
        ⟨none, Value.godot_fmt (.color (.rgba (.fin 125 1) (.fin 0 0) (.fin (-3) 0)
          (.fin 1 0))) ++ [10]⟩
      = .ok (.color (.rgba (.fin 125 1) (.fin 0 0) (.fin (-3) 0) (.fin 1 0)),
          valueEndState (.color (.rgba (.fin 125 1) (.fin 0 0) (.fin (-3) 0)
            (.fin 1 0))) [10]) :=
  ⟨by decide, by decide, by decide,
   c3_value_roundtrip_amended _ (by decide) 200 [10] (by decide) (by decide)⟩

end Godot
